import Mathlib

/-!
# blazectl: FHIRPath evaluator and TestScript orchestrator

A shallow embedding of `fhirpath/evaluator.go`, `fhirpath/parser.go`,
`fhir/testreport/testreport.go`, `fhir/testscript/testscript.go` and
`cmd/test.go`, followed by theorems about the embedded functions.

Conventions of the embedding:

* a Go `interface{}` value is a `Value`; a `map[string]interface{}` is an
  association list read with `Obj.get` (a missing key reads as `nil`);
* a Go function returning `(result, error)` returns a pair whose second
  component is an `Option` of the error, so that the result handed back next
  to an error stays visible;
* a run-time panic (nil dereference, index out of range, explicit `panic`)
  is the `Except.error` branch of `Except Panic`;
* `float64` is modelled by its value: a rational, an infinity or NaN, with
  the IEEE comparison operators of Go.
-/

namespace Blazectl

set_option linter.dupNamespace false

/-! ## Panics -/

/-- Run-time panics of the Go program. -/
inductive Panic where
  | nilDeref
  | indexOutOfRange
  | explicit (msg : String)
  deriving Repr, DecidableEq

/-! ## float64 -/

/-- The value of a Go `float64`: finite (a rational), an infinity, or NaN.
Negative zero is identified with zero, which the comparison operators do not
tell apart. -/
inductive Float64 where
  | finite (q : ℚ)
  | posInf
  | negInf
  | nan
  deriving Repr, DecidableEq

namespace Float64

/-- Go `a == b` on `float64`. -/
def eq : Float64 → Float64 → Bool
  | finite a, finite b => decide (a = b)
  | posInf, posInf => true
  | negInf, negInf => true
  | _, _ => false

/-- Go `a < b` on `float64`. -/
def lt : Float64 → Float64 → Bool
  | nan, _ => false
  | _, nan => false
  | finite a, finite b => decide (a < b)
  | negInf, negInf => false
  | negInf, _ => true
  | _, negInf => false
  | posInf, _ => false
  | finite _, posInf => true

/-- Go `a <= b` on `float64`. -/
def le : Float64 → Float64 → Bool
  | nan, _ => false
  | _, nan => false
  | finite a, finite b => decide (a ≤ b)
  | negInf, _ => true
  | _, posInf => true
  | posInf, _ => false
  | finite _, negInf => false

/-- Go `a > b` on `float64`. -/
def gt (a b : Float64) : Bool := lt b a

/-- Go `a >= b` on `float64`. -/
def ge (a b : Float64) : Bool := le b a

/-- Round a natural number to 53 significant bits, ties to even. -/
def roundNat53 (n : Nat) : Nat :=
  if n < 2 ^ 53 then n
  else
    let shift := Nat.log2 n - 52
    let q := n / 2 ^ shift
    let r := n % 2 ^ shift
    let half := 2 ^ (shift - 1)
    let q1 := if r > half ∨ (r = half ∧ q % 2 = 1) then q + 1 else q
    q1 * 2 ^ shift

/-- Go conversion `float64(i)` of an `int`: round to nearest, ties to even.
An `int` has at most 64 bits, so the result is finite. -/
def ofInt (i : Int) : Float64 :=
  if i < 0 then finite (-(roundNat53 i.natAbs : ℚ)) else finite (roundNat53 i.natAbs : ℚ)

end Float64

/-! ## Values -/

/-- A Go `interface{}` value as the evaluator sees it. -/
inductive Value where
  | null
  | bool (b : Bool)
  | int (i : Int)
  | float (f : Float64)
  | str (s : String)
  | seq (xs : List Value)
  | obj (m : List (String × Value))
  deriving Repr

/-- A Go `map[string]interface{}`. -/
abbrev Obj := List (String × Value)

/-- Go map read `m[k]`: the zero value `nil` when the key is absent. -/
def Obj.get (m : Obj) (k : String) : Value :=
  match m.lookup k with
  | some v => v
  | none => Value.null

/-- Go `s == v` between a string and an `interface{}`. -/
def Value.eqString (v : Value) (s : String) : Bool :=
  match v with
  | Value.str t => decide (s = t)
  | _ => false

/-! ## Operators (`fhirpath/parser.go`) -/

/-- The `Operator` enumeration. -/
inductive Operator where
  | OpMul
  | OpDiv
  | OpAdd
  | OpSub
  | OpDivide
  | OpModulo
  | OpAnd
  | OpGreaterThan
  | OpGreaterOrEqual
  | OpLessThan
  | OpLessOrEqual
  | OpEqual
  deriving Repr, DecidableEq

/-- The `PolarityOp` enumeration. -/
inductive PolarityOp where
  | PPlus
  | PMinus
  deriving Repr, DecidableEq

/-- Errors returned by the evaluator, one constructor per `fmt.Errorf`. -/
inductive EvalError where
  | leftMoreThanOne
  | rightMoreThanOne
  | inappropriateNumberOperator (op : Operator)
  | inappropriateStringOperator (op : Operator)
  | uncomparableTypes (a b : Value)
  | unsupportedTerm
  | unsupportedInvocation
  | unsupportedNavigation (item : Value) (identifier : String)
  | unsupportedFunction (name : String)
  | whereNonBool (item : Value)
  | whereParamCount (n : Nat)
  | unsupportedLiteral
  deriving Repr

/-- Method `Operator.compareInt`. -/
def Operator.compareInt (op : Operator) (a b : Int) : Bool × Option EvalError :=
  match op with
  | OpLessOrEqual => (decide (a ≤ b), none)
  | OpLessThan => (decide (a < b), none)
  | OpGreaterThan => (decide (a > b), none)
  | OpGreaterOrEqual => (decide (a ≥ b), none)
  | OpEqual => (decide (a = b), none)
  | _ => (false, some (EvalError.inappropriateNumberOperator op))

/-- Method `Operator.compareFloat64`. -/
def Operator.compareFloat64 (op : Operator) (a b : Float64) : Bool × Option EvalError :=
  match op with
  | OpLessOrEqual => (Float64.le a b, none)
  | OpLessThan => (Float64.lt a b, none)
  | OpGreaterThan => (Float64.gt a b, none)
  | OpGreaterOrEqual => (Float64.ge a b, none)
  | OpEqual => (Float64.eq a b, none)
  | _ => (false, some (EvalError.inappropriateNumberOperator op))

/-- Method `Operator.compareString`. -/
def Operator.compareString (op : Operator) (a b : String) : Bool × Option EvalError :=
  match op with
  | OpEqual => (decide (a = b), none)
  | _ => (false, some (EvalError.inappropriateStringOperator op))

/-- Function `compare` of `fhirpath/evaluator.go`: a type switch on both
operands, falling through to the "uncomparable types" error. -/
def compare (op : Operator) (a b : Value) : Bool × Option EvalError :=
  match a, b with
  | Value.int x, Value.int y => op.compareInt x y
  | Value.int x, Value.float y => op.compareFloat64 (Float64.ofInt x) y
  | Value.float x, Value.int y => op.compareFloat64 x (Float64.ofInt y)
  | Value.float x, Value.float y => op.compareFloat64 x y
  | Value.str x, Value.str y => op.compareString x y
  | _, _ => (false, some (EvalError.uncomparableTypes a b))

/-! ## Expression tree (`fhirpath/parser.go`) -/

/-- Struct `Identifier`: exactly one of the four captures is set by the parser. -/
structure Identifier where
  As : String
  Is : String
  Identifier : String
  DelimitedIdentifier : String
  deriving Repr, DecidableEq

/-- Struct `QualifiedIdentifier`. -/
structure QualifiedIdentifier where
  Identifiers : List Identifier
  deriving Repr, DecidableEq

/-- Struct `TypeSpecifier`. -/
structure TypeSpecifier where
  QualifiedIdentifier : QualifiedIdentifier
  deriving Repr, DecidableEq

/-- Struct `Literal`: three nullable captures. -/
structure Literal where
  Boolean : Option Bool
  Str : Option String
  Number : Option Float64
  deriving Repr, DecidableEq

mutual
/-- Struct `Expression`. -/
inductive Expression where
  | mk (Left : EqualityExpression)
/-- Struct `EqualityExpression`. -/
inductive EqualityExpression where
  | mk (Left : InequalityExpression) (Operator : Operator) (Right : Option InequalityExpression)
/-- Struct `InequalityExpression`. -/
inductive InequalityExpression where
  | mk (Left : UnionExpression) (Operator : Operator) (Right : Option UnionExpression)
/-- Struct `UnionExpression`. -/
inductive UnionExpression where
  | mk (Left : TypeExpression) (Right : Option TypeExpression)
/-- Struct `TypeExpression`. -/
inductive TypeExpression where
  | mk (Expression : AdditiveExpression) (Modifier : String) (Type_ : Option TypeSpecifier)
/-- Struct `AdditiveExpression`. -/
inductive AdditiveExpression where
  | mk (Left : MultiplicativeExpression) (Right : List OpMultiplicativeExpression)
/-- Struct `OpMultiplicativeExpression`. -/
inductive OpMultiplicativeExpression where
  | mk (Operator : Operator) (Expression : MultiplicativeExpression)
/-- Struct `MultiplicativeExpression`. -/
inductive MultiplicativeExpression where
  | mk (Left : PolarityExpression) (Right : List OpPolarityExpression)
/-- Struct `OpPolarityExpression`. -/
inductive OpPolarityExpression where
  | mk (Operator : Operator) (Expression : PolarityExpression)
/-- Struct `PolarityExpression`. -/
inductive PolarityExpression where
  | mk (Polarity : Option PolarityOp) (Expression : IndexerExpression)
/-- Struct `IndexerExpression`. -/
inductive IndexerExpression where
  | mk (Target : InvocationExpression) (Index : Option InvocationExpression)
/-- Struct `InvocationExpression`. -/
inductive InvocationExpression where
  | mk (Target : Term) (Invocations : List Invocation)
/-- Struct `Term`. -/
inductive Term where
  | mk (Literal : Option Literal) (Invocation : Option Invocation)
/-- Struct `Invocation`. -/
inductive Invocation where
  | mk (Function : Option Function) (Identifier : Option Identifier)
/-- Struct `Function`. -/
inductive Function where
  | mk (Name : Identifier) (Params : List Expression)
end

/-! ## Evaluator (`fhirpath/evaluator.go`) -/

/-- What an `Eval` method hands back: a panic, or the pair `(result, error)`. -/
abbrev EvalResult := Except Panic (List Value × Option EvalError)

/-- Go `strings.Trim(s, "'")` on the characters of `s`. -/
def trimQuotes (s : String) : String :=
  String.mk (((s.data.dropWhile (fun c => c == Char.ofNat 39)).reverse.dropWhile
    (fun c => c == Char.ofNat 39)).reverse)

/-- Method `Literal.Eval`. -/
def Literal.Eval (l : Literal) (_coll : List Value) : EvalResult :=
  match l.Boolean with
  | some boolean => pure ([Value.bool boolean], none)
  | none =>
    match l.Str with
    | some str => pure ([Value.str (trimQuotes str)], none)
    | none =>
      match l.Number with
      | some number => pure ([Value.float number], none)
      | none => pure ([], some EvalError.unsupportedLiteral)

/-- The type-filter loop of `Identifier.Eval`. -/
def typeFilter (identifier : String) : List Value → List Value
  | [] => []
  | Value.obj mapItem :: rest =>
    if (Obj.get mapItem "resourceType").eqString identifier then
      Value.obj mapItem :: typeFilter identifier rest
    else typeFilter identifier rest
  | _ :: rest => typeFilter identifier rest

/-- The navigation loop of `Identifier.Eval`; `result` is the slice built so far. -/
def navigate (identifier : String) : List Value → List Value → List Value × Option EvalError
  | [], result => (result, none)
  | Value.obj mapItem :: rest, result =>
    match Obj.get mapItem identifier with
    | Value.null => navigate identifier rest result
    | Value.seq children => navigate identifier rest (result ++ children)
    | child => navigate identifier rest (result ++ [child])
  | item :: _, result => (result, some (EvalError.unsupportedNavigation item identifier))

/-- Method `Identifier.Eval`; `isUpper` is `unicode.IsUpper`. Indexing the
first rune of an empty name panics. -/
def Identifier.Eval (isUpper : Char → Bool) (i : Blazectl.Identifier) (coll : List Value) : EvalResult :=
  match i.Identifier.data with
  | [] => throw Panic.indexOutOfRange
  | c :: _ =>
    if isUpper c then pure (typeFilter i.Identifier coll, none)
    else pure (navigate i.Identifier coll [])

/-- The loop of `callWhere`; `criteria` is `params[0].Eval`, `result` the
slice built so far. -/
def whereLoop (criteria : List Value → EvalResult) : List Value → List Value → EvalResult
  | [], result => pure (result, none)
  | item :: rest, result =>
    match criteria [item] with
    | Except.error p => throw p
    | Except.ok (_, some err) => pure ([], some err)
    | Except.ok ([], none) => throw Panic.indexOutOfRange
    | Except.ok (Value.bool boolRes :: _, none) =>
      if boolRes then whereLoop criteria rest (result ++ [item])
      else whereLoop criteria rest result
    | Except.ok (_ :: _, none) => pure ([], some (EvalError.whereNonBool item))

/-- The second half of `EqualityExpression.Eval` and `InequalityExpression.Eval`,
entered when `e.Right != nil`: `left` is the evaluated left side, `right`
evaluates the right side. -/
def evalComparison (op : Operator) (coll left : List Value) (right : Unit → EvalResult) :
    EvalResult :=
  match left with
  | [] => pure (left, none)
  | _ :: _ :: _ => pure (left, some EvalError.leftMoreThanOne)
  | [l] =>
    match right () with
    | Except.error p => throw p
    | Except.ok (r, some err) => pure (r, some err)
    | Except.ok ([], none) => pure ([], none)
    | Except.ok (r0 :: r1 :: rs, none) => pure (r0 :: r1 :: rs, some EvalError.rightMoreThanOne)
    | Except.ok ([r], none) =>
      match compare op l r with
      | (_, some err) => pure (coll, some err)
      | (res, none) => pure ([Value.bool res], none)

/-- The body shared by `EqualityExpression.Eval` and
`InequalityExpression.Eval`: `leftRes` is `e.Left.Eval(coll)`, `right` is
`e.Right` (nil or not) with its evaluation. -/
def evalNode (op : Operator) (coll : List Value) (leftRes : EvalResult)
    (right : Option (Unit → EvalResult)) : EvalResult :=
  match leftRes with
  | Except.error p => throw p
  | Except.ok (left, some err) => pure (left, some err)
  | Except.ok (left, none) =>
    match right with
    | some r => evalComparison op coll left r
    | none => pure (left, none)

mutual
/-- Method `Expression.Eval`. -/
def Expression.Eval (isUpper : Char → Bool) : Expression → List Value → EvalResult
  | Expression.mk left, coll => EqualityExpression.Eval isUpper left coll
/-- Method `EqualityExpression.Eval`. -/
def EqualityExpression.Eval (isUpper : Char → Bool) :
    EqualityExpression → List Value → EvalResult
  | EqualityExpression.mk eLeft op (some eRight), coll =>
    evalNode op coll (InequalityExpression.Eval isUpper eLeft coll)
      (some (fun _ => InequalityExpression.Eval isUpper eRight coll))
  | EqualityExpression.mk eLeft op none, coll =>
    evalNode op coll (InequalityExpression.Eval isUpper eLeft coll) none
/-- Method `InequalityExpression.Eval`. -/
def InequalityExpression.Eval (isUpper : Char → Bool) :
    InequalityExpression → List Value → EvalResult
  | InequalityExpression.mk eLeft op (some eRight), coll =>
    evalNode op coll (UnionExpression.Eval isUpper eLeft coll)
      (some (fun _ => UnionExpression.Eval isUpper eRight coll))
  | InequalityExpression.mk eLeft op none, coll =>
    evalNode op coll (UnionExpression.Eval isUpper eLeft coll) none
/-- Method `UnionExpression.Eval`. -/
def UnionExpression.Eval (isUpper : Char → Bool) : UnionExpression → List Value → EvalResult
  | UnionExpression.mk left _, coll => TypeExpression.Eval isUpper left coll
/-- Method `TypeExpression.Eval`. -/
def TypeExpression.Eval (isUpper : Char → Bool) : TypeExpression → List Value → EvalResult
  | TypeExpression.mk expression _ _, coll => AdditiveExpression.Eval isUpper expression coll
/-- Method `AdditiveExpression.Eval`. -/
def AdditiveExpression.Eval (isUpper : Char → Bool) :
    AdditiveExpression → List Value → EvalResult
  | AdditiveExpression.mk left _, coll => MultiplicativeExpression.Eval isUpper left coll
/-- Method `MultiplicativeExpression.Eval`. -/
def MultiplicativeExpression.Eval (isUpper : Char → Bool) :
    MultiplicativeExpression → List Value → EvalResult
  | MultiplicativeExpression.mk left _, coll => PolarityExpression.Eval isUpper left coll
/-- Method `PolarityExpression.Eval`. -/
def PolarityExpression.Eval (isUpper : Char → Bool) :
    PolarityExpression → List Value → EvalResult
  | PolarityExpression.mk _ expression, coll => IndexerExpression.Eval isUpper expression coll
/-- Method `IndexerExpression.Eval`. -/
def IndexerExpression.Eval (isUpper : Char → Bool) :
    IndexerExpression → List Value → EvalResult
  | IndexerExpression.mk target _, coll => InvocationExpression.Eval isUpper target coll
/-- Method `InvocationExpression.Eval`. -/
def InvocationExpression.Eval (isUpper : Char → Bool) :
    InvocationExpression → List Value → EvalResult
  | InvocationExpression.mk target invocations, coll =>
    match Term.Eval isUpper target coll with
    | Except.error p => throw p
    | Except.ok (result, some err) => pure (result, some err)
    | Except.ok (result, none) => evalInvocations isUpper invocations result
/-- The `for _, invocation := range e.Invocations` loop of
`InvocationExpression.Eval`. -/
def evalInvocations (isUpper : Char → Bool) : List Invocation → List Value → EvalResult
  | [], result => pure (result, none)
  | invocation :: rest, result =>
    match Invocation.Eval isUpper invocation result with
    | Except.error p => throw p
    | Except.ok (result1, some err) => pure (result1, some err)
    | Except.ok (result1, none) => evalInvocations isUpper rest result1
/-- Method `Term.Eval`. -/
def Term.Eval (isUpper : Char → Bool) : Term → List Value → EvalResult
  | Term.mk _ (some invocation), coll => Invocation.Eval isUpper invocation coll
  | Term.mk (some literal) none, coll => literal.Eval coll
  | Term.mk none none, _ => pure ([], some EvalError.unsupportedTerm)
/-- Method `Invocation.Eval`. -/
def Invocation.Eval (isUpper : Char → Bool) : Invocation → List Value → EvalResult
  | Invocation.mk _ (some identifier), coll => identifier.Eval isUpper coll
  | Invocation.mk (some function) none, coll => Function.Eval isUpper function coll
  | Invocation.mk none none, _ => pure ([], some EvalError.unsupportedInvocation)
/-- Method `Function.Eval` with `callWhere` inlined at its only call site. -/
def Function.Eval (isUpper : Char → Bool) : Function → List Value → EvalResult
  | Function.mk name params, coll =>
    if name.Identifier = "where" then
      match params with
      | [criteria] => whereLoop (fun c => Expression.Eval isUpper criteria c) coll []
      | _ => pure ([], some (EvalError.whereParamCount params.length))
    else pure ([], some (EvalError.unsupportedFunction name.Identifier))
end

/-! ## Rendering (`fhirpath/string.go`) -/

/-- The renderings by package `fmt` that the `String` methods rely on. -/
structure Fmt where
  /-- Go `fmt.Sprint` of a `float64`. -/
  number : Float64 → String
  /-- Go verb `%s` applied to a `*TypeSpecifier`, a type without `String`
  method. -/
  typeSpecifier : TypeSpecifier → String

/-- Constant `unknown`. -/
def unknown : String := "<unknown>"

/-- Method `Operator.String`. -/
def Operator.String_ (op : Operator) : String :=
  match op with
  | OpMul => "*"
  | OpDiv => "/"
  | OpAdd => "+"
  | OpSub => "-"
  | OpDivide => "div"
  | OpModulo => "mod"
  | OpAnd => "&"
  | OpGreaterThan => ">"
  | OpGreaterOrEqual => ">="
  | OpLessThan => "<"
  | OpLessOrEqual => "<="
  | OpEqual => "="

/-- Method `PolarityOp.String`. -/
def PolarityOp.String_ (op : PolarityOp) : String :=
  match op with
  | PPlus => "+"
  | PMinus => "-"

/-- Method `Identifier.String`. -/
def Identifier.String_ (i : Blazectl.Identifier) : String :=
  if i.As ≠ "" then "as"
  else if i.Is ≠ "" then "as"
  else if i.Identifier ≠ "" then i.Identifier
  else if i.DelimitedIdentifier ≠ "" then i.DelimitedIdentifier
  else unknown

/-- Method `Literal.String`. -/
def Literal.String_ (fmt : Fmt) (l : Literal) : String :=
  match l.Boolean with
  | some boolean => if boolean then "true" else "false"
  | none =>
    match l.Str with
    | some str => str
    | none =>
      match l.Number with
      | some number => fmt.number number
      | none => unknown

mutual
/-- Method `Expression.String`. -/
def Expression.String_ (fmt : Fmt) : Expression → String
  | Expression.mk left => EqualityExpression.String_ fmt left
/-- Method `EqualityExpression.String`. -/
def EqualityExpression.String_ (fmt : Fmt) : EqualityExpression → String
  | EqualityExpression.mk left op (some right) =>
    InequalityExpression.String_ fmt left ++ " " ++ op.String_ ++ " " ++
      InequalityExpression.String_ fmt right
  | EqualityExpression.mk left _ none => InequalityExpression.String_ fmt left
/-- Method `InequalityExpression.String`. -/
def InequalityExpression.String_ (fmt : Fmt) : InequalityExpression → String
  | InequalityExpression.mk left op (some right) =>
    UnionExpression.String_ fmt left ++ " " ++ op.String_ ++ " " ++
      UnionExpression.String_ fmt right
  | InequalityExpression.mk left _ none => UnionExpression.String_ fmt left
/-- Method `UnionExpression.String`. -/
def UnionExpression.String_ (fmt : Fmt) : UnionExpression → String
  | UnionExpression.mk left (some right) =>
    TypeExpression.String_ fmt left ++ " | " ++ TypeExpression.String_ fmt right
  | UnionExpression.mk left none => TypeExpression.String_ fmt left
/-- Method `TypeExpression.String`. -/
def TypeExpression.String_ (fmt : Fmt) : TypeExpression → String
  | TypeExpression.mk expression modifier (some spec) =>
    AdditiveExpression.String_ fmt expression ++ " " ++ modifier ++ " " ++
      fmt.typeSpecifier spec
  | TypeExpression.mk expression _ none => AdditiveExpression.String_ fmt expression
/-- Method `AdditiveExpression.String`. -/
def AdditiveExpression.String_ (fmt : Fmt) : AdditiveExpression → String
  | AdditiveExpression.mk left right =>
    MultiplicativeExpression.String_ fmt left ++
      ".".intercalate (opMultiplicativeStrings fmt right)
/-- The loop of `AdditiveExpression.String` building `rightExprStrings`. -/
def opMultiplicativeStrings (fmt : Fmt) : List OpMultiplicativeExpression → List String
  | [] => []
  | expr :: rest =>
    OpMultiplicativeExpression.String_ fmt expr :: opMultiplicativeStrings fmt rest
/-- Method `OpMultiplicativeExpression.String`. -/
def OpMultiplicativeExpression.String_ (fmt : Fmt) : OpMultiplicativeExpression → String
  | OpMultiplicativeExpression.mk op expression =>
    " " ++ op.String_ ++ " " ++ MultiplicativeExpression.String_ fmt expression
/-- Method `MultiplicativeExpression.String`. -/
def MultiplicativeExpression.String_ (fmt : Fmt) : MultiplicativeExpression → String
  | MultiplicativeExpression.mk left right =>
    PolarityExpression.String_ fmt left ++ ".".intercalate (opPolarityStrings fmt right)
/-- The loop of `MultiplicativeExpression.String` building `rightExprStrings`. -/
def opPolarityStrings (fmt : Fmt) : List OpPolarityExpression → List String
  | [] => []
  | expr :: rest => OpPolarityExpression.String_ fmt expr :: opPolarityStrings fmt rest
/-- Method `OpPolarityExpression.String`. -/
def OpPolarityExpression.String_ (fmt : Fmt) : OpPolarityExpression → String
  | OpPolarityExpression.mk op expression =>
    " " ++ op.String_ ++ " " ++ PolarityExpression.String_ fmt expression
/-- Method `PolarityExpression.String`. -/
def PolarityExpression.String_ (fmt : Fmt) : PolarityExpression → String
  | PolarityExpression.mk (some polarity) expression =>
    polarity.String_ ++ IndexerExpression.String_ fmt expression
  | PolarityExpression.mk none expression => IndexerExpression.String_ fmt expression
/-- Method `IndexerExpression.String`. -/
def IndexerExpression.String_ (fmt : Fmt) : IndexerExpression → String
  | IndexerExpression.mk target (some index) =>
    InvocationExpression.String_ fmt target ++ ".[" ++
      InvocationExpression.String_ fmt index ++ "]"
  | IndexerExpression.mk target none => InvocationExpression.String_ fmt target
/-- Method `InvocationExpression.String`. -/
def InvocationExpression.String_ (fmt : Fmt) : InvocationExpression → String
  | InvocationExpression.mk target [] => Term.String_ fmt target
  | InvocationExpression.mk target (invocation :: rest) =>
    Term.String_ fmt target ++ "." ++
      ".".intercalate (Invocation.String_ fmt invocation :: invocationStrings fmt rest)
/-- The loop of `InvocationExpression.String` building `invocationStrs`. -/
def invocationStrings (fmt : Fmt) : List Invocation → List String
  | [] => []
  | invocation :: rest => Invocation.String_ fmt invocation :: invocationStrings fmt rest
/-- Method `Term.String`. -/
def Term.String_ (fmt : Fmt) : Term → String
  | Term.mk _ (some invocation) => Invocation.String_ fmt invocation
  | Term.mk (some literal) none => literal.String_ fmt
  | Term.mk none none => unknown
/-- Method `Invocation.String`. -/
def Invocation.String_ (fmt : Fmt) : Invocation → String
  | Invocation.mk _ (some identifier) => identifier.String_
  | Invocation.mk (some function) none => Function.String_ fmt function
  | Invocation.mk none none => unknown
/-- Method `Function.String`. -/
def Function.String_ (fmt : Fmt) : Function → String
  | Function.mk name params =>
    name.String_ ++ "(" ++ ",".intercalate (paramStrings fmt params) ++ ")"
/-- The loop of `Function.String` building `stringParams`. -/
def paramStrings (fmt : Fmt) : List Expression → List String
  | [] => []
  | param :: rest => Expression.String_ fmt param :: paramStrings fmt rest
end

/-! ## Test reports (`fhir/testreport/testreport.go`) -/

/-- The `AssertionResponse` type of `fhir/testscript`: an `int` holding the
HTTP status code. -/
abbrev AssertionResponse := Int

mutual
/-- A Go `error` value: the error of a library call, an evaluator error, or
`fmt.Errorf(format, args...)` kept as its format and arguments. -/
inductive GoError where
  | lib (msg : String)
  | eval (e : EvalError)
  | errorf (format : String) (args : List FmtArg)
/-- An argument handed to `fmt.Sprintf` / `fmt.Errorf`. -/
inductive FmtArg where
  | str (s : String)
  | int (n : Int)
  | value (v : Value)
  | expr (e : Expression)
  | response (r : AssertionResponse)
  | error (e : GoError)
end

/-- A Go string built for a report: a plain string, or
`fmt.Sprintf(format, args...)` kept as its format and arguments. -/
inductive Text where
  | str (s : String)
  | sprintf (format : String) (args : List FmtArg)

namespace testreport

/-- The `ActionResultCode` enumeration. -/
inductive ActionResultCode where
  | Pass
  | Skip
  | Fail
  | Warning
  | Error
  deriving Repr, DecidableEq

/-- Struct `ActionResult`. -/
structure ActionResult where
  Result : ActionResultCode
  Message : Text
  Detail : String

/-- Method `ActionResult.Failed`. -/
def ActionResult.Failed (r : ActionResult) : Bool :=
  match r.Result with
  | ActionResultCode.Fail => true
  | ActionResultCode.Error => true
  | _ => false

/-- Struct `Action`: two nullable results. -/
structure Action where
  Operation : Option ActionResult
  Assert : Option ActionResult

/-- Method `Action.Failed`. -/
def Action.Failed (a : Action) : Bool :=
  match a.Operation with
  | some operation => operation.Failed
  | none =>
    match a.Assert with
    | some assert => assert.Failed
    | none => false

/-- Struct `Setup`. -/
structure Setup where
  Action : List Action

/-- Method `Setup.Failed` (value receiver): `s.Action[l-1].Failed()` when
`l > 0`, else `false`. -/
def Setup.Failed (s : Setup) : Bool :=
  let l := s.Action.length
  if l > 0 then
    match s.Action.get? (l - 1) with
    | some last => last.Failed
    | none => false
  else false

/-- Struct `Test`. -/
structure Test where
  Name : String
  Description : String
  Action : List Action

end testreport

/-! ## Test scripts (`fhir/testscript/testscript.go`) -/

namespace testscript

/-- Struct `types.Reference`; only the field read by `loadFixtures`. -/
structure Reference where
  Reference : String

/-- Struct `types.Coding`; only the field read by `executeOperation`. -/
structure Coding where
  Code : String

/-- Struct `Variable`. -/
structure Variable where
  Name : String
  DefaultValue : String
  Description : String
  Expression : String
  HeaderField : String
  Hint : String
  Path : String
  SourceId : String

/-- Struct `Fixture`. -/
structure Fixture where
  Id : String
  Autocreate : Bool
  Autodelete : Bool
  Resource : Option Reference

/-- Struct `Operation`. -/
structure Operation where
  Type_ : Option Coding
  Resource : String
  Label : String
  Description : String
  Accept : String
  ContentType : String
  Designation : Int
  EncodeRequestUrl : Bool
  Method : String
  Origin : Int
  Params : String
  RequestId : String
  ResponseId : String
  SourceId : String
  TargetId : String
  Url : String

/-- The `AssertionOperator` enumeration. -/
inductive AssertionOperator where
  | Equals
  | NotEquals
  | In
  | NotIn
  | GreaterThan
  | LessThan
  | Empty
  | NotEmpty
  | Contains
  | NotContains
  | Eval
  deriving Repr, DecidableEq

/-- Struct `Assert`. -/
structure Assert where
  Label : String
  Description : String
  Expression : String
  Operator : AssertionOperator
  Path : String
  Resource : String
  Response : Option AssertionResponse
  Value : String
  WarningOnly : Bool

/-- Struct `Action`. -/
structure Action where
  Operation : Option Operation
  Assert : Option Assert

/-- Struct `Setup`. -/
structure Setup where
  Action : List Action

/-- Struct `Test`. -/
structure Test where
  Name : String
  Description : String
  Action : List Action

/-- Method `AssertionOperator.String`. -/
def AssertionOperator.String_ (op : AssertionOperator) : String :=
  match op with
  | Equals => "equals"
  | NotEquals => "notEquals"
  | In => "in"
  | NotIn => "notIn"
  | GreaterThan => "greaterThan"
  | LessThan => "lessThan"
  | Empty => "empty"
  | NotEmpty => "notEmpty"
  | Contains => "vontains"
  | NotContains => "notContains"
  | Eval => "eval"

/-- Method `AssertionOperator.Comp`, at the only type it is called with, two
strings. -/
def AssertionOperator.Comp (op : AssertionOperator) (a b : String) : Bool × Option GoError :=
  match op with
  | Equals => (decide (a = b), none)
  | NotEquals => (decide (a ≠ b), none)
  | _ => (false, some (GoError.errorf "unsupported assertion operator `%s`" [FmtArg.str op.String_]))

/-- Method `AssertionOperator.IntComp`. -/
def AssertionOperator.IntComp (op : AssertionOperator) (i1 i2 : Int) : Bool × Option GoError :=
  match op with
  | Equals => (decide (i1 = i2), none)
  | NotEquals => (decide (i1 ≠ i2), none)
  | GreaterThan => (decide (i1 > i2), none)
  | LessThan => (decide (i1 < i2), none)
  | _ => (false, some (GoError.errorf "unsupported assertion operator `%s`" [FmtArg.str op.String_]))

/-- Method `AssertionResponse.Code`. -/
def AssertionResponse.Code (t : AssertionResponse) : Int := t

end testscript

/-! ## Documents and reports (`fhir/fhir.go`) -/

namespace fhir

/-- Struct `TestScript`. -/
structure TestScript where
  Name : String
  Title : String
  Variable : List testscript.Variable
  Fixture : List testscript.Fixture
  Setup : Option testscript.Setup
  Test : List testscript.Test

/-- Struct `TestReport`. -/
structure TestReport where
  Name : String
  Status : String
  Setup : Option testreport.Setup
  Test : List testreport.Test

/-- Struct `Client`; its methods `Do` and `NewCreateRequest` are library
parameters. -/
structure Client where
  Base : String

end fhir

/-! ## Library and environment parameters

Functions of the Go standard library, of third-party packages and of the
parts of package `fhir` that the orchestrator calls. -/

/-- A Go `http.Header`. -/
abbrev Header := List (String × List String)

/-- The fields of `http.Request` the program sets. -/
structure Request where
  Method : String
  URL : String
  Header : Header
  Body : Option String

/-- The fields of `http.Response` the program reads. -/
structure Response where
  Status : String
  StatusCode : Int
  Header : Header
  Body : String

/-- The external functions the orchestrator calls. `Do` is the transport: it
answers a request knowing the requests sent before it. -/
structure Lib where
  /-- Go `unicode.IsUpper`. -/
  IsUpper : Char → Bool
  /-- Go `fmt.Sprint` of one value. -/
  Sprint : Value → String
  /-- Function `fhirpath.Parse`. -/
  Parse : String → Except GoError Expression
  /-- Function `fhir.ReadGeneric` applied to a body. -/
  ReadGeneric : String → Except GoError (Option Obj)
  /-- Function `jsonpath.Get`. -/
  JsonPathGet : String → Obj → Except GoError Value
  /-- Function `json.Marshal`. -/
  Marshal : Obj → Except GoError String
  /-- Function `http.NewRequest` without body. -/
  NewRequest : String → String → Except GoError Request
  /-- Method `fhir.Client.NewCreateRequest`. -/
  NewCreateRequest : fhir.Client → String → String → Except GoError Request
  /-- Method `fhir.Client.Do`. -/
  Do : fhir.Client → List Request → Request → Except GoError Response
  /-- Function `filepath.Join`. -/
  Join : String → String → String
  /-- Function `os.Stat` followed by `IsDir`. -/
  Stat : String → Except GoError Bool
  /-- Function `os.Open`: the content of the file. -/
  Open : String → Except GoError String

/-- Go `h.Add(key, value)`. -/
def Header.add (h : Header) (key value : String) : Header :=
  match h.lookup key with
  | some vs => (key, vs ++ [value]) :: h.filter (fun p => p.1 != key)
  | none => h ++ [(key, [value])]

/-! ## Execution context (`cmd/test.go`) -/

/-- Struct `fixture`. -/
structure fixture where
  headers : Header
  resource : Option Obj

/-- Type `fixtures`, a Go map. -/
abbrev fixtures := List (String × fixture)

/-- Struct `variable` of `cmd/test.go`. -/
structure variableEntry where
  expression : Expression
  sourceId : String

/-- Type `variables`, a Go map. -/
abbrev variableTable := List (String × variableEntry)

/-- Go map write `m[k] = v`. -/
def mapSet {α : Type} (m : List (String × α)) (k : String) (v : α) : List (String × α) :=
  (k, v) :: m.filter (fun p => p.1 != k)

/-- Struct `operationResult`. -/
structure operationResult where
  request : Request
  response : Response
  resource : Option Obj

/-- Struct `context` without its `fixtures` field: the fields copied when a
`context` is passed by value. `lastResult` is a nullable pointer. -/
structure context where
  client : fhir.Client
  vars : variableTable
  lastResult : Option operationResult

/-- What is shared by every copy of a `context` and by the outside world: the
one `fixtures` map allocated by `loadFixtures` (a Go map is a reference, so
`ctx.fixtures[k] = v` is seen through every copy) and the requests handed to
the transport so far. -/
structure Heap where
  fixtures : fixtures
  sent : List Request

/-- Go `ctx.fixtures[id].resource`: the zero `fixture` when the key is absent. -/
def Heap.resource (h : Heap) (id : String) : Option Obj :=
  match h.fixtures.lookup id with
  | some f => f.resource
  | none => none

/-! ## Placeholders -/

/-- A piece of a scanned string: a character outside every match of
`\$\x7b([^\x7d]+)\x7d`, or one match with its captured name. -/
inductive Segment where
  | char (c : Char)
  | var (name : List Char)

/-- State of the scan for `varRegExp`: outside a match, after a dollar sign,
or after dollar-brace with the reversed characters read since. -/
inductive ScanState where
  | outside
  | dollar
  | name (acc : List Char)

/-- Leftmost, non-overlapping matches of `varRegExp`, with the characters
between them. -/
def segments : List Char → ScanState → List Segment
  | [], ScanState.outside => []
  | [], ScanState.dollar => [Segment.char (Char.ofNat 36)]
  | [], ScanState.name acc =>
    (Char.ofNat 36 :: Char.ofNat 123 :: acc.reverse).map Segment.char
  | c :: rest, ScanState.outside =>
    if c = Char.ofNat 36 then segments rest ScanState.dollar
    else Segment.char c :: segments rest ScanState.outside
  | c :: rest, ScanState.dollar =>
    if c = Char.ofNat 123 then segments rest (ScanState.name [])
    else if c = Char.ofNat 36 then Segment.char (Char.ofNat 36) :: segments rest ScanState.dollar
    else Segment.char (Char.ofNat 36) :: Segment.char c :: segments rest ScanState.outside
  | c :: rest, ScanState.name acc =>
    if c = Char.ofNat 125 then
      match acc with
      | [] => Segment.char (Char.ofNat 36) :: Segment.char (Char.ofNat 123) ::
          Segment.char c :: segments rest ScanState.outside
      | _ :: _ => Segment.var acc.reverse :: segments rest ScanState.outside
    else segments rest (ScanState.name (c :: acc))

/-- Function `FindAllVarNames`. -/
def FindAllVarNames (s : String) : List String :=
  (segments s.data ScanState.outside).filterMap fun seg =>
    match seg with
    | Segment.var name => some (String.mk name)
    | Segment.char _ => none

/-- Go `varRegExp.ReplaceAllStringFunc(s, repl)`. -/
def ReplaceAllStringFunc (s : String) (repl : String → String) : String :=
  String.mk (((segments s.data ScanState.outside).map fun seg =>
    match seg with
    | Segment.var name =>
      (repl (String.mk (Char.ofNat 36 :: Char.ofNat 123 :: name ++ [Char.ofNat 125]))).data
    | Segment.char c => [c]).flatten)

/-! ## Orchestrator (`cmd/test.go`) -/

open testreport (ActionResult ActionResultCode)

/-- Function `pass`. -/
def pass (msg : String) : ActionResult :=
  { Result := ActionResultCode.Pass, Message := Text.str msg, Detail := "" }

/-- Function `passf`. -/
def passf (format : String) (a : List FmtArg) : ActionResult :=
  { Result := ActionResultCode.Pass, Message := Text.sprintf format a, Detail := "" }

/-- Function `actionResult`. -/
def actionResult (code : ActionResultCode) (format : String) (a : List FmtArg) : ActionResult :=
  { Result := code, Message := Text.sprintf format a, Detail := "" }

/-- Function `failf`. -/
def failf (format : String) (a : List FmtArg) : ActionResult :=
  actionResult ActionResultCode.Fail format a

/-- Function `errorf`. -/
def errorf (format : String) (a : List FmtArg) : ActionResult :=
  actionResult ActionResultCode.Error format a

/-- Function `reportName`. -/
def reportName (script : fhir.TestScript) : String :=
  if script.Title ≠ "" then script.Title else script.Name

/-- Function `readFixture`. -/
def readFixture (lib : Lib) (filename : String) : Except GoError (Option Obj) :=
  match lib.Open filename with
  | Except.error err => Except.error err
  | Except.ok file => lib.ReadGeneric file

/-- The loop of `loadFixtures`; `result` is the map built so far. -/
def loadFixturesLoop (lib : Lib) (dir : String) :
    List testscript.Fixture → fixtures → Except GoError fixtures
  | [], result => Except.ok result
  | fix :: rest, result =>
    if fix.Id ≠ "" then
      match fix.Resource with
      | some resourceRef =>
        let filename := lib.Join dir resourceRef.Reference
        match lib.Stat filename with
        | Except.error err => Except.error err
        | Except.ok true =>
          Except.error (GoError.errorf "fixture `%s` resolved to a directory"
            [FmtArg.str resourceRef.Reference])
        | Except.ok false =>
          match readFixture lib filename with
          | Except.error err => Except.error err
          | Except.ok resource =>
            loadFixturesLoop lib dir rest
              (mapSet result fix.Id { headers := [], resource := resource })
      | none => loadFixturesLoop lib dir rest result
    else loadFixturesLoop lib dir rest result

/-- Function `loadFixtures`. -/
def loadFixtures (lib : Lib) (dir : String) (fixs : List testscript.Fixture) :
    Except GoError fixtures :=
  loadFixturesLoop lib dir fixs []

/-- The loop of `prepareVariables`; `result` is the map built so far. -/
def prepareVariablesLoop (lib : Lib) :
    List testscript.Variable → variableTable → Except GoError variableTable
  | [], result => Except.ok result
  | v :: rest, result =>
    if v.Name ≠ "" then
      if v.Expression ≠ "" then
        match lib.Parse v.Expression with
        | Except.error err =>
          Except.error (GoError.errorf
            "error while parsing FHIRPath expression `%s` of vaiable `%s`: %s"
            [FmtArg.str v.Expression, FmtArg.str v.Name, FmtArg.error err])
        | Except.ok expr =>
          prepareVariablesLoop lib rest
            (mapSet result v.Name { expression := expr, sourceId := v.SourceId })
      else prepareVariablesLoop lib rest result
    else prepareVariablesLoop lib rest result

/-- Function `prepareVariables`. -/
def prepareVariables (lib : Lib) (vs : List testscript.Variable) : Except GoError variableTable :=
  prepareVariablesLoop lib vs []

/-- The loop of `replaceVariables` over the names found; `replacements` is
the map built so far. -/
def replacementsLoop (lib : Lib) (heap : Heap) (ctx : context) :
    List String → List (String × String) → Except Panic (Except GoError (List (String × String)))
  | [], replacements => pure (Except.ok replacements)
  | name :: rest, replacements =>
    match ctx.vars.lookup name with
    | some v =>
      if v.sourceId ≠ "" then
        match heap.resource v.sourceId with
        | some resource =>
          match v.expression.Eval lib.IsUpper [Value.obj resource] with
          | Except.error p => throw p
          | Except.ok (_, some err) =>
            pure (Except.error (GoError.errorf
              "error while evaluating FHIRPath expression `%s`: %s"
              [FmtArg.expr v.expression, FmtArg.error (GoError.eval err)]))
          | Except.ok ([r], none) =>
            replacementsLoop lib heap ctx rest
              (mapSet replacements ("$\x7b" ++ name ++ "\x7d") (lib.Sprint r))
          | Except.ok (result, none) =>
            pure (Except.error (GoError.errorf
              "FHIRPath expression `%s` didn't evaluate to a single value. Instead %d values were returned"
              [FmtArg.expr v.expression, FmtArg.int result.length]))
        | none =>
          pure (Except.error (GoError.errorf
            "missing resource with sourceId `%s` in variable `%s`"
            [FmtArg.str v.sourceId, FmtArg.str name]))
      else
        pure (Except.error (GoError.errorf "variable `%s` without sourceId" [FmtArg.str name]))
    | none => pure (Except.error (GoError.errorf "missing Variable `%s`" [FmtArg.str name]))

/-- Function `replaceVariables`: the replaced string and the error. -/
def replaceVariables (lib : Lib) (heap : Heap) (ctx : context) (s : String) :
    Except Panic (String × Option GoError) :=
  match replacementsLoop lib heap ctx (FindAllVarNames s) [] with
  | Except.error p => throw p
  | Except.ok (Except.error err) => pure ("", some err)
  | Except.ok (Except.ok replacements) =>
    pure (ReplaceAllStringFunc s (fun name =>
      match replacements.lookup name with
      | some r => r
      | none => ""), none)

/-- Function `historyBaseUrl`. -/
def historyBaseUrl (client : fhir.Client) (operation : testscript.Operation) : String :=
  if operation.Resource ≠ "" then client.Base ++ "/" ++ operation.Resource else client.Base

/-- Function `historyRequestUrl`. -/
def historyRequestUrl (lib : Lib) (heap : Heap) (ctx : context)
    (operation : testscript.Operation) : Except Panic (String × Option GoError) :=
  if operation.Url ≠ "" then
    match replaceVariables lib heap ctx operation.Url with
    | Except.error p => throw p
    | Except.ok (_, some err) =>
      pure ("", some (GoError.errorf
        "error while replacing variables in operation.url `%s`: %s"
        [FmtArg.str operation.Url, FmtArg.error err]))
    | Except.ok (replacement, none) => pure (replacement, none)
  else if operation.Params ≠ "" then
    match replaceVariables lib heap ctx operation.Params with
    | Except.error p => throw p
    | Except.ok (_, some err) =>
      pure ("", some (GoError.errorf
        "error while replacing variables in operation.params `%s`: %s"
        [FmtArg.str operation.Params, FmtArg.error err]))
    | Except.ok (replacement, none) =>
      pure (historyBaseUrl ctx.client operation ++ replacement, none)
  else pure (historyBaseUrl ctx.client operation ++ "/_history", none)

/-- Function `newHistoryRequest`. -/
def newHistoryRequest (lib : Lib) (heap : Heap) (ctx : context)
    (operation : testscript.Operation) : Except Panic (Except GoError Request) :=
  match historyRequestUrl lib heap ctx operation with
  | Except.error p => throw p
  | Except.ok (_, some err) => pure (Except.error err)
  | Except.ok (url, none) =>
    match lib.NewRequest "GET" url with
    | Except.error err => pure (Except.error err)
    | Except.ok req =>
      pure (Except.ok { req with Header := Header.add req.Header "Accept" "application/fhir+json" })

/-- Function `executeHistoryOperation`. -/
def executeHistoryOperation (lib : Lib) (heap : Heap) (ctx : context)
    (op : testscript.Operation) : Except Panic (Heap × context × ActionResult) :=
  match newHistoryRequest lib heap ctx op with
  | Except.error p => throw p
  | Except.ok (Except.error err) =>
    pure (heap, ctx, errorf "Error while creating system history request: %s" [FmtArg.error err])
  | Except.ok (Except.ok req) =>
    let heap1 : Heap := { heap with sent := heap.sent ++ [req] }
    match lib.Do ctx.client heap.sent req with
    | Except.error err =>
      pure (heap1, ctx,
        errorf "Error while performing system history request: %s" [FmtArg.error err])
    | Except.ok resp =>
      match lib.ReadGeneric resp.Body with
      | Except.error err =>
        pure (heap1, ctx,
          errorf "Error while reading a system history response: %s" [FmtArg.error err])
      | Except.ok resource =>
        let captured : fixture := { headers := resp.Header, resource := resource }
        let heap2 : Heap :=
          if op.ResponseId ≠ "" then
            { heap1 with fixtures := mapSet heap1.fixtures op.ResponseId captured }
          else heap1
        let lastResult : operationResult :=
          { request := req, response := resp, resource := resource }
        pure (heap2, { ctx with lastResult := some lastResult },
          pass "Successful system history request")

/-- Go `resource["resourceType"].(string)`. -/
def resourceTypeOf (resource : Obj) : Option String :=
  match Obj.get resource "resourceType" with
  | Value.str t => some t
  | _ => none

/-- Function `executeCreateOperation`. -/
def executeCreateOperation (lib : Lib) (heap : Heap) (ctx : context)
    (op : testscript.Operation) : Except Panic (Heap × context × ActionResult) :=
  if op.SourceId ≠ "" then
    match heap.resource op.SourceId with
    | some resource =>
      match resourceTypeOf resource with
      | some resourceType =>
        match lib.Marshal resource with
        | Except.error err =>
          pure (heap, ctx, errorf "Error while preparing create request: %s" [FmtArg.error err])
        | Except.ok payload =>
          match lib.NewCreateRequest ctx.client resourceType payload with
          | Except.error err =>
            pure (heap, ctx, errorf "Error while creating create request: %s" [FmtArg.error err])
          | Except.ok req =>
            let heap1 : Heap := { heap with sent := heap.sent ++ [req] }
            match lib.Do ctx.client heap.sent req with
            | Except.error err =>
              pure (heap1, ctx,
                errorf "Error while performing create request: %s" [FmtArg.error err])
            | Except.ok resp =>
              match lib.ReadGeneric resp.Body with
              | Except.error err =>
                pure (heap1, ctx,
                  errorf "Error while reading create response: %s" [FmtArg.error err])
              | Except.ok resource1 =>
                let lastResult : operationResult :=
                  { request := req, response := resp, resource := resource1 }
                pure (heap1, { ctx with lastResult := some lastResult },
                  passf "Successful create %s request" [FmtArg.str resourceType])
      | none =>
        pure (heap, ctx, errorf "fixture `%s` has no resource type" [FmtArg.str op.SourceId])
    | none => pure (heap, ctx, errorf "fixture `%s` not found" [FmtArg.str op.SourceId])
  else pure (heap, ctx, errorf "create operation without source id" [])

/-- Function `executeOperation`; reading `op.Type.Code` through a nil `Type`
panics. -/
def executeOperation (lib : Lib) (heap : Heap) (ctx : context)
    (op : testscript.Operation) : Except Panic (Heap × context × ActionResult) :=
  match op.Type_ with
  | none => throw Panic.nilDeref
  | some coding =>
    if coding.Code = "history" then executeHistoryOperation lib heap ctx op
    else if coding.Code = "create" then executeCreateOperation lib heap ctx op
    else pure (heap, ctx, errorf "unsupported operation type `%s`" [FmtArg.str coding.Code])

/-- Function `statusCodeFormat`. -/
def statusCodeFormat (op : testscript.AssertionOperator) : String :=
  match op with
  | testscript.AssertionOperator.Equals =>
    "Expect response status code equal to `%s` but was `%s`."
  | testscript.AssertionOperator.NotEquals =>
    "Expect response status code not equal to `%s` but was `%s`."
  | _ => "Unknown comparison between `%s` and `%s`."

/-- First check of `executeAssert`, the expected resource type. `none` lets
the execution fall through to the next check. -/
def assertResource (ctx : context) (assert : testscript.Assert) :
    Except Panic (Option ActionResult) :=
  if assert.Resource ≠ "" then
    match ctx.lastResult with
    | none => throw Panic.nilDeref
    | some lastResult =>
      match lastResult.resource with
      | some resource =>
        match resourceTypeOf resource with
        | some actualResourceType =>
          match assert.Operator.Comp actualResourceType assert.Resource with
          | (_, some err) => pure (some (errorf "Error while comparing: %s" [FmtArg.error err]))
          | (false, none) =>
            pure (some (failf "Expect response resource type of `%s` but was `%s`."
              [FmtArg.str assert.Resource, FmtArg.str actualResourceType]))
          | (true, none) => pure none
        | none =>
          pure (some (failf
            "Expect response resource type of `%s` but the response isn't a resource."
            [FmtArg.str assert.Resource]))
      | none =>
        pure (some (failf
          "Expect response resource type of `%s` but no response resource was available."
          [FmtArg.str assert.Resource]))
  else pure none

/-- Second check of `executeAssert`, the expected response status. -/
def assertResponse (ctx : context) (assert : testscript.Assert) :
    Except Panic (Option ActionResult) :=
  match assert.Response with
  | some expectedResponse =>
    match ctx.lastResult with
    | none => throw Panic.nilDeref
    | some lastResult =>
      match assert.Operator.IntComp (testscript.AssertionResponse.Code expectedResponse)
          lastResult.response.StatusCode with
      | (_, some err) => pure (some (errorf "Error while comparing: %s" [FmtArg.error err]))
      | (false, none) =>
        pure (some (failf (statusCodeFormat assert.Operator)
          [FmtArg.response expectedResponse, FmtArg.str lastResult.response.Status]))
      | (true, none) => pure none
  | none => pure none

/-- Third check of `executeAssert`, the FHIRPath expression. -/
def assertExpression (lib : Lib) (ctx : context) (assert : testscript.Assert) :
    Except Panic (Option ActionResult) :=
  if assert.Expression ≠ "" then
    match lib.Parse assert.Expression with
    | Except.error _ =>
      pure (some (errorf "Error while parsing FHIRPath expression: `%s`"
        [FmtArg.str assert.Expression]))
    | Except.ok expr =>
      match ctx.lastResult with
      | none => throw Panic.nilDeref
      | some lastResult =>
        match lastResult.resource with
        | some resource =>
          match expr.Eval lib.IsUpper [Value.obj resource] with
          | Except.error p => throw p
          | Except.ok (_, some err) =>
            pure (some (errorf "Error while evaluating FHIRPath expression `%s`: %s"
              [FmtArg.str assert.Expression, FmtArg.error (GoError.eval err)]))
          | Except.ok ([Value.bool res], none) =>
            if res then pure none
            else pure (some (failf "FHIRPath expression `%s` didn't evaluate to true."
              [FmtArg.str assert.Expression]))
          | Except.ok ([r], none) =>
            pure (some (errorf
              "FHIRPath expression `%s` didn't evaluate to a boolean value. Instead the value was `%v`."
              [FmtArg.str assert.Expression, FmtArg.value r]))
          | Except.ok (result, none) =>
            pure (some (errorf
              "FHIRPath expression `%s` didn't evaluate to a single value. Instead %d values were returned."
              [FmtArg.str assert.Expression, FmtArg.int result.length]))
        | none =>
          pure (some (errorf "Given FHIRPath expression but response resource is missing." []))
  else pure none

/-- Fourth check of `executeAssert`, the JSONPath and expected value. -/
def assertPath (lib : Lib) (heap : Heap) (ctx : context) (assert : testscript.Assert) :
    Except Panic (Option ActionResult) :=
  if assert.Path ≠ "" then
    match ctx.lastResult with
    | none => throw Panic.nilDeref
    | some lastResult =>
      match lastResult.resource with
      | some resource =>
        if assert.Value ≠ "" then
          match replaceVariables lib heap ctx assert.Value with
          | Except.error p => throw p
          | Except.ok (_, some err) =>
            pure (some (errorf "error while replacing variables in value of `%s`: %s"
              [FmtArg.str assert.Description, FmtArg.error err]))
          | Except.ok (value, none) =>
            match lib.JsonPathGet assert.Path resource with
            | Except.error err =>
              pure (some (errorf "Error while evaluating JSONPath expression `%s`: %s"
                [FmtArg.str assert.Path, FmtArg.error err]))
            | Except.ok result =>
              if value ≠ lib.Sprint result then
                pure (some (failf "Expected `%s` but got `%+v`"
                  [FmtArg.str value, FmtArg.value result]))
              else pure none
        else
          pure (some (errorf "Given JSONPath expression but expected value is missing." []))
      | none =>
        pure (some (errorf "Given JSONPath expression but response resource is missing." []))
  else pure none

/-- Function `executeAssert`: the four checks in source order, the first
result returned, else `pass(assert.Description)`. -/
def executeAssert (lib : Lib) (heap : Heap) (ctx : context) (assert : testscript.Assert) :
    Except Panic ActionResult :=
  match assertResource ctx assert with
  | Except.error p => throw p
  | Except.ok (some r) => pure r
  | Except.ok none =>
    match assertResponse ctx assert with
    | Except.error p => throw p
    | Except.ok (some r) => pure r
    | Except.ok none =>
      match assertExpression lib ctx assert with
      | Except.error p => throw p
      | Except.ok (some r) => pure r
      | Except.ok none =>
        match assertPath lib heap ctx assert with
        | Except.error p => throw p
        | Except.ok (some r) => pure r
        | Except.ok none => pure (pass assert.Description)

/-- Function `executeAction`. -/
def executeAction (lib : Lib) (heap : Heap) (ctx : context) (action : testscript.Action) :
    Except Panic (Heap × context × testreport.Action) :=
  match action.Operation with
  | some operation =>
    match executeOperation lib heap ctx operation with
    | Except.error p => throw p
    | Except.ok (heap1, ctx1, actionResult) =>
      pure (heap1, ctx1, { Operation := some actionResult, Assert := none })
  | none =>
    match action.Assert with
    | some assert =>
      match executeAssert lib heap ctx assert with
      | Except.error p => throw p
      | Except.ok actionResult =>
        pure (heap, ctx, { Operation := none, Assert := some actionResult })
    | none => throw (Panic.explicit "TestScript action without operation or assert")

/-- The `for _, action := range ...` loop shared by `executeSetup` and
`executeTest`: `report` is the `report.Action` slice built so far; the loop
breaks after the first action whose report is failed. The `context` is the
loop-local copy and is not handed back. -/
def executeActions (lib : Lib) :
    Heap → context → List testscript.Action → List testreport.Action →
      Except Panic (Heap × List testreport.Action)
  | heap, _, [], report => pure (heap, report)
  | heap, ctx, action :: rest, report =>
    match executeAction lib heap ctx action with
    | Except.error p => throw p
    | Except.ok (heap1, ctx1, actionReport) =>
      if actionReport.Failed then pure (heap1, report ++ [actionReport])
      else executeActions lib heap1 ctx1 rest (report ++ [actionReport])

/-- Function `executeSetup`. -/
def executeSetup (lib : Lib) (heap : Heap) (ctx : context) (setup : testscript.Setup) :
    Except Panic (Heap × testreport.Setup) :=
  match executeActions lib heap ctx setup.Action [] with
  | Except.error p => throw p
  | Except.ok (heap1, report) => pure (heap1, { Action := report })

/-- Function `executeTest`. -/
def executeTest (lib : Lib) (heap : Heap) (ctx : context) (test : testscript.Test) :
    Except Panic (Heap × testreport.Test) :=
  match executeActions lib heap ctx test.Action [] with
  | Except.error p => throw p
  | Except.ok (heap1, report) =>
    pure (heap1, { Name := test.Name, Description := test.Description, Action := report })

/-- The `for _, test := range testScript.Test` loop of `executeTestScript`:
every test starts from the same `ctx` value; `report` is `report.Test`. -/
def executeTests (lib : Lib) (ctx : context) :
    Heap → List testscript.Test → List testreport.Test →
      Except Panic (Heap × List testreport.Test)
  | heap, [], report => pure (heap, report)
  | heap, test :: rest, report =>
    match executeTest lib heap ctx test with
    | Except.error p => throw p
    | Except.ok (heap1, testReport) => executeTests lib ctx heap1 rest (report ++ [testReport])

/-- Function `executeTestScript`: the report and the error. `sent` is the
list of requests handed to the transport before the run. Calling the
value-receiver method `Failed` through the nil `report.Setup` panics. -/
def executeTestScript (lib : Lib) (client : fhir.Client) (sent : List Request) (dir : String)
    (testScript : fhir.TestScript) : Except Panic (Heap × fhir.TestReport × Option GoError) :=
  let report : fhir.TestReport :=
    { Name := reportName testScript, Status := "", Setup := none, Test := [] }
  match loadFixtures lib dir testScript.Fixture with
  | Except.error err => pure ({ fixtures := [], sent := sent }, report, some err)
  | Except.ok fixs =>
    match prepareVariables lib testScript.Variable with
    | Except.error err => pure ({ fixtures := fixs, sent := sent }, report, some err)
    | Except.ok vs =>
      let ctx : context := { client := client, vars := vs, lastResult := none }
      let heap : Heap := { fixtures := fixs, sent := sent }
      let afterSetup : Except Panic (Heap × fhir.TestReport) :=
        match testScript.Setup with
        | some setup =>
          match executeSetup lib heap ctx setup with
          | Except.error p => throw p
          | Except.ok (heap1, setupReport) => pure (heap1, { report with Setup := some setupReport })
        | none => pure (heap, report)
      match afterSetup with
      | Except.error p => throw p
      | Except.ok (heap1, report1) =>
        match report1.Setup with
        | none => throw Panic.nilDeref
        | some setupReport =>
          if setupReport.Failed then pure (heap1, report1, none)
          else
            match executeTests lib ctx heap1 testScript.Test [] with
            | Except.error p => throw p
            | Except.ok (heap2, tests) => pure (heap2, { report1 with Test := tests }, none)

/-! ## Loading (`fhir/json.go`, `fhir/testscript/testscript.go`) -/

/-- Go `strings.Trim(s, cutset)` for a cutset of the one character `q`. -/
def trimChar (q : Char) (s : String) : String :=
  String.mk (((s.data.dropWhile (fun c => c == q)).reverse.dropWhile
    (fun c => c == q)).reverse)

/-- Method `AssertionOperator.UnmarshalJSON`: the value of `*op` after the
call, and the error. -/
def testscript.AssertionOperator.UnmarshalJSON (op : testscript.AssertionOperator)
    (json : String) : testscript.AssertionOperator × Option GoError :=
  let s := trimChar (Char.ofNat 34) json
  if s = "equals" then (Equals, none)
  else if s = "notEquals" then (NotEquals, none)
  else if s = "in" then (In, none)
  else if s = "notIn" then (NotIn, none)
  else if s = "greaterThan" then (GreaterThan, none)
  else if s = "lessThan" then (LessThan, none)
  else if s = "empty" then (Empty, none)
  else if s = "notEmpty" then (NotEmpty, none)
  else if s = "contains" then (Contains, none)
  else if s = "notContains" then (NotContains, none)
  else if s = "eval" then (Eval, none)
  else (op, some (GoError.errorf "unknown assertion response type: %s" [FmtArg.str s]))

/-- Constant `Okay`. -/
def testscript.Okay : AssertionResponse := 200
/-- Constant `Created`. -/
def testscript.Created : AssertionResponse := 201
/-- Constant `NoContent`. -/
def testscript.NoContent : AssertionResponse := 204
/-- Constant `NotModified`. -/
def testscript.NotModified : AssertionResponse := 304
/-- Constant `Bad`. -/
def testscript.Bad : AssertionResponse := 400
/-- Constant `Forbidden`. -/
def testscript.Forbidden : AssertionResponse := 403
/-- Constant `NotFound`. -/
def testscript.NotFound : AssertionResponse := 404
/-- Constant `MethodNotAllowed`. -/
def testscript.MethodNotAllowed : AssertionResponse := 405
/-- Constant `Conflict`. -/
def testscript.Conflict : AssertionResponse := 409
/-- Constant `Gone`. -/
def testscript.Gone : AssertionResponse := 410
/-- Constant `PreconditionFailed`. -/
def testscript.PreconditionFailed : AssertionResponse := 412
/-- Constant `Unprocessable`. -/
def testscript.Unprocessable : AssertionResponse := 422

/-- Method `AssertionResponse.UnmarshalJSON`: the value of `*t` after the
call, and the error. -/
def testscript.AssertionResponse.UnmarshalJSON (t : AssertionResponse) (json : String) :
    AssertionResponse × Option GoError :=
  let s := trimChar (Char.ofNat 34) json
  if s = "okay" then (testscript.Okay, none)
  else if s = "created" then (testscript.Created, none)
  else if s = "noContent" then (testscript.NoContent, none)
  else if s = "notModified" then (testscript.NotModified, none)
  else if s = "bad" then (testscript.Bad, none)
  else if s = "forbidden" then (testscript.Forbidden, none)
  else if s = "notFound" then (testscript.NotFound, none)
  else if s = "methodNotAllowed" then (testscript.MethodNotAllowed, none)
  else if s = "conflict" then (testscript.Conflict, none)
  else if s = "gone" then (testscript.Gone, none)
  else if s = "preconditionFailed" then (testscript.PreconditionFailed, none)
  else if s = "unprocessable" then (testscript.Unprocessable, none)
  else (t, some (GoError.errorf "unknown assertion response type: %s" [FmtArg.str s]))

/-- Struct `InvalidResourceTypeError`. -/
structure fhir.InvalidResourceTypeError where
  Expected : String
  Actual : String
  deriving DecidableEq

/-- Struct `jsonTestScript`. -/
structure fhir.jsonTestScript where
  ResourceType : String
  Name : String
  Title : String
  Variable : List testscript.Variable
  Fixture : List testscript.Fixture
  Setup : Option testscript.Setup
  Test : List testscript.Test

/-- The `error` returned by `TestScript.UnmarshalJSON`: the one of
`json.Unmarshal`, or an `InvalidResourceTypeError`. -/
inductive fhir.UnmarshalError where
  | json (err : GoError)
  | invalidResourceType (err : fhir.InvalidResourceTypeError)

/-- Method `TestScript.UnmarshalJSON`: the value of `*s` after the call, and
the error. `unmarshal` is `json.Unmarshal` into a zero `jsonTestScript`. -/
def fhir.TestScript.UnmarshalJSON (unmarshal : String → Except GoError fhir.jsonTestScript)
    (s : fhir.TestScript) (b : String) : fhir.TestScript × Option fhir.UnmarshalError :=
  match unmarshal b with
  | Except.error err => (s, some (fhir.UnmarshalError.json err))
  | Except.ok j =>
    if j.ResourceType ≠ "TestScript" then
      (s, some (fhir.UnmarshalError.invalidResourceType
        { Expected := "TestScript", Actual := j.ResourceType }))
    else
      ({ Name := j.Name, Title := j.Title, Variable := j.Variable, Fixture := j.Fixture,
         Setup := j.Setup, Test := j.Test }, none)

/-- Method `AssertionOperator.CompWithResult`; `sprint` is `fmt.Sprint`. The
element `result[0]` is read, as in the source, on the right of `&&`: only
when `len(result) == 1` held. -/
def testscript.AssertionOperator.CompWithResult (sprint : Value → String)
    (op : testscript.AssertionOperator) (value : String) (result : List Value) :
    Except Panic (Bool × Option GoError) :=
  match op with
  | Equals =>
    if result.length = 1 then
      match result with
      | first :: _ => pure (decide (value = sprint first), none)
      | [] => throw Panic.indexOutOfRange
    else pure (false, none)
  | NotEquals =>
    if result.length = 1 then
      match result with
      | first :: _ => pure (decide (value ≠ sprint first), none)
      | [] => throw Panic.indexOutOfRange
    else pure (false, none)
  | _ =>
    pure (false, some (GoError.errorf "unsupported assertion operator `%s`"
      [FmtArg.str op.String_]))

/-! ## Parser (`fhirpath/parser.go`)

The lexer is the EBNF text of `fhirPathLexer`, the grammar is the struct tags
of the expression tree; both are run by the library the source builds them
with. The token rules are tried in the order written, each from the start of
the token, and the first that matches gives the token. Inside a token rule
the lexer never goes back: the first rune of a quoted text is looked at
before it is read, every later rune is read, also the one that differs, and
what a part that fails has read stays read for the parts tried after it; the
text of the token is all that was read. A grammar node that does not match
leaves the cursor where it was, an optional group or a repetition body that
does not match is skipped, and alternatives are tried in the order written.
The wording of the library's errors is not modelled. -/

/-- The token types: the capitalised productions of `fhirPathLexer`. -/
inductive Symbol where
  | Boolean
  | Identifier
  | DelimitedIdentifier
  | String_
  | Number
  | Whitespace
  | Punct
  | Operator
  | CmpOp
  | EqualOp
  deriving Repr, DecidableEq

/-- A token: its type and its text. -/
structure Token where
  Type_ : Symbol
  Value : String
  deriving Repr, DecidableEq

/-- Production `alpha = "a"…"z" | "A"…"Z"`. -/
def fhirPathLexer.alpha (c : Char) : Bool :=
  (97 ≤ c.toNat && c.toNat ≤ 122) || (65 ≤ c.toNat && c.toNat ≤ 90)

/-- Production `digit = "0"…"9"`. -/
def fhirPathLexer.digit (c : Char) : Bool :=
  48 ≤ c.toNat && c.toNat ≤ 57

/-- The runes of a quoted text after its first: whether all were found, the
characters read, and the characters left. Each rune is read and compared; the
rune that differs is read too. -/
def fhirPathLexer.runes : List Char → List Char → Bool × List Char × List Char
  | [], cs => (true, [], cs)
  | _ :: _, [] => (false, [], [])
  | r :: rs, c :: cs =>
    if r = c then
      let x := fhirPathLexer.runes rs cs
      (x.1, c :: x.2.1, x.2.2)
    else (false, [c], cs)

/-- A quoted text in a production: whether it was found, the characters read,
and the characters left. The first rune is looked at and read only when it is
the one expected. -/
def fhirPathLexer.quotedText (lit : List Char) (cs : List Char) :
    Bool × List Char × List Char :=
  match lit, cs with
  | [], _ => (true, [], cs)
  | _ :: _, [] => (false, [], [])
  | r :: rs, c :: rest =>
    if r = c then
      let x := fhirPathLexer.runes rs rest
      (x.1, c :: x.2.1, x.2.2)
    else (false, [], c :: rest)

/-- An alternative of quoted texts: each is tried from where the one before
it stopped. Whether one was found, all the characters read, and the
characters left. -/
def fhirPathLexer.alternatives : List String → List Char → Bool × List Char × List Char
  | [], cs => (false, [], cs)
  | lit :: lits, cs =>
    let x := fhirPathLexer.quotedText lit.data cs
    if x.1 then x
    else
      let y := fhirPathLexer.alternatives lits x.2.2
      (y.1, x.2.1 ++ y.2.1, y.2.2)

/-- The token of a production made of an alternative of quoted texts. -/
def fhirPathLexer.oneOf (lits : List String) (cs : List Char) :
    Option (List Char × List Char) :=
  let x := fhirPathLexer.alternatives lits cs
  if x.1 then some x.2 else none

/-- Production `Boolean = "true" | "false"`. -/
def fhirPathLexer.Boolean (cs : List Char) : Option (List Char × List Char) :=
  fhirPathLexer.oneOf ["true", "false"] cs

/-- Production `Identifier = (alpha | "_") \x7b "_" | alpha | digit \x7d`. -/
def fhirPathLexer.Identifier : List Char → Option (List Char × List Char)
  | [] => none
  | c :: cs =>
    if fhirPathLexer.alpha c || c = Char.ofNat 95 then
      let p := cs.span fun x => x = Char.ofNat 95 || fhirPathLexer.alpha x || fhirPathLexer.digit x
      some (c :: p.1, p.2)
    else none

/-- The shape shared by `DelimitedIdentifier` and `String`: the quote `q`, any
characters from U+0000 to U+FFFF other than `q`, the quote `q`. -/
def fhirPathLexer.quoted (q : Char) : List Char → Option (List Char × List Char)
  | [] => none
  | c :: cs =>
    if c = q then
      match cs.span fun x => x.toNat ≤ 65535 && x != q with
      | (body, d :: rest) => if d = q then some (q :: body ++ [q], rest) else none
      | (_, []) => none
    else none

/-- Production `DelimitedIdentifier`, quoted by U+0060. -/
def fhirPathLexer.DelimitedIdentifier (cs : List Char) : Option (List Char × List Char) :=
  fhirPathLexer.quoted (Char.ofNat 96) cs

/-- Production `String`, quoted by the apostrophe. -/
def fhirPathLexer.String_ (cs : List Char) : Option (List Char × List Char) :=
  fhirPathLexer.quoted (Char.ofNat 39) cs

/-- Production `Number = digit \x7b digit \x7d [ [ "." ] digit \x7b digit \x7d ]`: a
dot after the first digits is read whether or not digits follow it, and stays
in the token. -/
def fhirPathLexer.Number (cs : List Char) : Option (List Char × List Char) :=
  match cs.span fhirPathLexer.digit with
  | ([], _) => none
  | (whole, rest) =>
    match rest with
    | d :: rest1 =>
      if d = Char.ofNat 46 then
        let p := rest1.span fhirPathLexer.digit
        some (whole ++ d :: p.1, p.2)
      else some (whole, rest)
    | [] => some (whole, rest)

/-- Production `Whitespace = " " | "\t" | "\n" | "\r"`. -/
def fhirPathLexer.Whitespace (cs : List Char) : Option (List Char × List Char) :=
  fhirPathLexer.oneOf [" ", "\t", "\n", "\r"] cs

/-- Production `Punct = "." | "[" | "]" | "(" | ")"`. -/
def fhirPathLexer.Punct (cs : List Char) : Option (List Char × List Char) :=
  fhirPathLexer.oneOf [".", "[", "]", "(", ")"] cs

/-- Production `Operator = "+" | "-" | "&" | "*" | "/" | "div" | "mod" | "|"`. -/
def fhirPathLexer.Operator (cs : List Char) : Option (List Char × List Char) :=
  fhirPathLexer.oneOf ["+", "-", "&", "*", "/", "div", "mod", "|"] cs

/-- Production `CmpOp = "<" [ "=" ] | ">" [ "=" ]`. -/
def fhirPathLexer.CmpOp : List Char → Option (List Char × List Char)
  | [] => none
  | c :: cs =>
    if c = Char.ofNat 60 || c = Char.ofNat 62 then
      match cs with
      | d :: rest => if d = Char.ofNat 61 then some ([c, d], rest) else some ([c], cs)
      | [] => some ([c], cs)
    else none

/-- Production `EqualOp = "=" | "~" | "!" ( "=" | "~" )`. -/
def fhirPathLexer.EqualOp : List Char → Option (List Char × List Char)
  | [] => none
  | c :: cs =>
    if c = Char.ofNat 61 || c = Char.ofNat 126 then some ([c], cs)
    else if c = Char.ofNat 33 then
      match cs with
      | d :: rest =>
        if d = Char.ofNat 61 || d = Char.ofNat 126 then some ([c, d], rest) else none
      | [] => none
    else none

/-- The token productions in the order of the source. -/
def fhirPathLexer.productions : List (Symbol × (List Char → Option (List Char × List Char))) :=
  [(Symbol.Boolean, fhirPathLexer.Boolean),
   (Symbol.Identifier, fhirPathLexer.Identifier),
   (Symbol.DelimitedIdentifier, fhirPathLexer.DelimitedIdentifier),
   (Symbol.String_, fhirPathLexer.String_),
   (Symbol.Number, fhirPathLexer.Number),
   (Symbol.Whitespace, fhirPathLexer.Whitespace),
   (Symbol.Punct, fhirPathLexer.Punct),
   (Symbol.Operator, fhirPathLexer.Operator),
   (Symbol.CmpOp, fhirPathLexer.CmpOp),
   (Symbol.EqualOp, fhirPathLexer.EqualOp)]

/-- The token at the cursor: the first production that matches gives it. -/
def fhirPathLexer.next (cs : List Char) : Option (Token × List Char) :=
  fhirPathLexer.productions.findSome? fun p =>
    match p.2 cs with
    | some (lexeme, rest) => some ({ Type_ := p.1, Value := String.mk lexeme }, rest)
    | none => none

/-- The tokens of a text, none when some character starts no token; every
token takes at least one character, so the count of characters bounds the
count of tokens. -/
def fhirPathLexer.tokens : Nat → List Char → Option (List Token)
  | _, [] => some []
  | 0, _ :: _ => none
  | fuel + 1, c :: cs =>
    match fhirPathLexer.next (c :: cs) with
    | none => none
    | some (t, rest) =>
      match fhirPathLexer.tokens fuel rest with
      | none => none
      | some ts => some (t :: ts)

/-- The tokens of a text. -/
def fhirPathLexer.lex (s : String) : Option (List Token) :=
  fhirPathLexer.tokens s.data.length s.data

/-- Method `Operator.Capture`, on the text of the one token captured. -/
def Operator.Capture (s : String) : Except GoError Operator :=
  if s = "+" then Except.ok Operator.OpAdd
  else if s = "-" then Except.ok Operator.OpSub
  else if s = "*" then Except.ok Operator.OpMul
  else if s = "/" then Except.ok Operator.OpDiv
  else if s = "div" then Except.ok Operator.OpDivide
  else if s = "mod" then Except.ok Operator.OpModulo
  else if s = "&" then Except.ok Operator.OpAnd
  else if s = "<=" then Except.ok Operator.OpLessOrEqual
  else if s = "<" then Except.ok Operator.OpLessThan
  else if s = ">" then Except.ok Operator.OpGreaterThan
  else if s = ">=" then Except.ok Operator.OpGreaterOrEqual
  else if s = "=" then Except.ok Operator.OpEqual
  else Except.error (GoError.errorf "unexpected operator: %s" [FmtArg.str s])

/-- Method `PolarityOp.Capture`, on the text of the one token captured. -/
def PolarityOp.Capture (s : String) : Except GoError PolarityOp :=
  if s = "+" then Except.ok PolarityOp.PPlus
  else if s = "-" then Except.ok PolarityOp.PMinus
  else Except.error (GoError.errorf "unexpected polarity operator: |%s|" [FmtArg.str s])

/-- A node of the grammar: from the tokens at the cursor, the value built and
the tokens left, or none when the node does not match. -/
abbrev Node (α : Type) := List Token → Option (α × List Token)

/-- A quoted text in a tag, such as `"("`: the next token has this text. -/
def quotedToken (text : String) : Node Unit
  | t :: rest => if t.Value = text then some ((), rest) else none
  | [] => none

/-- A capture `@Type`: the next token has this type; its text is captured. -/
def captureType (sym : Symbol) : Node String
  | t :: rest => if t.Type_ = sym then some (t.Value, rest) else none
  | [] => none

/-- A capture `@("x" | "y")`: the next token has one of these texts; its text
is captured. -/
def captureText (texts : List String) : Node String
  | t :: rest => if t.Value ∈ texts then some (t.Value, rest) else none
  | [] => none

/-- An operator capture: the texts allowed by the tag, then `Operator.Capture`. -/
def captureOperator (node : Node String) : Node Operator := fun ts =>
  match node ts with
  | none => none
  | some (s, rest) =>
    match Operator.Capture s with
    | Except.ok op => some (op, rest)
    | Except.error _ => none

/-- A repetition `\x7b node \x7d`: the values of the matches in order. Every match
takes at least one token, so the count of tokens bounds the count of matches. -/
def repetition {α : Type} (node : Node α) : Nat → List Token → List α × List Token
  | 0, ts => ([], ts)
  | fuel + 1, ts =>
    match node ts with
    | none => ([], ts)
    | some (a, rest) =>
      let r := repetition node fuel rest
      (a :: r.1, r.2)

/-- Struct `Identifier`: `@"as" | @"is" | @Identifier | @DelimitedIdentifier`. -/
def parseIdentifier : Node Identifier
  | t :: rest =>
    if t.Value = "as" then
      some ({ As := t.Value, Is := "", Identifier := "", DelimitedIdentifier := "" }, rest)
    else if t.Value = "is" then
      some ({ As := "", Is := t.Value, Identifier := "", DelimitedIdentifier := "" }, rest)
    else if t.Type_ = Symbol.Identifier then
      some ({ As := "", Is := "", Identifier := t.Value, DelimitedIdentifier := "" }, rest)
    else if t.Type_ = Symbol.DelimitedIdentifier then
      some ({ As := "", Is := "", Identifier := "", DelimitedIdentifier := t.Value }, rest)
    else none
  | [] => none

/-- Struct `QualifiedIdentifier`: `@@ \x7b "." @@ \x7d`. -/
def parseQualifiedIdentifier : Node QualifiedIdentifier := fun ts =>
  match parseIdentifier ts with
  | none => none
  | some (first, ts1) =>
    let more := repetition (fun ts =>
      match quotedToken "." ts with
      | none => none
      | some (_, ts2) => parseIdentifier ts2) ts1.length ts1
    some ({ Identifiers := first :: more.1 }, more.2)

/-- Struct `TypeSpecifier`: `@@`. -/
def parseTypeSpecifier : Node TypeSpecifier := fun ts =>
  match parseQualifiedIdentifier ts with
  | none => none
  | some (q, rest) => some ({ QualifiedIdentifier := q }, rest)

/-- Struct `Literal`: `@Boolean | @String | @Number`. A captured `bool` is set
to true by the match of its token, whatever the text of the token: the
literal `false` is captured as true. The text of a Number is read by
`strconv.ParseFloat`. -/
def parseLiteral (parseFloat : String → Option Float64) : Node Literal
  | t :: rest =>
    if t.Type_ = Symbol.Boolean then
      some ({ Boolean := some true, Str := none, Number := none }, rest)
    else if t.Type_ = Symbol.String_ then
      some ({ Boolean := none, Str := some t.Value, Number := none }, rest)
    else if t.Type_ = Symbol.Number then
      match parseFloat t.Value with
      | some f => some ({ Boolean := none, Str := none, Number := some f }, rest)
      | none => none
    else none
  | [] => none

/-- Struct `Function`: `@@ "(" [ @@ ] \x7b "," @@ \x7d ")"`. -/
def parseFunction (expr : Node Expression) : Node Function := fun ts =>
  match parseIdentifier ts with
  | none => none
  | some (name, ts1) =>
    match quotedToken "(" ts1 with
    | none => none
    | some (_, ts2) =>
      let first : List Expression × List Token :=
        match expr ts2 with
        | some (e, ts3) => ([e], ts3)
        | none => ([], ts2)
      let more := repetition (fun ts =>
        match quotedToken "," ts with
        | none => none
        | some (_, ts4) => expr ts4) first.2.length first.2
      match quotedToken ")" more.2 with
      | none => none
      | some (_, ts5) => some (Function.mk name (first.1 ++ more.1), ts5)

/-- Struct `Invocation`: `@@ | @@`, a Function or else an Identifier. -/
def parseInvocation (expr : Node Expression) : Node Invocation := fun ts =>
  match parseFunction expr ts with
  | some (f, rest) => some (Invocation.mk (some f) none, rest)
  | none =>
    match parseIdentifier ts with
    | some (i, rest) => some (Invocation.mk none (some i), rest)
    | none => none

/-- Struct `Term`: `@@ | @@`, a Literal or else an Invocation. -/
def parseTerm (parseFloat : String → Option Float64) (expr : Node Expression) : Node Term :=
  fun ts =>
  match parseLiteral parseFloat ts with
  | some (l, rest) => some (Term.mk (some l) none, rest)
  | none =>
    match parseInvocation expr ts with
    | some (i, rest) => some (Term.mk none (some i), rest)
    | none => none

/-- Struct `InvocationExpression`: `@@ \x7b "." @@ \x7d`. -/
def parseInvocationExpression (parseFloat : String → Option Float64) (expr : Node Expression) :
    Node InvocationExpression := fun ts =>
  match parseTerm parseFloat expr ts with
  | none => none
  | some (target, ts1) =>
    let more := repetition (fun ts =>
      match quotedToken "." ts with
      | none => none
      | some (_, ts2) => parseInvocation expr ts2) ts1.length ts1
    some (InvocationExpression.mk target more.1, more.2)

/-- Struct `IndexerExpression`: `@@ ("[" @@ "]")?`. -/
def parseIndexerExpression (parseFloat : String → Option Float64) (expr : Node Expression) :
    Node IndexerExpression := fun ts =>
  match parseInvocationExpression parseFloat expr ts with
  | none => none
  | some (target, ts1) =>
    let index : Option (InvocationExpression × List Token) :=
      match quotedToken "[" ts1 with
      | none => none
      | some (_, ts2) =>
        match parseInvocationExpression parseFloat expr ts2 with
        | none => none
        | some (i, ts3) =>
          match quotedToken "]" ts3 with
          | none => none
          | some (_, ts4) => some (i, ts4)
    match index with
    | some (i, rest) => some (IndexerExpression.mk target (some i), rest)
    | none => some (IndexerExpression.mk target none, ts1)

/-- Struct `PolarityExpression`: `@("+" | "-")? @@`. -/
def parsePolarityExpression (parseFloat : String → Option Float64) (expr : Node Expression) :
    Node PolarityExpression := fun ts =>
  let polarity : Option PolarityOp × List Token :=
    match captureText ["+", "-"] ts with
    | none => (none, ts)
    | some (s, ts1) =>
      match PolarityOp.Capture s with
      | Except.ok op => (some op, ts1)
      | Except.error _ => (none, ts)
  match parseIndexerExpression parseFloat expr polarity.2 with
  | none => none
  | some (e, rest) => some (PolarityExpression.mk polarity.1 e, rest)

/-- Struct `OpPolarityExpression`: `@("*" | "/" | "div" | "mod") @@`. -/
def parseOpPolarityExpression (parseFloat : String → Option Float64) (expr : Node Expression) :
    Node OpPolarityExpression := fun ts =>
  match captureOperator (captureText ["*", "/", "div", "mod"]) ts with
  | none => none
  | some (op, ts1) =>
    match parsePolarityExpression parseFloat expr ts1 with
    | none => none
    | some (e, rest) => some (OpPolarityExpression.mk op e, rest)

/-- Struct `MultiplicativeExpression`: `@@ \x7b @@ \x7d`. -/
def parseMultiplicativeExpression (parseFloat : String → Option Float64)
    (expr : Node Expression) : Node MultiplicativeExpression := fun ts =>
  match parsePolarityExpression parseFloat expr ts with
  | none => none
  | some (left, ts1) =>
    let right := repetition (parseOpPolarityExpression parseFloat expr) ts1.length ts1
    some (MultiplicativeExpression.mk left right.1, right.2)

/-- Struct `OpMultiplicativeExpression`: `@("+" | "-" | "&") @@`. -/
def parseOpMultiplicativeExpression (parseFloat : String → Option Float64)
    (expr : Node Expression) : Node OpMultiplicativeExpression := fun ts =>
  match captureOperator (captureText ["+", "-", "&"]) ts with
  | none => none
  | some (op, ts1) =>
    match parseMultiplicativeExpression parseFloat expr ts1 with
    | none => none
    | some (e, rest) => some (OpMultiplicativeExpression.mk op e, rest)

/-- Struct `AdditiveExpression`: `@@ \x7b @@ \x7d`. -/
def parseAdditiveExpression (parseFloat : String → Option Float64) (expr : Node Expression) :
    Node AdditiveExpression := fun ts =>
  match parseMultiplicativeExpression parseFloat expr ts with
  | none => none
  | some (left, ts1) =>
    let right := repetition (parseOpMultiplicativeExpression parseFloat expr) ts1.length ts1
    some (AdditiveExpression.mk left right.1, right.2)

/-- Struct `TypeExpression`: `@@ [ @("as" | "is") @@ ]`. -/
def parseTypeExpression (parseFloat : String → Option Float64) (expr : Node Expression) :
    Node TypeExpression := fun ts =>
  match parseAdditiveExpression parseFloat expr ts with
  | none => none
  | some (e, ts1) =>
    let group : Option ((String × TypeSpecifier) × List Token) :=
      match captureText ["as", "is"] ts1 with
      | none => none
      | some (modifier, ts2) =>
        match parseTypeSpecifier ts2 with
        | none => none
        | some (t, ts3) => some ((modifier, t), ts3)
    match group with
    | some ((modifier, t), rest) => some (TypeExpression.mk e modifier (some t), rest)
    | none => some (TypeExpression.mk e "" none, ts1)

/-- Struct `UnionExpression`: `@@ [ "|" @@ ]`. -/
def parseUnionExpression (parseFloat : String → Option Float64) (expr : Node Expression) :
    Node UnionExpression := fun ts =>
  match parseTypeExpression parseFloat expr ts with
  | none => none
  | some (left, ts1) =>
    let group : Option (TypeExpression × List Token) :=
      match quotedToken "|" ts1 with
      | none => none
      | some (_, ts2) => parseTypeExpression parseFloat expr ts2
    match group with
    | some (right, rest) => some (UnionExpression.mk left (some right), rest)
    | none => some (UnionExpression.mk left none, ts1)

/-- Struct `InequalityExpression`: `@@ [ @CmpOp @@ ]`. -/
def parseInequalityExpression (parseFloat : String → Option Float64) (expr : Node Expression) :
    Node InequalityExpression := fun ts =>
  match parseUnionExpression parseFloat expr ts with
  | none => none
  | some (left, ts1) =>
    let group : Option ((Operator × UnionExpression) × List Token) :=
      match captureOperator (captureType Symbol.CmpOp) ts1 with
      | none => none
      | some (op, ts2) =>
        match parseUnionExpression parseFloat expr ts2 with
        | none => none
        | some (right, ts3) => some ((op, right), ts3)
    match group with
    | some ((op, right), rest) => some (InequalityExpression.mk left op (some right), rest)
    | none => some (InequalityExpression.mk left Operator.OpMul none, ts1)

/-- Struct `EqualityExpression`: `@@ [ @EqualOp @@ ]`. -/
def parseEqualityExpression (parseFloat : String → Option Float64) (expr : Node Expression) :
    Node EqualityExpression := fun ts =>
  match parseInequalityExpression parseFloat expr ts with
  | none => none
  | some (left, ts1) =>
    let group : Option ((Operator × InequalityExpression) × List Token) :=
      match captureOperator (captureType Symbol.EqualOp) ts1 with
      | none => none
      | some (op, ts2) =>
        match parseInequalityExpression parseFloat expr ts2 with
        | none => none
        | some (right, ts3) => some ((op, right), ts3)
    match group with
    | some ((op, right), rest) => some (EqualityExpression.mk left op (some right), rest)
    | none => some (EqualityExpression.mk left Operator.OpMul none, ts1)

/-- Struct `Expression`: `@@`, with the node used for the parameters of a
function given. -/
def parseExpressionWith (parseFloat : String → Option Float64) (expr : Node Expression) :
    Node Expression := fun ts =>
  match parseEqualityExpression parseFloat expr ts with
  | none => none
  | some (left, rest) => some (Expression.mk left, rest)

/-- Struct `Expression`, to a depth of nested parameter lists. -/
def parseExpressionDepth (parseFloat : String → Option Float64) : Nat → Node Expression
  | 0 => fun _ => none
  | depth + 1 => parseExpressionWith parseFloat (parseExpressionDepth parseFloat depth)

/-- Struct `Expression`: every nested parameter list takes the name and the
parenthesis before it, so the count of tokens bounds the depth. -/
def parseExpression (parseFloat : String → Option Float64) : Node Expression := fun ts =>
  parseExpressionDepth parseFloat (ts.length + 1) ts

/-- What `Parser.ParseString` does with a text: the tokens with `Whitespace`
elided, the root node, and the check that no token is left. -/
def ParseString (parseFloat : String → Option Float64) (s : String) :
    Except GoError Expression :=
  match fhirPathLexer.lex s with
  | none => Except.error (GoError.lib "no token matches")
  | some all =>
    let ts := all.filter fun t => t.Type_ ≠ Symbol.Whitespace
    match parseExpression parseFloat ts with
    | none => Except.error (GoError.lib "no match")
    | some (expr, []) => Except.ok expr
    | some (_, t :: _) => Except.error (GoError.lib ("unexpected token " ++ t.Value))

/-- Function `Parse`. -/
def Parse (parseFloat : String → Option Float64) (s : String) : Except GoError Expression :=
  ParseString parseFloat s

/-! ## Specification-side definitions -/

/-- The extended rational line, on which the mathematical order of numeric
values is read. -/
abbrev ExtRat := WithBot (WithTop ℚ)

/-- The number a `float64` denotes; NaN denotes none. -/
def Float64.toExtRat : Float64 → Option ExtRat
  | Float64.finite q => some ((q : WithTop ℚ) : ExtRat)
  | Float64.posInf => some ((⊤ : WithTop ℚ) : ExtRat)
  | Float64.negInf => some ⊥
  | Float64.nan => none

/-- The mathematical relation a comparison operator names, on a linear order;
the seven arithmetic operators name none. -/
def Operator.relation {α : Type} [LinearOrder α] (op : Operator) (x y : α) : Option Bool :=
  match op with
  | Operator.OpLessThan => some (decide (x < y))
  | Operator.OpLessOrEqual => some (decide (x ≤ y))
  | Operator.OpGreaterThan => some (decide (x > y))
  | Operator.OpGreaterOrEqual => some (decide (x ≥ y))
  | Operator.OpEqual => some (decide (x = y))
  | _ => none

/-- The relation on extended rationals, for operands that denote a number. -/
def Operator.relationExt (op : Operator) (x y : Option ExtRat) : Option Bool :=
  match x, y with
  | some a, some b => op.relation a b
  | _, _ => none

/-- The spec's typed comparison of two numeric values: `l op r` on integers
when both are `int`, and on the numbers denoted after an `int` is widened to
`float64` when the other side is a `float64`. -/
def numericRelation (op : Operator) (l r : Value) : Option Bool :=
  match l, r with
  | Value.int a, Value.int b => op.relation a b
  | Value.int a, Value.float y => op.relationExt (Float64.ofInt a).toExtRat y.toExtRat
  | Value.float x, Value.int b => op.relationExt x.toExtRat (Float64.ofInt b).toExtRat
  | Value.float x, Value.float y => op.relationExt x.toExtRat y.toExtRat
  | _, _ => none

/-- The value has dynamic type `int` or `float64`. -/
def Value.isNumber : Value → Bool
  | Value.int _ => true
  | Value.float _ => true
  | _ => false

/-- The value is a numeric value: an `int`, or a `float64` other than NaN. -/
def Value.isNumeric : Value → Bool
  | Value.int _ => true
  | Value.float Float64.nan => false
  | Value.float _ => true
  | _ => false

/-- The operator is one of `<`, `<=`, `>`, `>=`, `=`. -/
def Operator.isComparison : Operator → Bool
  | Operator.OpLessThan => true
  | Operator.OpLessOrEqual => true
  | Operator.OpGreaterThan => true
  | Operator.OpGreaterOrEqual => true
  | Operator.OpEqual => true
  | _ => false

/-- The value has dynamic type `string`. -/
def Value.isString : Value → Bool
  | Value.str _ => true
  | _ => false

/-- The results of executing `actions` one after the other, each in the state
left by its predecessor and none skipped, with the state left by the last. -/
def resultsInOrder (lib : Lib) :
    Heap → context → List testscript.Action →
      Except Panic (Heap × context × List testreport.Action)
  | heap, ctx, [] => Except.ok (heap, ctx, [])
  | heap, ctx, action :: rest =>
    match executeAction lib heap ctx action with
    | Except.error p => Except.error p
    | Except.ok (heap1, ctx1, r) =>
      match resultsInOrder lib heap1 ctx1 rest with
      | Except.error p => Except.error p
      | Except.ok (heap2, ctx2, rs) => Except.ok (heap2, ctx2, r :: rs)

/-- What member navigation contributes for one object, in the spec's words:
the elements of the named member if it is a sequence, nothing if the member
is absent or null, the member itself otherwise. -/
def memberValues (name : String) (m : Obj) : List Value :=
  match Obj.get m name with
  | Value.null => []
  | Value.seq children => children
  | child => [child]

/-- The value is an object. -/
def Value.isObject : Value → Bool
  | Value.obj _ => true
  | _ => false

/-- The value is an object whose `resourceType` member is the string `name`. -/
def Value.hasResourceType (name : String) : Value → Bool
  | Value.obj m =>
    match Obj.get m "resourceType" with
    | Value.str t => t == name
    | _ => false
  | _ => false

/-- Threading of an evaluation into a next step, in the spec's words: the
result of a successful evaluation is the input collection of the next step;
an error (with the collection handed back next to it) or a panic stops. -/
def thenEval (res : EvalResult) (next : List Value → EvalResult) : EvalResult :=
  match res with
  | Except.error p => Except.error p
  | Except.ok (result, some err) => Except.ok (result, some err)
  | Except.ok (result, none) => next result

/-- The text `$\x7bn1\x7d...$\x7bnk\x7d`: one placeholder for each name, in order. -/
def placeholders : List String → String
  | [] => ""
  | n :: rest => "$\x7b" ++ n ++ "\x7d" ++ placeholders rest

/-- The text a segment was read from. -/
def Segment.source : Segment → List Char
  | Segment.char c => [c]
  | Segment.var name => Char.ofNat 36 :: Char.ofNat 123 :: name ++ [Char.ofNat 125]

/-- The characters a scan state has read and not yet given out. -/
def ScanState.pending : ScanState → List Char
  | ScanState.outside => []
  | ScanState.dollar => [Char.ofNat 36]
  | ScanState.name acc => Char.ofNat 36 :: Char.ofNat 123 :: acc.reverse

/-- The names held by a list of segments, in order. -/
def segmentNames (segs : List Segment) : List String :=
  segs.filterMap fun seg =>
    match seg with
    | Segment.var name => some (String.mk name)
    | Segment.char _ => none

/-- The string `s` with every placeholder replaced by the rendering of its
name and every other character kept. -/
def substitute (render : String → String) (s : String) : String :=
  String.mk (((segments s.data ScanState.outside).map fun seg =>
    match seg with
    | Segment.var name => (render (String.mk name)).data
    | Segment.char c => [c]).flatten)

/-- The error the specification gives for one placeholder name, by condition:
the name is not in the variable table; its variable has no sourceId; its
fixture is absent or has no body; its expression fails; its expression does
not evaluate to exactly one value. None when the name resolves. -/
def placeholderError (lib : Lib) (heap : Heap) (ctx : context) (name : String) :
    Option GoError :=
  match ctx.vars.lookup name with
  | none => some (GoError.errorf "missing Variable `%s`" [FmtArg.str name])
  | some v =>
    if v.sourceId = "" then
      some (GoError.errorf "variable `%s` without sourceId" [FmtArg.str name])
    else
      match heap.resource v.sourceId with
      | none =>
        some (GoError.errorf "missing resource with sourceId `%s` in variable `%s`"
          [FmtArg.str v.sourceId, FmtArg.str name])
      | some resource =>
        match v.expression.Eval lib.IsUpper [Value.obj resource] with
        | Except.error _ => none
        | Except.ok (_, some err) =>
          some (GoError.errorf "error while evaluating FHIRPath expression `%s`: %s"
            [FmtArg.expr v.expression, FmtArg.error (GoError.eval err)])
        | Except.ok ([_], none) => none
        | Except.ok (result, none) =>
          some (GoError.errorf
            "FHIRPath expression `%s` didn't evaluate to a single value. Instead %d values were returned"
            [FmtArg.expr v.expression, FmtArg.int result.length])

/-- A plain identifier: a text that the `Identifier` production takes whole
and the `Boolean` production before it does not start, other than the words
`as` and `is`. -/
def isPlainIdentifier (a : String) : Bool :=
  (fhirPathLexer.Boolean a.data).isNone &&
    (fhirPathLexer.Identifier a.data == some (a.data, [])) && a != "as" && a != "is"

/-! ## Sample trees and values -/

/-- The tree of a term standing alone at the Union level: every level between
Union and Invocation carries no operand of its own. -/
def unionOfTerm (t : Term) : UnionExpression :=
  UnionExpression.mk (TypeExpression.mk (AdditiveExpression.mk (MultiplicativeExpression.mk
    (PolarityExpression.mk none (IndexerExpression.mk (InvocationExpression.mk t []) none))
    []) []) "" none) none

/-- The tree of a term standing alone at the Inequality level. -/
def inequalityOfTerm (t : Term) : InequalityExpression :=
  InequalityExpression.mk (unionOfTerm t) Operator.OpMul none

/-- The term of a number literal. -/
def numberTerm (q : ℚ) : Term :=
  Term.mk (some { Boolean := none, Str := none, Number := some (Float64.finite q) }) none

/-- The term of a plain identifier. -/
def identifierTerm (name : String) : Term :=
  Term.mk none (some (Invocation.mk none
    (some { As := "", Is := "", Identifier := name, DelimitedIdentifier := "" })))

/-- A library instance for worked examples: upper case is ASCII upper case,
every file and every response body decodes to an empty Bundle, every request
is answered with status 200, and no expression parses. -/
def sampleLib : Lib where
  IsUpper := Char.isUpper
  Sprint := fun _ => ""
  Parse := fun _ => Except.error (GoError.lib "syntax error")
  ReadGeneric := fun _ => Except.ok (some [("resourceType", Value.str "Bundle")])
  JsonPathGet := fun _ _ => Except.error (GoError.lib "unknown path")
  Marshal := fun _ => Except.ok ""
  NewRequest := fun method url =>
    Except.ok { Method := method, URL := url, Header := [], Body := none }
  NewCreateRequest := fun client resourceType payload =>
    Except.ok
      { Method := "POST", URL := client.Base ++ "/" ++ resourceType, Header := [],
        Body := some payload }
  Do := fun _ _ _ => Except.ok { Status := "200 OK", StatusCode := 200, Header := [], Body := "" }
  Join := fun dir name => dir ++ "/" ++ name
  Stat := fun _ => Except.ok false
  Open := fun _ => Except.ok ""

/-- An operation of the given kind with every other field at its zero value. -/
def sampleOperation (code : String) : testscript.Operation :=
  { Type_ := some { Code := code }, Resource := "", Label := "", Description := "",
    Accept := "", ContentType := "", Designation := 0, EncodeRequestUrl := false,
    Method := "", Origin := 0, Params := "", RequestId := "", ResponseId := "",
    SourceId := "", TargetId := "", Url := "" }

/-- An assert expecting the given resource type, with operator `equals` and
every other field at its zero value. -/
def sampleAssert (resource : String) : testscript.Assert :=
  { Label := "", Description := "", Expression := "",
    Operator := testscript.AssertionOperator.Equals, Path := "", Resource := resource,
    Response := none, Value := "", WarningOnly := false }

/-- The action of a system history request. -/
def historyAction : testscript.Action :=
  { Operation := some (sampleOperation "history"), Assert := none }

/-- The action of an operation of unsupported kind `delete`. -/
def deleteAction : testscript.Action :=
  { Operation := some (sampleOperation "delete"), Assert := none }

/-- The action asserting that the last response is of the given resource type. -/
def assertAction (resource : String) : testscript.Action :=
  { Operation := none, Assert := some (sampleAssert resource) }

/-- The client of the worked examples. -/
def sampleClient : fhir.Client := { Base := "http://localhost/fhir" }

/-- The request a system history operation of `sampleClient` sends. -/
def sampleHistoryRequest : Request :=
  { Method := "GET", URL := "http://localhost/fhir/_history",
    Header := [("Accept", ["application/fhir+json"])], Body := none }

/-- The `context` built by `executeTestScript` for a script without variables. -/
def sampleContext : context := { client := sampleClient, vars := [], lastResult := none }

/-- A test block of three actions whose second one fails: a history request,
an assert expecting a Patient where the server answers with a Bundle, and a
second history request. -/
def threeActionTest : testscript.Test :=
  { Name := "t", Description := "d",
    Action := [historyAction, assertAction "Patient", historyAction] }

/-- The report of `threeActionTest`: two results, the failing one last. -/
def threeActionReport : testreport.Test :=
  { Name := "t", Description := "d",
    Action :=
      [{ Operation := some (pass "Successful system history request"), Assert := none },
        { Operation := none,
          Assert := some (failf "Expect response resource type of `%s` but was `%s`."
            [FmtArg.str "Patient", FmtArg.str "Bundle"]) }] }

/-- The last result recorded by the history operation of the examples. -/
def sampleLastResult : operationResult :=
  { request := sampleHistoryRequest,
    response := { Status := "200 OK", StatusCode := 200, Header := [], Body := "" },
    resource := some [("resourceType", Value.str "Bundle")] }

/-- A script whose Setup fails at its first action (an operation of
unsupported kind) and which declares one Test block. -/
def scriptFailingSetup : fhir.TestScript :=
  { Name := "failing-setup", Title := "", Variable := [], Fixture := [],
    Setup := some { Action := [deleteAction, historyAction] },
    Test := [{ Name := "t", Description := "d", Action := [historyAction] }] }

/-- The Setup report of `scriptFailingSetup`: the one Error result. -/
def failingSetupReport : testreport.Setup :=
  { Action :=
      [{ Operation := some (errorf "unsupported operation type `%s`" [FmtArg.str "delete"]),
         Assert := none }] }

/-- A script with a passing Setup and two Test blocks, the first of which
stops at its first action. -/
def scriptTwoTests : fhir.TestScript :=
  { Name := "two-tests", Title := "", Variable := [], Fixture := [],
    Setup := some { Action := [historyAction] },
    Test :=
      [{ Name := "first", Description := "stops early", Action := [deleteAction, historyAction] },
        { Name := "second", Description := "runs", Action := [historyAction] }] }

/-- The Setup report of a Setup made of one passing history request. -/
def passingSetupReport : testreport.Setup :=
  { Action :=
      [{ Operation := some (pass "Successful system history request"), Assert := none }] }

/-- A script without Setup block declaring one Test block. -/
def scriptWithoutSetup : fhir.TestScript :=
  { Name := "no-setup", Title := "", Variable := [], Fixture := [], Setup := none,
    Test := [{ Name := "t", Description := "d", Action := [historyAction] }] }

/-- A script whose Setup performs a history request and whose Test block
starts with an assert on the resource type of the last response. -/
def scriptAssertFirst : fhir.TestScript :=
  { Name := "assert-first", Title := "", Variable := [], Fixture := [],
    Setup := some { Action := [historyAction] },
    Test := [{ Name := "t", Description := "d", Action := [assertAction "Bundle"] }] }

/-- A script whose Setup performs a history request and which declares two
Test blocks, the first starting with an assert. -/
def scriptTestAssertsFirst : fhir.TestScript :=
  { Name := "test-asserts-first", Title := "", Variable := [], Fixture := [],
    Setup := some { Action := [historyAction] },
    Test :=
      [{ Name := "first", Description := "asserts", Action := [assertAction "Bundle"] },
        { Name := "second", Description := "runs", Action := [historyAction] }] }

/-- The term of a string literal; `token` is the token text, quotes included. -/
def stringTerm (token : String) : Term :=
  Term.mk (some { Boolean := none, Str := some token, Number := none }) none

/-- The plain identifier `name` as the parser captures it. -/
def plainIdentifier (name : String) : Identifier :=
  { As := "", Is := "", Identifier := name, DelimitedIdentifier := "" }

/-- The invocation of the plain identifier `name`. -/
def identifierInvocation (name : String) : Invocation :=
  Invocation.mk none (some (plainIdentifier name))

/-- The expression made of a target term followed by a chain of invocations,
every other level carrying no operand of its own. -/
def chainExpression (target : Term) (invocations : List Invocation) : Expression :=
  Expression.mk (EqualityExpression.mk (InequalityExpression.mk
    (UnionExpression.mk (TypeExpression.mk (AdditiveExpression.mk (MultiplicativeExpression.mk
      (PolarityExpression.mk none
        (IndexerExpression.mk (InvocationExpression.mk target invocations) none))
      []) []) "" none) none)
    Operator.OpMul none) Operator.OpMul none)

/-- The Bundle of the evaluator tests: `resourceType: "Bundle"`, `total: 0`. -/
def sampleBundle : Value :=
  Value.obj [("resourceType", Value.str "Bundle"), ("total", Value.int 0)]

/-- The expression `name = n` for a plain identifier and a number literal. -/
def identifierEqualsNumber (name : String) (n : ℚ) : Expression :=
  Expression.mk (EqualityExpression.mk (inequalityOfTerm (identifierTerm name))
    Operator.OpEqual (some (inequalityOfTerm (numberTerm n))))

/-- The call `where(criteria)`. -/
def whereCall (criteria : Expression) : Function :=
  Function.mk (plainIdentifier "where") [criteria]

/-- The items of the `where` test of the evaluator: `b: 1, c: 2` and
`b: 3, c: 4`. -/
def sampleItems : List Value :=
  [Value.obj [("b", Value.int 1), ("c", Value.int 2)],
    Value.obj [("b", Value.int 3), ("c", Value.int 4)]]

/-- Whether member `b` of an object is the integer 3. -/
def memberBIsThree : Value → Bool
  | Value.obj m =>
    match Obj.get m "b" with
    | Value.int 3 => true
    | _ => false
  | _ => false

/-- The multiplicative expression made of one term. -/
def multiplicativeOfTerm (t : Term) : MultiplicativeExpression :=
  MultiplicativeExpression.mk
    (PolarityExpression.mk none (IndexerExpression.mk (InvocationExpression.mk t []) none)) []

/-- The expression whose only operand-carrying level is the given indexer
expression. -/
def expressionOfIndexer (e : IndexerExpression) : Expression :=
  Expression.mk (EqualityExpression.mk (InequalityExpression.mk
    (UnionExpression.mk (TypeExpression.mk (AdditiveExpression.mk
      (MultiplicativeExpression.mk (PolarityExpression.mk none e) []) []) "" none) none)
    Operator.OpMul none) Operator.OpMul none)

/-- The tree of `a[0]`, as `TestParseIndexerExpression` reads it: target the
identifier `a`, index the number literal 0. -/
def indexerTree : Expression :=
  expressionOfIndexer (IndexerExpression.mk (InvocationExpression.mk (identifierTerm "a") [])
    (some (InvocationExpression.mk (numberTerm 0) [])))

/-- The tree of `a + b + c`: the Additive level holds `a` on the left and the
list `(+, b)`, `(+, c)` on the right. -/
def sumTree : Expression :=
  Expression.mk (EqualityExpression.mk (InequalityExpression.mk
    (UnionExpression.mk (TypeExpression.mk (AdditiveExpression.mk
      (multiplicativeOfTerm (identifierTerm "a"))
      [OpMultiplicativeExpression.mk Operator.OpAdd (multiplicativeOfTerm (identifierTerm "b")),
        OpMultiplicativeExpression.mk Operator.OpAdd
          (multiplicativeOfTerm (identifierTerm "c"))]) "" none) none)
    Operator.OpMul none) Operator.OpMul none)

/-- The tree of the keyword `is` standing as an identifier: the capture `Is`
is set. -/
def isKeywordTree : Expression :=
  chainExpression (Term.mk none (some (Invocation.mk none
    (some { As := "", Is := "is", Identifier := "", DelimitedIdentifier := "" })))) []

/-- The JSON text of the string `w`: `w` between two double quotes. -/
def quoted (w : String) : String :=
  String.mk (Char.ofNat 34 :: w.data ++ [Char.ofNat 34])

/-- A decoded document of the given resource type, named `name-140946`. -/
def sampleDocument (resourceType : String) : fhir.jsonTestScript :=
  { ResourceType := resourceType, Name := "name-140946", Title := "", Variable := [],
    Fixture := [], Setup := none, Test := [] }

/-- A zero `TestScript`, the target of the loading tests. -/
def zeroTestScript : fhir.TestScript :=
  { Name := "", Title := "", Variable := [], Fixture := [], Setup := none, Test := [] }

/-- An assert expecting the status `okay` under the given operator. -/
def statusAssert (op : testscript.AssertionOperator) : testscript.Assert :=
  { Label := "", Description := "", Expression := "", Operator := op, Path := "",
    Resource := "", Response := some testscript.Okay, Value := "", WarningOnly := false }

/-- An assert expecting the given resource type under the operator
`notEquals`. -/
def notEqualsAssert (resource : String) : testscript.Assert :=
  { Label := "", Description := "", Expression := "",
    Operator := testscript.AssertionOperator.NotEquals, Path := "", Resource := resource,
    Response := none, Value := "", WarningOnly := false }

/-- The `context` after the history operation of the examples: the last
result is a Bundle answered with status 200. -/
def contextAfterHistory : context :=
  { client := sampleClient, vars := [], lastResult := some sampleLastResult }

/-- A library instance whose `Sprint` renders a string as itself, as Go
`fmt.Sprint` does. -/
def printingLib : Lib :=
  { sampleLib with
    Sprint := fun v =>
      match v with
      | Value.str s => s
      | _ => "" }

/-- The shared state of the repository's substitution test: fixture `F` with
the body `\x7ba: b\x7d`. -/
def heapWithF : Heap :=
  { fixtures := [("F", { headers := [], resource := some [("a", Value.str "b")] })], sent := [] }

/-- The expression `a`: one plain identifier. -/
def expressionA : Expression :=
  Expression.mk (EqualityExpression.mk (inequalityOfTerm (identifierTerm "a")) Operator.OpMul none)

/-- The context of the repository's substitution test: variable `V` with the
expression `a` and the source `F`. -/
def contextWithV : context :=
  { client := sampleClient, vars := [("V", { expression := expressionA, sourceId := "F" })],
    lastResult := none }

/-- The tree of a term standing alone at the Polarity level. -/
def polarityOfTerm (t : Term) : PolarityExpression :=
  PolarityExpression.mk none (IndexerExpression.mk (InvocationExpression.mk t []) none)

/-- The tree of a term standing alone at the Type level. -/
def typeOfTerm (t : Term) : TypeExpression :=
  TypeExpression.mk (AdditiveExpression.mk (multiplicativeOfTerm t) []) "" none

/-- The expression whose Equality level holds the given Inequality level and
no right operand. -/
def expressionOfInequality (e : InequalityExpression) : Expression :=
  Expression.mk (EqualityExpression.mk e Operator.OpMul none)

/-- The expression whose Equality and Inequality levels hold the given Union
level and no right operand. -/
def expressionOfUnion (e : UnionExpression) : Expression :=
  expressionOfInequality (InequalityExpression.mk e Operator.OpMul none)

/-- The expression whose levels from Equality to Type hold the given Additive
level and no right operand. -/
def expressionOfAdditive (e : AdditiveExpression) : Expression :=
  expressionOfUnion (UnionExpression.mk (TypeExpression.mk e "" none) none)

/-- A library instance that parses with the parser of the repository. -/
def parsingLib : Lib :=
  { sampleLib with Parse := Parse fun _ => none }

/-- An assert declaring only the given expression. -/
def expressionAssert (expression : String) : testscript.Assert :=
  { Label := "", Description := "d", Expression := expression,
    Operator := testscript.AssertionOperator.Equals, Path := "", Resource := "",
    Response := none, Value := "", WarningOnly := false }

/-- The `context` whose last result has the given decoded body. -/
def contextWithBody (body : Obj) : context :=
  { client := sampleClient, vars := [],
    lastResult := some { sampleLastResult with resource := some body } }

/-- An assert expecting a Patient and the status `okay`, under `equals`. -/
def resourceAndStatusAssert : testscript.Assert :=
  { Label := "", Description := "d", Expression := "",
    Operator := testscript.AssertionOperator.Equals, Path := "", Resource := "Patient",
    Response := some testscript.Okay, Value := "", WarningOnly := false }

/-- The `context` after a history operation answered with a Bundle and the
status 404. -/
def contextAfterNotFound : context :=
  { client := sampleClient, vars := [],
    lastResult := some { sampleLastResult with
      response := { Status := "404 Not Found", StatusCode := 404, Header := [], Body := "" } } }

/-- A history operation with the given `url`, `params` and `resource`. -/
def historyOperation (url params resource : String) : testscript.Operation :=
  { sampleOperation "history" with Url := url, Params := params, Resource := resource }

/-- A create operation with the given `sourceId` and `responseId`. -/
def createOperation (sourceId responseId : String) : testscript.Operation :=
  { sampleOperation "create" with SourceId := sourceId, ResponseId := responseId }

/-- The shared state with one fixture `F` holding a Patient. -/
def heapWithPatient : Heap :=
  { fixtures := [("F", { headers := [], resource := some [("resourceType", Value.str "Patient")] })],
    sent := [] }

/-- A library instance in which no create request can be built. -/
def noCreateRequestLib : Lib :=
  { sampleLib with NewCreateRequest := fun _ _ _ => Except.error (GoError.lib "invalid URL") }

/-- The request a create operation of `sampleClient` sends for a Patient,
with the payload `sampleLib` serialises. -/
def sampleCreateRequest : Request :=
  { Method := "POST", URL := "http://localhost/fhir/Patient", Header := [], Body := some "" }

/-- The response `sampleLib` answers every request with. -/
def sampleResponse : Response :=
  { Status := "200 OK", StatusCode := 200, Header := [], Body := "" }

/-- The body `sampleLib` decodes from every response. -/
def decodedBundle : Obj := [("resourceType", Value.str "Bundle")]

/-- A rendering that agrees with Go `fmt.Sprint` on strings and on the
numbers 0.0 and 1.0 of the repository's test. -/
def testSprint : Value → String
  | Value.float (Float64.finite q) => if q = 0 then "0" else if q = 1 then "1" else ""
  | Value.str s => s
  | _ => ""

/-- A document action declaring both a history operation and an assert. -/
def operationAndAssertAction : testscript.Action :=
  { Operation := some (sampleOperation "history"), Assert := some (sampleAssert "Patient") }

/-- A document action declaring neither an operation nor an assert. -/
def emptyAction : testscript.Action := { Operation := none, Assert := none }

/-- The term of an identifier node with the given captures. -/
def identifierNodeTerm (i : Identifier) : Term :=
  Term.mk none (some (Invocation.mk none (some i)))

/-- The expression the parser builds for the text `as`: one Identifier node
whose `Identifier` field is empty. -/
def expressionAs : Expression :=
  Expression.mk (EqualityExpression.mk
    (inequalityOfTerm (identifierNodeTerm
      { As := "as", Is := "", Identifier := "", DelimitedIdentifier := "" }))
    Operator.OpMul none)

/-- A context whose variable `P` has the expression `as` and the source `F`. -/
def contextWithP : context :=
  { client := sampleClient, vars := [("P", { expression := expressionAs, sourceId := "F" })],
    lastResult := none }

/-- A library instance whose `jsonpath.Get` reads the member named by the
path and whose `Sprint` renders a string as itself. -/
def pathLib : Lib :=
  { printingLib with JsonPathGet := fun path body => Except.ok (Obj.get body path) }

/-- An assert declaring only the given path and value. -/
def pathAssert (path value : String) : testscript.Assert :=
  { Label := "", Description := "d", Expression := "",
    Operator := testscript.AssertionOperator.Equals, Path := path, Resource := "",
    Response := none, Value := value, WarningOnly := false }

/-! ## Unfolding lemmas for the evaluator -/

theorem equalityEval_some (isUpper : Char → Bool) (eLeft : InequalityExpression)
    (op : Operator) (eRight : InequalityExpression) (coll : List Value) :
    EqualityExpression.Eval isUpper (EqualityExpression.mk eLeft op (some eRight)) coll =
      evalNode op coll (InequalityExpression.Eval isUpper eLeft coll)
        (some (fun _ => InequalityExpression.Eval isUpper eRight coll)) := by
  rfl

theorem inequalityEval_some (isUpper : Char → Bool) (eLeft : UnionExpression)
    (op : Operator) (eRight : UnionExpression) (coll : List Value) :
    InequalityExpression.Eval isUpper (InequalityExpression.mk eLeft op (some eRight)) coll =
      evalNode op coll (UnionExpression.Eval isUpper eLeft coll)
        (some (fun _ => UnionExpression.Eval isUpper eRight coll)) := by
  rfl

/-! ## Typed comparison -/

theorem ExtRat.coe_lt_top (q : ℚ) : (((q : WithTop ℚ) : ExtRat) < ⊤) := by
  rw [← WithBot.coe_top]; exact WithBot.coe_lt_coe.mpr (WithTop.coe_lt_top q)

theorem ExtRat.coe_ne_top (q : ℚ) : (((q : WithTop ℚ) : ExtRat) ≠ ⊤) :=
  (ExtRat.coe_lt_top q).ne

theorem Float64.lt_eq_relation (x y : Float64) (a b : ExtRat)
    (hx : x.toExtRat = some a) (hy : y.toExtRat = some b) :
    Float64.lt x y = decide (a < b) := by
  cases x <;> cases y <;> simp [Float64.toExtRat] at hx hy <;> subst hx <;> subst hy <;>
    simp [Float64.lt, WithBot.bot_lt_coe, ExtRat.coe_lt_top, ExtRat.coe_ne_top]

theorem Float64.le_eq_relation (x y : Float64) (a b : ExtRat)
    (hx : x.toExtRat = some a) (hy : y.toExtRat = some b) :
    Float64.le x y = decide (a ≤ b) := by
  cases x <;> cases y <;> simp [Float64.toExtRat] at hx hy <;> subst hx <;> subst hy <;>
    simp [Float64.le, ExtRat.coe_ne_top]

theorem Float64.eq_eq_relation (x y : Float64) (a b : ExtRat)
    (hx : x.toExtRat = some a) (hy : y.toExtRat = some b) :
    Float64.eq x y = decide (a = b) := by
  cases x <;> cases y <;> simp [Float64.toExtRat] at hx hy <;> subst hx <;> subst hy <;>
    simp [Float64.eq, ExtRat.coe_ne_top]

/-- On two operands that denote numbers, `compareFloat64` is the mathematical
relation of the operator. -/
theorem compareFloat64_eq_relation (op : Operator) (x y : Float64) (b : Bool)
    (h : op.relationExt x.toExtRat y.toExtRat = some b) :
    op.compareFloat64 x y = (b, none) := by
  cases hx : x.toExtRat with
  | none => simp [Operator.relationExt, hx] at h
  | some a =>
    cases hy : y.toExtRat with
    | none => simp [Operator.relationExt, hx, hy] at h
    | some c =>
      simp only [Operator.relationExt, hx, hy] at h
      cases op <;> simp [Operator.relation] at h <;> subst h <;>
        simp [Operator.compareFloat64, Float64.gt, Float64.ge,
          Float64.lt_eq_relation _ _ _ _ hx hy, Float64.lt_eq_relation _ _ _ _ hy hx,
          Float64.le_eq_relation _ _ _ _ hx hy, Float64.le_eq_relation _ _ _ _ hy hx,
          Float64.eq_eq_relation _ _ _ _ hx hy]

/-- On two integers, `compareInt` is the mathematical relation of the operator. -/
theorem compareInt_eq_relation (op : Operator) (x y : Int) (b : Bool)
    (h : op.relation x y = some b) : op.compareInt x y = (b, none) := by
  cases op <;> simp [Operator.relation] at h <;> subst h <;> simp [Operator.compareInt]

/-- On two numeric values, `compare` is the spec's typed comparison. -/
theorem compare_eq_numericRelation (op : Operator) (l r : Value) (b : Bool)
    (h : numericRelation op l r = some b) : compare op l r = (b, none) := by
  cases l <;> cases r <;> simp [numericRelation] at h
  · exact compareInt_eq_relation op _ _ b h
  · exact compareFloat64_eq_relation op _ _ b h
  · exact compareFloat64_eq_relation op _ _ b h
  · exact compareFloat64_eq_relation op _ _ b h

/-- The conversion of an `int` is a finite `float64`. -/
theorem Float64.ofInt_finite (i : Int) : ∃ q, Float64.ofInt i = Float64.finite q := by
  unfold Float64.ofInt
  split
  · exact ⟨_, rfl⟩
  · exact ⟨_, rfl⟩

/-- The relation on the numbers two `float64` denote is defined exactly when
the operator is a comparison and neither operand is NaN. -/
theorem relationExt_isSome_iff (op : Operator) (x y : Float64) :
    (op.relationExt x.toExtRat y.toExtRat).isSome = true ↔
      op.isComparison = true ∧ (Value.float x).isNumeric = true ∧
        (Value.float y).isNumeric = true := by
  cases x <;> cases y <;> cases op <;>
    simp [Operator.relationExt, Operator.relation, Float64.toExtRat, Operator.isComparison,
      Value.isNumeric]

/-- The spec's typed comparison of numbers is defined exactly on two numeric
values under a comparison operator. -/
theorem numericRelation_isSome_iff (op : Operator) (l r : Value) :
    (numericRelation op l r).isSome = true ↔
      op.isComparison = true ∧ l.isNumeric = true ∧ r.isNumeric = true := by
  cases l <;> cases r <;> try simp [numericRelation, Value.isNumeric]
  · cases op <;> simp [Operator.relation, Operator.isComparison]
  · rename_i x y
    obtain ⟨q, hq⟩ := Float64.ofInt_finite x
    rw [hq, relationExt_isSome_iff]
    simp [Value.isNumeric]
  · rename_i x y
    obtain ⟨q, hq⟩ := Float64.ofInt_finite y
    rw [hq, relationExt_isSome_iff]
    simp [Value.isNumeric]
  · rename_i x y
    rw [relationExt_isSome_iff]
    exact Iff.rfl

/-! ## Equality and Inequality nodes -/

/-- C7: for every Equality or Inequality node with a right operand whose left
and right sides each evaluate to exactly one numeric value `l` and `r`, `Eval`
returns the single-element collection `[l op r]`, where `op` is the
mathematical relation named by the node's operator among `<`, `<=`, `>`,
`>=`, `=` and an `int` is widened to `float64` when the other side is a
`float64`. -/
theorem C7_numeric_comparison (isUpper : Char → Bool) (op : Operator) (coll : List Value)
    (l r : Value) (b : Bool) (hrel : numericRelation op l r = some b) :
    (∀ eLeft eRight : InequalityExpression,
      InequalityExpression.Eval isUpper eLeft coll = Except.ok ([l], none) →
      InequalityExpression.Eval isUpper eRight coll = Except.ok ([r], none) →
      EqualityExpression.Eval isUpper (EqualityExpression.mk eLeft op (some eRight)) coll =
        Except.ok ([Value.bool b], none)) ∧
    (∀ eLeft eRight : UnionExpression,
      UnionExpression.Eval isUpper eLeft coll = Except.ok ([l], none) →
      UnionExpression.Eval isUpper eRight coll = Except.ok ([r], none) →
      InequalityExpression.Eval isUpper (InequalityExpression.mk eLeft op (some eRight)) coll =
        Except.ok ([Value.bool b], none)) := by
  have hc := compare_eq_numericRelation op l r b hrel
  constructor
  · intro eLeft eRight hl hr
    rw [equalityEval_some, hl]
    simp [evalNode, evalComparison, hr, hc]
    rfl
  · intro eLeft eRight hl hr
    rw [inequalityEval_some, hl]
    simp [evalNode, evalComparison, hr, hc]
    rfl

/-- Witness of C7: `1 = 1` and `1 > 0` evaluate to the collection holding
`true`, `1 < 0` to the one holding `false`, and `a > 0` on the collection
holding the object with `a: 1` (an `int` against a `float64`) to the one
holding `true`. -/
theorem C7_numeric_comparison_witness :
    EqualityExpression.Eval Char.isUpper
        (EqualityExpression.mk (inequalityOfTerm (numberTerm 1)) Operator.OpEqual
          (some (inequalityOfTerm (numberTerm 1)))) [] =
        Except.ok ([Value.bool true], none) ∧
      InequalityExpression.Eval Char.isUpper
        (InequalityExpression.mk (unionOfTerm (numberTerm 1)) Operator.OpGreaterThan
          (some (unionOfTerm (numberTerm 0)))) [] =
        Except.ok ([Value.bool true], none) ∧
      InequalityExpression.Eval Char.isUpper
        (InequalityExpression.mk (unionOfTerm (numberTerm 1)) Operator.OpLessThan
          (some (unionOfTerm (numberTerm 0)))) [] =
        Except.ok ([Value.bool false], none) ∧
      InequalityExpression.Eval Char.isUpper
        (InequalityExpression.mk (unionOfTerm (identifierTerm "a")) Operator.OpGreaterThan
          (some (unionOfTerm (numberTerm 0))))
        [Value.obj [("a", Value.int 1)]] = Except.ok ([Value.bool true], none) :=
  ⟨(C7_numeric_comparison Char.isUpper Operator.OpEqual [] (Value.float (Float64.finite 1))
      (Value.float (Float64.finite 1)) true
      (by simp [numericRelation, Operator.relationExt, Operator.relation,
        Float64.toExtRat])).1
      (inequalityOfTerm (numberTerm 1)) (inequalityOfTerm (numberTerm 1)) (by rfl) (by rfl),
    (C7_numeric_comparison Char.isUpper Operator.OpGreaterThan []
      (Value.float (Float64.finite 1)) (Value.float (Float64.finite 0)) true
      (by simp [numericRelation, Operator.relationExt, Operator.relation,
        Float64.toExtRat])).2
      (unionOfTerm (numberTerm 1)) (unionOfTerm (numberTerm 0)) (by rfl) (by rfl),
    (C7_numeric_comparison Char.isUpper Operator.OpLessThan []
      (Value.float (Float64.finite 1)) (Value.float (Float64.finite 0)) false
      (by simp [numericRelation, Operator.relationExt, Operator.relation,
        Float64.toExtRat])).2
      (unionOfTerm (numberTerm 1)) (unionOfTerm (numberTerm 0)) (by rfl) (by rfl),
    (C7_numeric_comparison Char.isUpper Operator.OpGreaterThan
      [Value.obj [("a", Value.int 1)]] (Value.int 1) (Value.float (Float64.finite 0)) true
      (by simp [numericRelation, Operator.relationExt, Operator.relation, Float64.ofInt,
        Float64.roundNat53, Float64.toExtRat])).2
      (unionOfTerm (identifierTerm "a")) (unionOfTerm (numberTerm 0)) (by rfl) (by rfl)⟩

/-- C8: empty propagation. For every Equality or Inequality node with a right
operand: if the left side evaluates to the empty collection, the result is the
empty collection with no error whatever the right operand is (nothing is
assumed of its evaluation); if the left side evaluates to one value and the
right side to the empty collection, the result is the empty collection with
no error. -/
theorem C8_empty_propagation (isUpper : Char → Bool) (op : Operator) (coll : List Value) :
    (∀ eLeft eRight : InequalityExpression,
      InequalityExpression.Eval isUpper eLeft coll = Except.ok ([], none) →
      EqualityExpression.Eval isUpper (EqualityExpression.mk eLeft op (some eRight)) coll =
        Except.ok ([], none)) ∧
    (∀ (eLeft eRight : InequalityExpression) (l : Value),
      InequalityExpression.Eval isUpper eLeft coll = Except.ok ([l], none) →
      InequalityExpression.Eval isUpper eRight coll = Except.ok ([], none) →
      EqualityExpression.Eval isUpper (EqualityExpression.mk eLeft op (some eRight)) coll =
        Except.ok ([], none)) ∧
    (∀ eLeft eRight : UnionExpression,
      UnionExpression.Eval isUpper eLeft coll = Except.ok ([], none) →
      InequalityExpression.Eval isUpper (InequalityExpression.mk eLeft op (some eRight)) coll =
        Except.ok ([], none)) ∧
    (∀ (eLeft eRight : UnionExpression) (l : Value),
      UnionExpression.Eval isUpper eLeft coll = Except.ok ([l], none) →
      UnionExpression.Eval isUpper eRight coll = Except.ok ([], none) →
      InequalityExpression.Eval isUpper (InequalityExpression.mk eLeft op (some eRight)) coll =
        Except.ok ([], none)) := by
  refine ⟨?_, ?_, ?_, ?_⟩
  · intro eLeft eRight hl
    rw [equalityEval_some, hl]
    rfl
  · intro eLeft eRight l hl hr
    rw [equalityEval_some, hl]
    simp [evalNode, evalComparison, hr]
    rfl
  · intro eLeft eRight hl
    rw [inequalityEval_some, hl]
    rfl
  · intro eLeft eRight l hl hr
    rw [inequalityEval_some, hl]
    simp [evalNode, evalComparison, hr]
    rfl

/-- Witness of C8: on the collection holding the object with `b: 1`, where
`a` navigates to nothing, `1 > a` evaluates to the empty collection, and so
does an equality of `a` with a right operand whose own evaluation would panic
(an identifier with an empty name). -/
theorem C8_empty_propagation_witness :
    EqualityExpression.Eval Char.isUpper
        (EqualityExpression.mk (inequalityOfTerm (identifierTerm "a")) Operator.OpEqual
          (some (inequalityOfTerm (identifierTerm ""))))
        [Value.obj [("b", Value.int 1)]] = Except.ok ([], none) ∧
      InequalityExpression.Eval Char.isUpper
        (InequalityExpression.mk (unionOfTerm (numberTerm 1)) Operator.OpGreaterThan
          (some (unionOfTerm (identifierTerm "a"))))
        [Value.obj [("b", Value.int 1)]] = Except.ok ([], none) :=
  ⟨(C8_empty_propagation Char.isUpper Operator.OpEqual [Value.obj [("b", Value.int 1)]]).1
      (inequalityOfTerm (identifierTerm "a")) (inequalityOfTerm (identifierTerm "")) (by rfl),
    (C8_empty_propagation Char.isUpper Operator.OpGreaterThan
      [Value.obj [("b", Value.int 1)]]).2.2.2
      (unionOfTerm (numberTerm 1)) (unionOfTerm (identifierTerm "a"))
      (Value.float (Float64.finite 1)) (by rfl) (by rfl)⟩

/-- C9: for every Equality or Inequality node with a right operand: if the
left side evaluates to more than one value, `Eval` fails with the "left side
has more than one value" error; if the left side evaluates to exactly one
value and the right side to more than one, `Eval` fails with the "right side
has more than one value" error. In both cases the collection handed back next
to the error is the offending side, not a comparison result. -/
theorem C9_more_than_one_value (isUpper : Char → Bool) (op : Operator) (coll : List Value) :
    (∀ (eLeft eRight : InequalityExpression) (l0 l1 : Value) (ls : List Value),
      InequalityExpression.Eval isUpper eLeft coll = Except.ok (l0 :: l1 :: ls, none) →
      EqualityExpression.Eval isUpper (EqualityExpression.mk eLeft op (some eRight)) coll =
        Except.ok (l0 :: l1 :: ls, some EvalError.leftMoreThanOne)) ∧
    (∀ (eLeft eRight : InequalityExpression) (l r0 r1 : Value) (rs : List Value),
      InequalityExpression.Eval isUpper eLeft coll = Except.ok ([l], none) →
      InequalityExpression.Eval isUpper eRight coll = Except.ok (r0 :: r1 :: rs, none) →
      EqualityExpression.Eval isUpper (EqualityExpression.mk eLeft op (some eRight)) coll =
        Except.ok (r0 :: r1 :: rs, some EvalError.rightMoreThanOne)) ∧
    (∀ (eLeft eRight : UnionExpression) (l0 l1 : Value) (ls : List Value),
      UnionExpression.Eval isUpper eLeft coll = Except.ok (l0 :: l1 :: ls, none) →
      InequalityExpression.Eval isUpper (InequalityExpression.mk eLeft op (some eRight)) coll =
        Except.ok (l0 :: l1 :: ls, some EvalError.leftMoreThanOne)) ∧
    (∀ (eLeft eRight : UnionExpression) (l r0 r1 : Value) (rs : List Value),
      UnionExpression.Eval isUpper eLeft coll = Except.ok ([l], none) →
      UnionExpression.Eval isUpper eRight coll = Except.ok (r0 :: r1 :: rs, none) →
      InequalityExpression.Eval isUpper (InequalityExpression.mk eLeft op (some eRight)) coll =
        Except.ok (r0 :: r1 :: rs, some EvalError.rightMoreThanOne)) := by
  refine ⟨?_, ?_, ?_, ?_⟩
  · intro eLeft eRight l0 l1 ls hl
    rw [equalityEval_some, hl]
    rfl
  · intro eLeft eRight l r0 r1 rs hl hr
    rw [equalityEval_some, hl]
    simp [evalNode, evalComparison, hr]
    rfl
  · intro eLeft eRight l0 l1 ls hl
    rw [inequalityEval_some, hl]
    rfl
  · intro eLeft eRight l r0 r1 rs hl hr
    rw [inequalityEval_some, hl]
    simp [evalNode, evalComparison, hr]
    rfl

/-- Witness of C9: on the collection holding the object with `a: [1, 2]`,
`a = 1` fails on its left side and `1 > a` on its right side. -/
theorem C9_more_than_one_value_witness :
    EqualityExpression.Eval Char.isUpper
        (EqualityExpression.mk (inequalityOfTerm (identifierTerm "a")) Operator.OpEqual
          (some (inequalityOfTerm (numberTerm 1))))
        [Value.obj [("a", Value.seq [Value.int 1, Value.int 2])]] =
          Except.ok ([Value.int 1, Value.int 2], some EvalError.leftMoreThanOne) ∧
      InequalityExpression.Eval Char.isUpper
        (InequalityExpression.mk (unionOfTerm (numberTerm 1)) Operator.OpGreaterThan
          (some (unionOfTerm (identifierTerm "a"))))
        [Value.obj [("a", Value.seq [Value.int 1, Value.int 2])]] =
          Except.ok ([Value.int 1, Value.int 2], some EvalError.rightMoreThanOne) :=
  ⟨(C9_more_than_one_value Char.isUpper Operator.OpEqual
      [Value.obj [("a", Value.seq [Value.int 1, Value.int 2])]]).1
      (inequalityOfTerm (identifierTerm "a")) (inequalityOfTerm (numberTerm 1))
      (Value.int 1) (Value.int 2) [] (by rfl),
    (C9_more_than_one_value Char.isUpper Operator.OpGreaterThan
      [Value.obj [("a", Value.seq [Value.int 1, Value.int 2])]]).2.2.2
      (unionOfTerm (numberTerm 1)) (unionOfTerm (identifierTerm "a"))
      (Value.float (Float64.finite 1)) (Value.int 1) (Value.int 2) [] (by rfl) (by rfl)⟩

/-- C10: typed comparison fails with the "uncomparable types" error for every
pair of values that is not (number, number) or (string, string), for every
operator: `compare` returns that error, naming both operands, and no
comparison result. -/
theorem C10_uncomparable_types (op : Operator) (a b : Value)
    (hnum : ¬ (a.isNumber = true ∧ b.isNumber = true))
    (hstr : ¬ (a.isString = true ∧ b.isString = true)) :
    compare op a b = (false, some (EvalError.uncomparableTypes a b)) := by
  cases a <;> cases b <;> simp [Value.isNumber, Value.isString] at hnum hstr <;>
    simp [compare]

/-- Witness of C10: a string against a number, under the equality operator. -/
theorem C10_uncomparable_types_witness :
    compare Operator.OpEqual (Value.str "a") (Value.int 1) =
      (false, some (EvalError.uncomparableTypes (Value.str "a") (Value.int 1))) :=
  C10_uncomparable_types Operator.OpEqual (Value.str "a") (Value.int 1)
    (by simp [Value.isNumber]) (by simp [Value.isString])

/-! ## Blocks of actions -/

/-- The slice built so far is a prefix of what the loop returns. -/
theorem executeActions_acc (lib : Lib) (actions : List testscript.Action) :
    ∀ (heap : Heap) (ctx : context) (acc : List testreport.Action),
      executeActions lib heap ctx actions acc =
        match executeActions lib heap ctx actions [] with
        | Except.error p => Except.error p
        | Except.ok (heap1, rs) => Except.ok (heap1, acc ++ rs) := by
  induction actions with
  | nil => intro heap ctx acc; simp [executeActions, pure, Except.pure]
  | cons a rest ih =>
    intro heap ctx acc
    simp only [executeActions]
    cases h : executeAction lib heap ctx a with
    | error p => simp [throw, throwThe, MonadExceptOf.throw]
    | ok out =>
      obtain ⟨heap1, ctx1, r⟩ := out
      by_cases hf : r.Failed = true
      · simp [hf, pure, Except.pure]
      · simp only [hf, if_false, List.nil_append]
        rw [ih heap1 ctx1 (acc ++ [r]), ih heap1 ctx1 [r]]
        cases executeActions lib heap1 ctx1 rest [] with
        | error p => rfl
        | ok out2 => simp

/-- One step of the loop, the report read from the front. -/
theorem executeActions_cons (lib : Lib) (heap : Heap) (ctx : context)
    (a : testscript.Action) (rest : List testscript.Action) :
    executeActions lib heap ctx (a :: rest) [] =
      match executeAction lib heap ctx a with
      | Except.error p => Except.error p
      | Except.ok (heap1, ctx1, r) =>
        if r.Failed = true then Except.ok (heap1, [r])
        else
          match executeActions lib heap1 ctx1 rest [] with
          | Except.error p => Except.error p
          | Except.ok (heap2, rs) => Except.ok (heap2, r :: rs) := by
  simp only [executeActions]
  cases h : executeAction lib heap ctx a with
  | error p => simp [throw, throwThe, MonadExceptOf.throw]
  | ok out =>
    obtain ⟨heap1, ctx1, r⟩ := out
    by_cases hf : r.Failed = true
    · simp [hf, pure, Except.pure]
    · simp only [hf, if_false, List.nil_append]
      rw [executeActions_acc lib rest heap1 ctx1 [r]]
      cases executeActions lib heap1 ctx1 rest [] with
      | error p => rfl
      | ok out2 => simp

/-- One result per action executed. -/
theorem resultsInOrder_length (lib : Lib) (actions : List testscript.Action) :
    ∀ (heap : Heap) (ctx : context) (heap1 : Heap) (ctx1 : context)
      (rs : List testreport.Action),
      resultsInOrder lib heap ctx actions = Except.ok (heap1, ctx1, rs) →
        rs.length = actions.length := by
  induction actions with
  | nil =>
    intro heap ctx heap1 ctx1 rs h
    simp [resultsInOrder] at h
    simp [h.2.2.symm]
  | cons a rest ih =>
    intro heap ctx heap1 ctx1 rs h
    simp only [resultsInOrder] at h
    cases ha : executeAction lib heap ctx a with
    | error p => simp [ha] at h
    | ok out =>
      obtain ⟨heap2, ctx2, r⟩ := out
      simp only [ha] at h
      cases hr : resultsInOrder lib heap2 ctx2 rest with
      | error p => simp [hr] at h
      | ok out2 =>
        obtain ⟨heap3, ctx3, rs2⟩ := out2
        simp only [hr, Except.ok.injEq, Prod.mk.injEq] at h
        obtain ⟨_, _, rfl⟩ := h
        simp [ih heap2 ctx2 heap3 ctx3 rs2 hr]

/-- Taking no action gives no result, so no last result. -/
theorem resultsInOrder_zero_absurd (lib : Lib) (heap heap1 : Heap) (ctx ctx1 : context)
    (actions : List testscript.Action) (rs : List testreport.Action)
    (hres : resultsInOrder lib heap ctx (actions.take 0) = Except.ok (heap1, ctx1, rs))
    (hlast : ∃ last, rs.getLast? = some last ∧ last.Failed = true) : False := by
  simp only [List.take_zero, resultsInOrder, Except.ok.injEq, Prod.mk.injEq] at hres
  obtain ⟨_, _, rfl⟩ := hres
  obtain ⟨last, h, _⟩ := hlast
  simp at h

/-- The results of a non-empty list of actions, read from the front. -/
theorem resultsInOrder_cons_ok (lib : Lib) (heap heap1 heap2 : Heap) (ctx ctx1 ctx2 : context)
    (a : testscript.Action) (rest : List testscript.Action) (r : testreport.Action)
    (rs : List testreport.Action)
    (ha : executeAction lib heap ctx a = Except.ok (heap2, ctx2, r))
    (hres : resultsInOrder lib heap ctx (a :: rest) = Except.ok (heap1, ctx1, rs)) :
    ∃ rs2, rs = r :: rs2 ∧ resultsInOrder lib heap2 ctx2 rest = Except.ok (heap1, ctx1, rs2) := by
  simp only [resultsInOrder, ha] at hres
  cases hr : resultsInOrder lib heap2 ctx2 rest with
  | error p => simp [hr] at hres
  | ok out2 =>
    obtain ⟨heap3, ctx3, rs2⟩ := out2
    simp only [hr, Except.ok.injEq, Prod.mk.injEq] at hres
    obtain ⟨rfl, rfl, rfl⟩ := hres
    exact ⟨rs2, rfl, rfl⟩

/-- The loop of a block returns exactly the results of its first `k` actions,
`k` being the position of the first failed result, or the number of actions
when none failed. -/
theorem executeActions_iff (lib : Lib) (actions : List testscript.Action) :
    ∀ (heap : Heap) (ctx : context) (heap1 : Heap) (rs : List testreport.Action),
      executeActions lib heap ctx actions [] = Except.ok (heap1, rs) ↔
        ∃ (k : Nat) (ctx1 : context), k ≤ actions.length ∧
          resultsInOrder lib heap ctx (actions.take k) = Except.ok (heap1, ctx1, rs) ∧
          (∀ r ∈ rs.dropLast, r.Failed = false) ∧
          (k < actions.length → ∃ last, rs.getLast? = some last ∧ last.Failed = true) := by
  induction actions with
  | nil =>
    intro heap ctx heap1 rs
    simp only [executeActions, pure, Except.pure, Except.ok.injEq, Prod.mk.injEq]
    constructor
    · rintro ⟨rfl, rfl⟩
      exact ⟨0, ctx, by simp, by simp [resultsInOrder], by simp, by simp⟩
    · rintro ⟨k, ctx1, _, hres, _, _⟩
      simp only [List.take_nil, resultsInOrder, Except.ok.injEq, Prod.mk.injEq] at hres
      exact ⟨hres.1, hres.2.2⟩
  | cons a rest ih =>
    intro heap ctx heap1 rs
    rw [executeActions_cons]
    cases ha : executeAction lib heap ctx a with
    | error p =>
      constructor
      · intro h
        cases h
      · rintro ⟨k, ctx1, hk, hres, hall, hlast⟩
        cases k with
        | zero => exact (resultsInOrder_zero_absurd lib _ _ _ _ _ _ hres (hlast (by simp))).elim
        | succ k => simp [resultsInOrder, ha] at hres
    | ok out =>
      obtain ⟨heap2, ctx2, r⟩ := out
      by_cases hf : r.Failed = true
      · simp only [hf, if_true, Except.ok.injEq, Prod.mk.injEq]
        constructor
        · rintro ⟨rfl, rfl⟩
          exact ⟨1, ctx2, by simp, by simp [resultsInOrder, ha], by simp,
            fun _ => ⟨r, by simp, hf⟩⟩
        · rintro ⟨k, ctx1, hk, hres, hall, hlast⟩
          cases k with
          | zero => exact (resultsInOrder_zero_absurd lib _ _ _ _ _ _ hres (hlast (by simp))).elim
          | succ k =>
            rw [List.take_succ_cons] at hres
            obtain ⟨rs2, rfl, hr⟩ := resultsInOrder_cons_ok lib _ _ _ _ _ _ _ _ _ _ ha hres
            cases rs2 with
            | nil =>
              have hlen := resultsInOrder_length lib _ _ _ _ _ _ hr
              cases k with
              | zero =>
                simp only [List.take_zero, resultsInOrder, Except.ok.injEq,
                  Prod.mk.injEq] at hr
                exact ⟨hr.1, rfl⟩
              | succ k =>
                simp only [List.length_nil, List.length_take, List.length_cons] at hlen hk
                omega
            | cons r2 rs3 =>
              have := hall r (by simp [List.dropLast])
              simp [hf] at this
      · simp only [hf, if_false]
        constructor
        · intro h
          cases hr : executeActions lib heap2 ctx2 rest [] with
          | error p => simp [hr] at h
          | ok out2 =>
            obtain ⟨heap3, rs2⟩ := out2
            simp only [hr, Except.ok.injEq, Prod.mk.injEq] at h
            obtain ⟨rfl, rfl⟩ := h
            obtain ⟨k, ctx1, hk, hres, hall, hlast⟩ := (ih _ _ _ _).mp hr
            refine ⟨k + 1, ctx1, by simp [hk], by simp [resultsInOrder, ha, hres], ?_, ?_⟩
            · intro x hx
              cases rs2 with
              | nil => simp [List.dropLast] at hx
              | cons r2 rs3 =>
                simp only [List.dropLast_cons₂, List.mem_cons] at hx
                rcases hx with rfl | hx
                · simpa using hf
                · exact hall x hx
            · intro hlt
              obtain ⟨last, h1, h2⟩ := hlast (by simpa using hlt)
              refine ⟨last, ?_, h2⟩
              cases rs2 with
              | nil => simp at h1
              | cons r2 rs3 => simpa [List.getLast?_cons_cons] using h1
        · rintro ⟨k, ctx1, hk, hres, hall, hlast⟩
          cases k with
          | zero => exact (resultsInOrder_zero_absurd lib _ _ _ _ _ _ hres (hlast (by simp))).elim
          | succ k =>
            rw [List.take_succ_cons] at hres
            obtain ⟨rs2, rfl, hr⟩ := resultsInOrder_cons_ok lib _ _ _ _ _ _ _ _ _ _ ha hres
            have hrest : executeActions lib heap2 ctx2 rest [] = Except.ok (heap1, rs2) := by
              refine (ih heap2 ctx2 heap1 rs2).mpr ⟨k, ctx1, by simpa using hk, hr, ?_, ?_⟩
              · intro x hx
                cases rs2 with
                | nil => simp [List.dropLast] at hx
                | cons r2 rs3 =>
                  exact hall x (by
                    simp only [List.dropLast_cons₂, List.mem_cons]
                    exact Or.inr hx)
              · intro hlt
                obtain ⟨last, h1, h2⟩ := hlast (by simpa using hlt)
                cases rs2 with
                | nil =>
                  simp only [List.getLast?_singleton, Option.some.injEq] at h1
                  subst h1
                  simp [hf] at h2
                | cons r2 rs3 =>
                  exact ⟨last, by simpa [List.getLast?_cons_cons] using h1, h2⟩
            simp [hrest]

/-- C2: for every block (`executeSetup` or `executeTest`) with declared
actions `a1..an`, the block returns with recorded results `rs` exactly when
`rs` are the results of `a1..ak` in document order, each executed in the
state left by its predecessor, where every recorded result before the last
is non-failed and `k < n` only if the last recorded result is failed: `k` is
the position of the first Fail or Error result, or `n`. The shared state
returned is the one left by `ak`, so no later action was executed. A Test
report carries the name and description of its block. -/
theorem C2_block_stops_at_first_failure (lib : Lib) (heap : Heap) (ctx : context) :
    (∀ (setup : testscript.Setup) (heap1 : Heap) (report : testreport.Setup),
      executeSetup lib heap ctx setup = Except.ok (heap1, report) ↔
        ∃ (k : Nat) (ctx1 : context), k ≤ setup.Action.length ∧
          resultsInOrder lib heap ctx (setup.Action.take k) =
            Except.ok (heap1, ctx1, report.Action) ∧
          (∀ r ∈ report.Action.dropLast, r.Failed = false) ∧
          (k < setup.Action.length →
            ∃ last, report.Action.getLast? = some last ∧ last.Failed = true)) ∧
    (∀ (test : testscript.Test) (heap1 : Heap) (report : testreport.Test),
      executeTest lib heap ctx test = Except.ok (heap1, report) ↔
        report.Name = test.Name ∧ report.Description = test.Description ∧
        ∃ (k : Nat) (ctx1 : context), k ≤ test.Action.length ∧
          resultsInOrder lib heap ctx (test.Action.take k) =
            Except.ok (heap1, ctx1, report.Action) ∧
          (∀ r ∈ report.Action.dropLast, r.Failed = false) ∧
          (k < test.Action.length →
            ∃ last, report.Action.getLast? = some last ∧ last.Failed = true)) := by
  constructor
  · intro setup heap1 report
    rw [← executeActions_iff lib setup.Action heap ctx heap1 report.Action]
    simp only [executeSetup]
    cases h : executeActions lib heap ctx setup.Action [] with
    | error p => simp [throw, throwThe, MonadExceptOf.throw]
    | ok out =>
      obtain ⟨heap2, rs⟩ := out
      obtain ⟨ra⟩ := report
      simp [pure, Except.pure]
  · intro test heap1 report
    rw [← executeActions_iff lib test.Action heap ctx heap1 report.Action]
    simp only [executeTest]
    cases h : executeActions lib heap ctx test.Action [] with
    | error p => simp [throw, throwThe, MonadExceptOf.throw]
    | ok out =>
      obtain ⟨heap2, rs⟩ := out
      obtain ⟨rn, rd, ra⟩ := report
      simp only [pure, Except.pure, Except.ok.injEq, Prod.mk.injEq, testreport.Test.mk.injEq]
      constructor
      · rintro ⟨rfl, rfl, rfl, rfl⟩
        exact ⟨rfl, rfl, rfl, rfl⟩
      · rintro ⟨rfl, rfl, rfl, rfl⟩
        exact ⟨rfl, rfl, rfl, rfl⟩

/-- Witness of C2: in a Test block whose second action fails, exactly two
results are recorded, the failing one last, and the third declared action is
not executed (one request was sent, not two). -/
theorem C2_block_stops_at_first_failure_witness :
    executeTest sampleLib { fixtures := [], sent := [] } sampleContext threeActionTest =
      Except.ok ({ fixtures := [], sent := [sampleHistoryRequest] }, threeActionReport) :=
  ((C2_block_stops_at_first_failure sampleLib { fixtures := [], sent := [] }
      sampleContext).2 threeActionTest { fixtures := [], sent := [sampleHistoryRequest] }
      threeActionReport).mpr
    ⟨rfl, rfl, 2, { sampleContext with lastResult := some sampleLastResult }, by decide,
      by rfl, by
        intro r hr
        simp only [threeActionReport, List.dropLast, List.mem_singleton] at hr
        subst hr
        rfl,
      fun _ => ⟨_, rfl, rfl⟩⟩

/-! ## Failed blocks -/

/-- C5: a block is failed iff its last recorded action result is Fail or
Error. `Setup.Failed()` is true exactly when the action list is non-empty and
the result held by its last Action (the Operation result, else the Assert
result) has code Fail or Error; it is false for an empty list and when the
last result has code Pass, Skip or Warning. -/
theorem C5_setup_failed_iff (s : testreport.Setup) :
    (s.Failed = true ↔
      ∃ (init : List testreport.Action) (last : testreport.Action)
        (r : testreport.ActionResult),
        s.Action = init ++ [last] ∧
        (last.Operation = some r ∨ (last.Operation = none ∧ last.Assert = some r)) ∧
        (r.Result = ActionResultCode.Fail ∨ r.Result = ActionResultCode.Error)) ∧
    (s.Action = [] → s.Failed = false) ∧
    (∀ (init : List testreport.Action) (last : testreport.Action)
        (r : testreport.ActionResult),
      s.Action = init ++ [last] →
      (last.Operation = some r ∨ (last.Operation = none ∧ last.Assert = some r)) →
      (r.Result = ActionResultCode.Pass ∨ r.Result = ActionResultCode.Skip ∨
        r.Result = ActionResultCode.Warning) →
      s.Failed = false) := by
  obtain ⟨actions⟩ := s
  have key : ∀ (init : List testreport.Action) (last : testreport.Action),
      actions = init ++ [last] →
        testreport.Setup.Failed { Action := actions } = last.Failed := by
    intro init last h
    subst h
    simp [testreport.Setup.Failed]
  have hres : ∀ (last : testreport.Action) (r : testreport.ActionResult),
      (last.Operation = some r ∨ (last.Operation = none ∧ last.Assert = some r)) →
        last.Failed = r.Failed := by
    intro last r h
    rcases h with h | ⟨h1, h2⟩
    · simp [testreport.Action.Failed, h]
    · simp [testreport.Action.Failed, h1, h2]
  refine ⟨?_, ?_, ?_⟩
  · constructor
    · intro hf
      rcases List.eq_nil_or_concat actions with hnil | ⟨init, last, hcons⟩
      · subst hnil
        simp [testreport.Setup.Failed] at hf
      · rw [List.concat_eq_append] at hcons
        rw [key init last hcons] at hf
        cases hop : last.Operation with
        | some r =>
          refine ⟨init, last, r, hcons, Or.inl hop, ?_⟩
          simp only [testreport.Action.Failed, hop] at hf
          revert hf
          simp only [testreport.ActionResult.Failed]
          cases r.Result <;> simp
        | none =>
          cases has : last.Assert with
          | some r =>
            refine ⟨init, last, r, hcons, Or.inr ⟨hop, has⟩, ?_⟩
            simp only [testreport.Action.Failed, hop, has] at hf
            revert hf
            simp only [testreport.ActionResult.Failed]
            cases r.Result <;> simp
          | none => simp [testreport.Action.Failed, hop, has] at hf
    · rintro ⟨init, last, r, hcons, hlast, hcode⟩
      simp only at hcons
      rw [key init last hcons, hres last r hlast]
      rcases hcode with h | h <;> simp [testreport.ActionResult.Failed, h]
  · intro h
    simp only at h
    subst h
    simp [testreport.Setup.Failed]
  · intro init last r hcons hlast hcode
    simp only at hcons
    rw [key init last hcons, hres last r hlast]
    rcases hcode with h | h | h <;> simp [testreport.ActionResult.Failed, h]

/-- Witness of C5: a Setup whose only result is an Operation Error is failed,
and one whose only result is an Assert Pass is not. -/
theorem C5_setup_failed_iff_witness :
    testreport.Setup.Failed
        { Action :=
            [{ Operation := some (errorf "unsupported operation type `%s`" []),
               Assert := none }] } = true ∧
      testreport.Setup.Failed
        { Action := [{ Operation := none, Assert := some (pass "") }] } = false :=
  ⟨(C5_setup_failed_iff _).1.mpr ⟨[], _, _, rfl, Or.inl rfl, Or.inr rfl⟩,
    (C5_setup_failed_iff _).2.2 [] _ _ rfl (Or.inr ⟨rfl, rfl⟩) (Or.inl rfl)⟩

/-! ## The run of a test script -/

/-- The unfolding of `executeTestScript` once fixtures and variables are
loaded and the Setup block, which exists, has returned. -/
theorem executeTestScript_after_setup (lib : Lib) (client : fhir.Client) (sent : List Request)
    (dir : String) (ts : fhir.TestScript) (setup : testscript.Setup) (fixs : fixtures)
    (vs : variableTable) (heap1 : Heap) (sr : testreport.Setup)
    (hsetup : ts.Setup = some setup)
    (hfix : loadFixtures lib dir ts.Fixture = Except.ok fixs)
    (hvar : prepareVariables lib ts.Variable = Except.ok vs)
    (hrun : executeSetup lib { fixtures := fixs, sent := sent }
      { client := client, vars := vs, lastResult := none } setup = Except.ok (heap1, sr)) :
    executeTestScript lib client sent dir ts =
      if sr.Failed = true then
        Except.ok (heap1,
          { Name := reportName ts, Status := "", Setup := some sr, Test := [] }, none)
      else
        match executeTests lib { client := client, vars := vs, lastResult := none } heap1
            ts.Test [] with
        | Except.error p => Except.error p
        | Except.ok (heap2, tests) =>
          Except.ok (heap2,
            { Name := reportName ts, Status := "", Setup := some sr, Test := tests }, none) := by
  simp only [executeTestScript, hfix, hvar, hsetup, hrun, pure, Except.pure]
  by_cases hf : sr.Failed = true
  · simp [hf]
  · simp only [hf, if_false]
    cases executeTests lib { client := client, vars := vs, lastResult := none } heap1
        ts.Test [] with
    | error p => rfl
    | ok out => rfl

/-- C1: for every test-script document that has a Setup block and every
transport behaviour (every `lib`): when fixtures and variables load and the
Setup block returns a report whose last recorded action result is Fail or
Error (`sr.Failed`), `executeTestScript` returns, without error, the report
whose Test list is empty and whose Setup is the Setup report as recorded; the
shared state is the one the Setup block left, so no Test block was executed. -/
theorem C1_failed_setup_runs_no_test (lib : Lib) (client : fhir.Client) (sent : List Request)
    (dir : String) (ts : fhir.TestScript) (setup : testscript.Setup) (fixs : fixtures)
    (vs : variableTable) (heap1 : Heap) (sr : testreport.Setup)
    (hsetup : ts.Setup = some setup)
    (hfix : loadFixtures lib dir ts.Fixture = Except.ok fixs)
    (hvar : prepareVariables lib ts.Variable = Except.ok vs)
    (hrun : executeSetup lib { fixtures := fixs, sent := sent }
      { client := client, vars := vs, lastResult := none } setup = Except.ok (heap1, sr))
    (hfail : sr.Failed = true) :
    executeTestScript lib client sent dir ts =
      Except.ok (heap1,
        { Name := reportName ts, Status := "", Setup := some sr, Test := [] }, none) := by
  rw [executeTestScript_after_setup lib client sent dir ts setup fixs vs heap1 sr hsetup hfix
    hvar hrun]
  simp [hfail]

/-- Witness of C1: a Setup whose first action is an operation of unsupported
kind; the second Setup action and the Test block send no request. -/
theorem C1_failed_setup_runs_no_test_witness :
    executeTestScript sampleLib sampleClient [] "dir" scriptFailingSetup =
      Except.ok ({ fixtures := [], sent := [] },
        { Name := "failing-setup", Status := "", Setup := some failingSetupReport, Test := [] },
        none) :=
  C1_failed_setup_runs_no_test sampleLib sampleClient [] "dir" scriptFailingSetup
    { Action := [deleteAction, historyAction] } [] [] { fixtures := [], sent := [] }
    failingSetupReport rfl rfl rfl (by rfl) (by rfl)

/-- The slice of Test reports built so far is a prefix of what the loop
returns. -/
theorem executeTests_acc (lib : Lib) (ctx : context) (tests : List testscript.Test) :
    ∀ (heap : Heap) (acc : List testreport.Test),
      executeTests lib ctx heap tests acc =
        match executeTests lib ctx heap tests [] with
        | Except.error p => Except.error p
        | Except.ok (heap1, rs) => Except.ok (heap1, acc ++ rs) := by
  induction tests with
  | nil => intro heap acc; simp [executeTests, pure, Except.pure]
  | cons t rest ih =>
    intro heap acc
    simp only [executeTests]
    cases h : executeTest lib heap ctx t with
    | error p => simp [throw, throwThe, MonadExceptOf.throw]
    | ok out =>
      obtain ⟨heap1, r⟩ := out
      simp only [List.nil_append]
      rw [ih heap1 (acc ++ [r]), ih heap1 [r]]
      cases executeTests lib ctx heap1 rest [] with
      | error p => rfl
      | ok out2 => simp

/-- One step of the loop over the Test blocks, the report read from the front. -/
theorem executeTests_cons (lib : Lib) (ctx : context) (heap : Heap) (t : testscript.Test)
    (rest : List testscript.Test) :
    executeTests lib ctx heap (t :: rest) [] =
      match executeTest lib heap ctx t with
      | Except.error p => Except.error p
      | Except.ok (heap1, r) =>
        match executeTests lib ctx heap1 rest [] with
        | Except.error p => Except.error p
        | Except.ok (heap2, rs) => Except.ok (heap2, r :: rs) := by
  simp only [executeTests]
  cases h : executeTest lib heap ctx t with
  | error p => simp [throw, throwThe, MonadExceptOf.throw]
  | ok out =>
    obtain ⟨heap1, r⟩ := out
    simp only [List.nil_append]
    rw [executeTests_acc lib ctx rest heap1 [r]]
    cases executeTests lib ctx heap1 rest [] with
    | error p => rfl
    | ok out2 => simp

/-- A Test report carries the name and the description of its block. -/
theorem executeTest_name (lib : Lib) (heap heap1 : Heap) (ctx : context)
    (t : testscript.Test) (r : testreport.Test)
    (h : executeTest lib heap ctx t = Except.ok (heap1, r)) :
    r.Name = t.Name ∧ r.Description = t.Description := by
  simp only [executeTest] at h
  cases ha : executeActions lib heap ctx t.Action [] with
  | error p => simp [ha, throw, throwThe, MonadExceptOf.throw] at h
  | ok out =>
    obtain ⟨heap2, rs⟩ := out
    simp only [ha, pure, Except.pure, Except.ok.injEq, Prod.mk.injEq] at h
    obtain ⟨_, rfl⟩ := h
    exact ⟨rfl, rfl⟩

/-- What the loop over the Test blocks returns: one report per block, in
order, each the report of its block executed from the loop's `ctx`. -/
theorem executeTests_forall₂ (lib : Lib) (ctx : context) (tests : List testscript.Test) :
    ∀ (heap heap1 : Heap) (rs : List testreport.Test),
      executeTests lib ctx heap tests [] = Except.ok (heap1, rs) →
        List.Forall₂
          (fun t r => r.Name = t.Name ∧ r.Description = t.Description ∧
            ∃ h1 h2, executeTest lib h1 ctx t = Except.ok (h2, r)) tests rs := by
  induction tests with
  | nil =>
    intro heap heap1 rs h
    simp only [executeTests, pure, Except.pure, Except.ok.injEq, Prod.mk.injEq] at h
    obtain ⟨_, rfl⟩ := h
    exact List.Forall₂.nil
  | cons t rest ih =>
    intro heap heap1 rs h
    rw [executeTests_cons] at h
    cases ht : executeTest lib heap ctx t with
    | error p => simp [ht] at h
    | ok out =>
      obtain ⟨heap2, r⟩ := out
      simp only [ht] at h
      cases hr : executeTests lib ctx heap2 rest [] with
      | error p => simp [hr] at h
      | ok out2 =>
        obtain ⟨heap3, rs2⟩ := out2
        simp only [hr, Except.ok.injEq, Prod.mk.injEq] at h
        obtain ⟨_, rfl⟩ := h
        have hn := executeTest_name lib heap heap2 ctx t r ht
        exact List.Forall₂.cons ⟨hn.1, hn.2, heap, heap2, ht⟩ (ih heap2 heap3 rs2 hr)

/-- The loop over the Test blocks returns when every block does. -/
theorem executeTests_returns (lib : Lib) (ctx : context) (tests : List testscript.Test)
    (hret : ∀ t ∈ tests, ∀ heap : Heap, ∃ out, executeTest lib heap ctx t = Except.ok out) :
    ∀ heap : Heap, ∃ heap1 rs, executeTests lib ctx heap tests [] = Except.ok (heap1, rs) := by
  induction tests with
  | nil => intro heap; exact ⟨heap, [], rfl⟩
  | cons t rest ih =>
    intro heap
    obtain ⟨⟨heap1, r⟩, ht⟩ := hret t (by simp) heap
    obtain ⟨heap2, rs, hr⟩ := ih (fun t2 h2 => hret t2 (by simp [h2])) heap1
    exact ⟨heap2, r :: rs, by rw [executeTests_cons, ht]; simp [hr]⟩

/-- In a run that returns, for a document whose Setup block exists and did
not fail, the report holds, without error, exactly one Test result per
declared Test block, in document order, each carrying its block's name and
description and being the report of that block, whether or not an earlier
Test block stopped at a failing action. -/
theorem executeTestScript_one_result_per_test (lib : Lib) (client : fhir.Client)
    (sent : List Request) (dir : String) (ts : fhir.TestScript) (setup : testscript.Setup)
    (fixs : fixtures) (vs : variableTable) (heap1 heap2 : Heap) (sr : testreport.Setup)
    (report : fhir.TestReport) (err : Option GoError)
    (hsetup : ts.Setup = some setup)
    (hfix : loadFixtures lib dir ts.Fixture = Except.ok fixs)
    (hvar : prepareVariables lib ts.Variable = Except.ok vs)
    (hrun : executeSetup lib { fixtures := fixs, sent := sent }
      { client := client, vars := vs, lastResult := none } setup = Except.ok (heap1, sr))
    (hok : sr.Failed = false)
    (hreturn : executeTestScript lib client sent dir ts = Except.ok (heap2, report, err)) :
    err = none ∧ report.Setup = some sr ∧
      List.Forall₂
        (fun t r => r.Name = t.Name ∧ r.Description = t.Description ∧
          ∃ h1 h2, executeTest lib h1 { client := client, vars := vs, lastResult := none } t =
            Except.ok (h2, r)) ts.Test report.Test := by
  rw [executeTestScript_after_setup lib client sent dir ts setup fixs vs heap1 sr hsetup hfix
    hvar hrun] at hreturn
  simp only [hok, Bool.false_eq_true, if_false] at hreturn
  cases hr : executeTests lib { client := client, vars := vs, lastResult := none } heap1
      ts.Test [] with
  | error p =>
    simp only [hr] at hreturn
    cases hreturn
  | ok out =>
    obtain ⟨heap3, rs⟩ := out
    simp only [hr] at hreturn
    cases hreturn
    exact ⟨rfl, rfl, executeTests_forall₂ lib _ ts.Test heap1 _ _ hr⟩

/-- The same on a passing Setup followed by two Test blocks, the first of
which stops at its first action: both blocks are reported. -/
theorem executeTestScript_two_tests :
    ∃ (heap2 : Heap) (report : fhir.TestReport),
      executeTestScript sampleLib sampleClient [] "dir" scriptTwoTests =
        Except.ok (heap2, report, none) ∧
      report.Setup = some passingSetupReport ∧
      List.Forall₂
        (fun t r => r.Name = t.Name ∧ r.Description = t.Description ∧
          ∃ h1 h2, executeTest sampleLib h1
            { client := sampleClient, vars := [], lastResult := none } t =
              Except.ok (h2, r)) scriptTwoTests.Test report.Test := by
  obtain ⟨heap2, rs, hr⟩ := executeTests_returns sampleLib
    { client := sampleClient, vars := [], lastResult := none } scriptTwoTests.Test
    (by
      intro t ht heap
      simp only [scriptTwoTests, List.mem_cons, List.mem_singleton, List.not_mem_nil,
        or_false] at ht
      rcases ht with rfl | rfl
      · exact ⟨_, rfl⟩
      · exact ⟨_, rfl⟩)
    { fixtures := [], sent := [sampleHistoryRequest] }
  have hrun : executeTestScript sampleLib sampleClient [] "dir" scriptTwoTests =
      Except.ok (heap2,
        { Name := reportName scriptTwoTests, Status := "", Setup := some passingSetupReport,
          Test := rs }, none) := by
    rw [executeTestScript_after_setup sampleLib sampleClient [] "dir" scriptTwoTests
      { Action := [historyAction] } [] [] { fixtures := [], sent := [sampleHistoryRequest] }
      passingSetupReport rfl rfl rfl (by rfl)]
    have hok : passingSetupReport.Failed = false := by rfl
    simp [hok, hr]
  exact ⟨heap2, _, hrun,
    (executeTestScript_one_result_per_test sampleLib sampleClient [] "dir" scriptTwoTests
      { Action := [historyAction] } [] [] { fixtures := [], sent := [sampleHistoryRequest] }
      heap2 passingSetupReport _ none rfl rfl rfl (by rfl) (by rfl) hrun).2⟩

/-- Claim C3, the code at the failing input: the document `scriptTestAssertsFirst`
has a Setup block, which runs and does not fail, and declares two Test
blocks; its first Test block starts with an assert, which reads the last
result through the nil pointer of the block's fresh context; the run panics
and returns no report, so no Test result at all. -/
theorem C3_assert_first_test_panics :
    scriptTestAssertsFirst.Setup = some { Action := [historyAction] } ∧
    scriptTestAssertsFirst.Test.length = 2 ∧
    executeSetup sampleLib { fixtures := [], sent := [] } sampleContext
        { Action := [historyAction] } =
      Except.ok ({ fixtures := [], sent := [sampleHistoryRequest] }, passingSetupReport) ∧
    passingSetupReport.Failed = false ∧
    executeTestScript sampleLib sampleClient [] "dir" scriptTestAssertsFirst =
      Except.error Panic.nilDeref :=
  ⟨rfl, rfl, by rfl, by rfl, by rfl⟩

/-- Without a Setup block, once fixtures and variables are loaded, the run
panics on `report.Setup.Failed()`: no report is returned, whatever the Test
blocks are. -/
theorem executeTestScript_without_setup (lib : Lib) (client : fhir.Client)
    (sent : List Request) (dir : String) (ts : fhir.TestScript) (fixs : fixtures)
    (vs : variableTable) (hsetup : ts.Setup = none)
    (hfix : loadFixtures lib dir ts.Fixture = Except.ok fixs)
    (hvar : prepareVariables lib ts.Variable = Except.ok vs) :
    executeTestScript lib client sent dir ts = Except.error Panic.nilDeref := by
  simp only [executeTestScript, hfix, hvar, hsetup, pure, Except.pure]
  rfl

/-- C4, the code at the failing input: for a script that declares no Setup
block and one Test block, `executeTestScript` does not complete: it panics
with a nil dereference and returns no report. -/
theorem C4_missing_setup_panics :
    executeTestScript sampleLib sampleClient [] "dir" scriptWithoutSetup =
      Except.error Panic.nilDeref := by
  rfl

/-- Every element of the right list of a pairwise relation has a partner in
the left list. -/
theorem forall₂_mem_right {α β : Type} {R : α → β → Prop} {l1 : List α} {l2 : List β}
    (h : List.Forall₂ R l1 l2) : ∀ r ∈ l2, ∃ t ∈ l1, R t r := by
  induction h with
  | nil => intro r hr; simp at hr
  | cons hab _ ih =>
    intro r hr
    simp only [List.mem_cons] at hr
    rcases hr with rfl | hr
    · exact ⟨_, by simp, hab⟩
    · obtain ⟨t, ht, hR⟩ := ih r hr
      exact ⟨t, by simp [ht], hR⟩

/-- C6 as stated fails: in `scriptAssertFirst` the Setup's history operation
records a last result against which the assert of the Test block would pass,
yet the run does not evaluate the assert against it: the Test block starts
without last result and the run panics. -/
theorem C6_counterexample :
    executeAction sampleLib { fixtures := [], sent := [] } sampleContext historyAction =
        Except.ok ({ fixtures := [], sent := [sampleHistoryRequest] },
          { sampleContext with lastResult := some sampleLastResult },
          { Operation := some (pass "Successful system history request"), Assert := none }) ∧
      executeAssert sampleLib { fixtures := [], sent := [sampleHistoryRequest] }
        { sampleContext with lastResult := some sampleLastResult } (sampleAssert "Bundle") =
          Except.ok (pass "") ∧
      executeTestScript sampleLib sampleClient [] "dir" scriptAssertFirst =
        Except.error Panic.nilDeref :=
  ⟨by rfl, by rfl, by rfl⟩

/-- C6 amended: the last-operation result is threaded through the actions of
one block and not from block to block. Within a block, the action after a
non-failed action runs in the `context` that action returned; an Assert
action is `executeAssert` on the `context` it receives, which it returns
unchanged; and in a run that returns, the Setup report and every Test report
are those of a block started from the `context` built by `executeTestScript`,
whose last result is unset. -/
theorem C6_last_result_is_block_local (lib : Lib) :
    (∀ (heap heap1 heap2 : Heap) (ctx ctx1 : context) (a : testscript.Action)
        (rest : List testscript.Action) (r : testreport.Action)
        (rs : List testreport.Action),
      executeAction lib heap ctx a = Except.ok (heap1, ctx1, r) → r.Failed = false →
      executeActions lib heap1 ctx1 rest [] = Except.ok (heap2, rs) →
      executeActions lib heap ctx (a :: rest) [] = Except.ok (heap2, r :: rs)) ∧
    (∀ (heap : Heap) (ctx : context) (assert : testscript.Assert)
        (result : testreport.ActionResult),
      executeAssert lib heap ctx assert = Except.ok result →
      executeAction lib heap ctx { Operation := none, Assert := some assert } =
        Except.ok (heap, ctx, { Operation := none, Assert := some result })) ∧
    (∀ (client : fhir.Client) (sent : List Request) (dir : String) (ts : fhir.TestScript)
        (heap : Heap) (report : fhir.TestReport) (err : Option GoError),
      executeTestScript lib client sent dir ts = Except.ok (heap, report, err) →
      ∃ vs : variableTable,
        (∀ sr, report.Setup = some sr → ∃ setup h1 h2, ts.Setup = some setup ∧
          executeSetup lib h1 { client := client, vars := vs, lastResult := none } setup =
            Except.ok (h2, sr)) ∧
        (∀ r ∈ report.Test, ∃ t h1 h2, t ∈ ts.Test ∧
          executeTest lib h1 { client := client, vars := vs, lastResult := none } t =
            Except.ok (h2, r))) := by
  refine ⟨?_, ?_, ?_⟩
  · intro heap heap1 heap2 ctx ctx1 a rest r rs ha hf hrest
    rw [executeActions_cons, ha]
    simp [hf, hrest]
  · intro heap ctx assert result h
    simp [executeAction, h, pure, Except.pure]
  · intro client sent dir ts heap report err h
    cases hfix : loadFixtures lib dir ts.Fixture with
    | error e =>
      simp only [executeTestScript, hfix, pure, Except.pure, Except.ok.injEq,
        Prod.mk.injEq] at h
      obtain ⟨_, rfl, _⟩ := h
      exact ⟨[], by simp, by simp⟩
    | ok fixs =>
      cases hvar : prepareVariables lib ts.Variable with
      | error e =>
        simp only [executeTestScript, hfix, hvar, pure, Except.pure, Except.ok.injEq,
          Prod.mk.injEq] at h
        obtain ⟨_, rfl, _⟩ := h
        exact ⟨[], by simp, by simp⟩
      | ok vs =>
        refine ⟨vs, ?_⟩
        cases hsetup : ts.Setup with
        | none =>
          rw [executeTestScript_without_setup lib client sent dir ts fixs vs hsetup hfix
            hvar] at h
          cases h
        | some setup =>
          cases hrun : executeSetup lib { fixtures := fixs, sent := sent }
              { client := client, vars := vs, lastResult := none } setup with
          | error p =>
            simp [executeTestScript, hfix, hvar, hsetup, hrun, throw, throwThe,
              MonadExceptOf.throw] at h
          | ok out =>
            obtain ⟨heap1, sr⟩ := out
            rw [executeTestScript_after_setup lib client sent dir ts setup fixs vs heap1 sr
              hsetup hfix hvar hrun] at h
            by_cases hf : sr.Failed = true
            · simp only [hf, if_true, Except.ok.injEq, Prod.mk.injEq] at h
              obtain ⟨_, rfl, _⟩ := h
              refine ⟨?_, by simp⟩
              intro sr2 hsr
              simp only [Option.some.injEq] at hsr
              subst hsr
              exact ⟨setup, _, _, rfl, hrun⟩
            · simp only [hf, if_false] at h
              cases hr : executeTests lib { client := client, vars := vs, lastResult := none }
                  heap1 ts.Test [] with
              | error p => simp [hr] at h
              | ok out2 =>
                obtain ⟨heap2, rs⟩ := out2
                simp only [hr, Except.ok.injEq, Prod.mk.injEq] at h
                obtain ⟨_, rfl, _⟩ := h
                refine ⟨?_, ?_⟩
                · intro sr2 hsr
                  simp only [Option.some.injEq] at hsr
                  subst hsr
                  exact ⟨setup, _, _, rfl, hrun⟩
                · intro r hr2
                  have hall := executeTests_forall₂ lib _ ts.Test heap1 _ rs hr
                  obtain ⟨t, ht, _, _, h1, h2, hex⟩ := forall₂_mem_right hall r hr2
                  exact ⟨t, h1, h2, ht, hex⟩

/-- Witness of C6 amended: in the block made of a history request followed by
an assert on the resource type, the assert is evaluated against the result
the history request recorded. -/
theorem C6_last_result_is_block_local_witness :
    executeActions sampleLib { fixtures := [], sent := [] } sampleContext
        [historyAction, assertAction "Bundle"] [] =
      Except.ok ({ fixtures := [], sent := [sampleHistoryRequest] },
        [{ Operation := some (pass "Successful system history request"), Assert := none },
          { Operation := none, Assert := some (pass "") }]) :=
  (C6_last_result_is_block_local sampleLib).1 { fixtures := [], sent := [] }
    { fixtures := [], sent := [sampleHistoryRequest] }
    { fixtures := [], sent := [sampleHistoryRequest] } sampleContext
    { sampleContext with lastResult := some sampleLastResult } historyAction
    [assertAction "Bundle"] _ _ (by rfl) (by rfl)
    (by
      rw [show executeActions sampleLib { fixtures := [], sent := [sampleHistoryRequest] }
          { sampleContext with lastResult := some sampleLastResult }
          [assertAction "Bundle"] [] =
        Except.ok ({ fixtures := [], sent := [sampleHistoryRequest] },
          [{ Operation := none, Assert := some (pass "") }]) from by rfl])

/-! ## Strings under typed comparison -/

/-- C11: for every pair of strings `a` and `b`, typed comparison with the
equality operator returns `a == b` without error, and with every other
operator (the ordering operators and the arithmetic operators) it returns the
"inappropriate comparison operator used for strings" error and no comparison
result. -/
theorem C11_string_comparison (a b : String) :
    compare Operator.OpEqual (Value.str a) (Value.str b) = (decide (a = b), none) ∧
    (∀ op : Operator, op ≠ Operator.OpEqual →
      compare op (Value.str a) (Value.str b) =
        (false, some (EvalError.inappropriateStringOperator op))) := by
  constructor
  · rfl
  · intro op hop
    cases op <;> first | rfl | exact absurd rfl hop

/-- Witness of C11: `'a' = 'a'` evaluates to the collection holding `true`,
and `'a' < 'b'` fails with the inappropriate-operator error. -/
theorem C11_string_comparison_witness :
    EqualityExpression.Eval Char.isUpper
        (EqualityExpression.mk (inequalityOfTerm (stringTerm "'a'")) Operator.OpEqual
          (some (inequalityOfTerm (stringTerm "'a'")))) [] =
        Except.ok ([Value.bool (decide ("a" = "a"))], none) ∧
      compare Operator.OpLessThan (Value.str "a") (Value.str "b") =
        (false, some (EvalError.inappropriateStringOperator Operator.OpLessThan)) :=
  ⟨by
      rw [equalityEval_some]
      simp only [evalNode, evalComparison,
        show InequalityExpression.Eval Char.isUpper (inequalityOfTerm (stringTerm "'a'")) [] =
          Except.ok ([Value.str "a"], none) from by rfl,
        (C11_string_comparison "a" "a").1]
      rfl,
    (C11_string_comparison "a" "b").2 Operator.OpLessThan (by decide)⟩

/-! ## Identifiers: member navigation and type filter -/

/-- On a collection of objects the navigation loop appends, object by
object, what the named member contributes. -/
theorem navigate_objects (name : String) (objs : List Obj) :
    ∀ result : List Value,
      navigate name (objs.map Value.obj) result =
        (result ++ (objs.map (memberValues name)).flatten, none) := by
  induction objs with
  | nil => intro result; simp [navigate]
  | cons m rest ih =>
    intro result
    simp only [List.map_cons, List.flatten_cons, navigate, memberValues]
    cases h : Obj.get m name <;> simp only [ih, List.append_assoc, List.nil_append,
      List.cons_append, List.singleton_append]

/-- The navigation loop stops at the first item that is not an object, with
what the objects before it contributed. -/
theorem navigate_stops (name : String) (objs : List Obj) (item : Value) (rest : List Value)
    (hitem : item.isObject = false) :
    ∀ result : List Value,
      navigate name (objs.map Value.obj ++ item :: rest) result =
        (result ++ (objs.map (memberValues name)).flatten,
          some (EvalError.unsupportedNavigation item name)) := by
  induction objs with
  | nil =>
    intro result
    cases item <;> simp [Value.isObject] at hitem <;> simp [navigate]
  | cons m objs ih =>
    intro result
    simp only [List.map_cons, List.cons_append, List.flatten_cons, navigate, memberValues]
    cases h : Obj.get m name <;> simp only [List.append_eq, ih, List.append_assoc,
      List.nil_append, List.cons_append, List.singleton_append]

/-- A collection holding an item that is not an object splits at the first
such item. -/
theorem split_at_first_non_object (coll : List Value)
    (h : ∃ v ∈ coll, v.isObject = false) :
    ∃ (objs : List Obj) (item : Value) (rest : List Value),
      coll = objs.map Value.obj ++ item :: rest ∧ item.isObject = false := by
  induction coll with
  | nil => obtain ⟨v, hv, _⟩ := h; simp at hv
  | cons x xs ih =>
    cases hx : x.isObject with
    | false => exact ⟨[], x, xs, by simp, hx⟩
    | true =>
      obtain ⟨v, hv, hvo⟩ := h
      simp only [List.mem_cons] at hv
      rcases hv with rfl | hv
      · simp [hx] at hvo
      · obtain ⟨objs, item, rest, hsplit, hitem⟩ := ih ⟨v, hv, hvo⟩
        cases x <;> simp [Value.isObject] at hx
        rename_i m
        exact ⟨m :: objs, item, rest, by simp [hsplit], hitem⟩

/-- Go equality of a string with an `interface{}`, by cases on the value. -/
theorem eqString_spec (v : Value) (name : String) :
    v.eqString name =
      (match v with
      | Value.str t => t == name
      | _ => false) := by
  cases v <;> simp [Value.eqString]
  rename_i t
  by_cases h : name = t
  · simp [h]
  · have h2 : ¬ t = name := fun e => h e.symm
    simp [h, h2]

/-- The type-filter loop is the filter by resource type. -/
theorem typeFilter_eq_filter (name : String) (coll : List Value) :
    typeFilter name coll = coll.filter (Value.hasResourceType name) := by
  induction coll with
  | nil => rfl
  | cons x xs ih =>
    cases x <;>
      simp only [typeFilter, ih, List.filter_cons, Value.hasResourceType, eqString_spec] <;>
      rfl

/-- C12: member navigation. For every identifier whose name starts with a
character that is not upper case and every collection whose items are all
objects, `Identifier.Eval` returns without error, in input order, the
concatenation over the items of: the elements of the named member if it is a
sequence (one level spliced), nothing if the member is absent or null, and
the member itself otherwise. -/
theorem C12_member_navigation (isUpper : Char → Bool) (i : Identifier) (c : Char)
    (cs : List Char) (hname : i.Identifier.data = c :: cs) (hlower : isUpper c = false)
    (objs : List Obj) :
    Identifier.Eval isUpper i (objs.map Value.obj) =
      Except.ok ((objs.map (memberValues i.Identifier)).flatten, none) := by
  simp only [Identifier.Eval, hname, hlower, navigate_objects, List.nil_append]
  rfl

/-- Witness of C12: `a` on the collection holding the object with `a: 'b'`
gives `['b']`, and on the one holding the object with `a: ['b', 'c']` and
`d: 'e'` gives `['b', 'c']`. -/
theorem C12_member_navigation_witness :
    Identifier.Eval Char.isUpper (plainIdentifier "a") [Value.obj [("a", Value.str "b")]] =
        Except.ok ([Value.str "b"], none) ∧
      Identifier.Eval Char.isUpper (plainIdentifier "a")
        [Value.obj [("a", Value.seq [Value.str "b", Value.str "c"]), ("d", Value.str "e")]] =
        Except.ok ([Value.str "b", Value.str "c"], none) :=
  ⟨C12_member_navigation Char.isUpper (plainIdentifier "a") 'a' [] rfl rfl
      [[("a", Value.str "b")]],
    C12_member_navigation Char.isUpper (plainIdentifier "a") 'a' [] rfl rfl
      [[("a", Value.seq [Value.str "b", Value.str "c"]), ("d", Value.str "e")]]⟩

/-- C13: type filter. For every identifier whose name starts with an
upper-case character and every collection, `Identifier.Eval` returns without
error exactly the sub-list, order preserved, of the items that are objects
whose `resourceType` member equals the identifier; items that are not
objects and objects of another kind are dropped. -/
theorem C13_type_filter (isUpper : Char → Bool) (i : Identifier) (c : Char)
    (cs : List Char) (hname : i.Identifier.data = c :: cs) (hupper : isUpper c = true)
    (coll : List Value) :
    Identifier.Eval isUpper i coll =
      Except.ok (coll.filter (Value.hasResourceType i.Identifier), none) := by
  simp only [Identifier.Eval, hname, hupper, typeFilter_eq_filter]
  rfl

/-- Witness of C13: `Bundle` keeps the Bundle and drops a string and a
Patient standing next to it; `Bundle.total` on the Bundle gives `[0]` and
`Patient.total` gives the empty collection. -/
theorem C13_type_filter_witness :
    Identifier.Eval Char.isUpper (plainIdentifier "Bundle")
        [Value.str "x", sampleBundle, Value.obj [("resourceType", Value.str "Patient")]] =
        Except.ok ([sampleBundle], none) ∧
      Expression.Eval Char.isUpper
        (chainExpression (identifierTerm "Bundle") [identifierInvocation "total"])
        [sampleBundle] = Except.ok ([Value.int 0], none) ∧
      Expression.Eval Char.isUpper
        (chainExpression (identifierTerm "Patient") [identifierInvocation "total"])
        [sampleBundle] = Except.ok ([], none) :=
  ⟨C13_type_filter Char.isUpper (plainIdentifier "Bundle") 'B' ['u', 'n', 'd', 'l', 'e'] rfl rfl
      [Value.str "x", sampleBundle, Value.obj [("resourceType", Value.str "Patient")]],
    by rfl, by rfl⟩

/-- C14: for every identifier whose name starts with a character that is not
upper case and every collection containing at least one item that is not an
object, member navigation fails with the navigation error naming the first
such item; the collection handed back next to the error is what the objects
before that item contributed, and the item is not skipped. -/
theorem C14_navigation_error (isUpper : Char → Bool) (i : Identifier) (c : Char)
    (cs : List Char) (hname : i.Identifier.data = c :: cs) (hlower : isUpper c = false)
    (coll : List Value) (h : ∃ v ∈ coll, v.isObject = false) :
    ∃ (objs : List Obj) (item : Value) (rest : List Value),
      coll = objs.map Value.obj ++ item :: rest ∧ item.isObject = false ∧
      Identifier.Eval isUpper i coll =
        Except.ok ((objs.map (memberValues i.Identifier)).flatten,
          some (EvalError.unsupportedNavigation item i.Identifier)) := by
  obtain ⟨objs, item, rest, hsplit, hitem⟩ := split_at_first_non_object coll h
  refine ⟨objs, item, rest, hsplit, hitem, ?_⟩
  subst hsplit
  simp only [Identifier.Eval, hname, hlower, navigate_stops _ _ _ _ hitem, List.nil_append]
  rfl

/-- Witness of C14: navigating `a` over an object followed by a string fails
at the string. -/
theorem C14_navigation_error_witness :
    ∃ (objs : List Obj) (item : Value) (rest : List Value),
      [Value.obj [("a", Value.int 1)], Value.str "x"] = objs.map Value.obj ++ item :: rest ∧
      item.isObject = false ∧
      Identifier.Eval Char.isUpper (plainIdentifier "a")
        [Value.obj [("a", Value.int 1)], Value.str "x"] =
        Except.ok ((objs.map (memberValues (plainIdentifier "a").Identifier)).flatten,
          some (EvalError.unsupportedNavigation item (plainIdentifier "a").Identifier)) :=
  C14_navigation_error Char.isUpper (plainIdentifier "a") 'a' [] rfl rfl
    [Value.obj [("a", Value.int 1)], Value.str "x"] ⟨Value.str "x", by simp, rfl⟩

/-! ## The function `where` -/

/-- A call of `where` with one parameter runs the loop of `callWhere` over
the input collection. -/
theorem functionEval_where (isUpper : Char → Bool) (name : Identifier)
    (hname : name.Identifier = "where") (criteria : Expression) (coll : List Value) :
    Function.Eval isUpper (Function.mk name [criteria]) coll =
      whereLoop (fun c => Expression.Eval isUpper criteria c) coll [] := by
  show (if name.Identifier = "where" then
      whereLoop (fun c => Expression.Eval isUpper criteria c) coll []
    else pure ([], some (EvalError.unsupportedFunction name.Identifier))) = _
  simp [hname]

/-- When the criteria yields one boolean on every item, the loop appends the
items on which it yields `true`. -/
theorem whereLoop_filter (criteria : List Value → EvalResult) (keep : Value → Bool)
    (coll : List Value) :
    (∀ item ∈ coll, criteria [item] = Except.ok ([Value.bool (keep item)], none)) →
    ∀ result : List Value,
      whereLoop criteria coll result = Except.ok (result ++ coll.filter keep, none) := by
  induction coll with
  | nil => intro _ result; simp [whereLoop, pure, Except.pure]
  | cons x xs ih =>
    intro h result
    have hx := h x (by simp)
    have hxs := ih (fun item hi => h item (by simp [hi]))
    simp only [whereLoop, hx, List.filter_cons]
    cases hk : keep x
    · simp [hxs]
    · simp [hxs]

/-- C15: for every `where` call with one criteria expression and every input
collection on each of whose items the criteria, evaluated against the
singleton `[item]`, yields exactly one boolean (`keep item`), the result is,
without error, the sub-list of the input, in input order, of exactly those
items for which the criteria yields `[true]`. -/
theorem C15_where_filter (isUpper : Char → Bool) (name : Identifier)
    (hname : name.Identifier = "where") (criteria : Expression) (coll : List Value)
    (keep : Value → Bool)
    (hcrit : ∀ item ∈ coll,
      Expression.Eval isUpper criteria [item] = Except.ok ([Value.bool (keep item)], none)) :
    Function.Eval isUpper (Function.mk name [criteria]) coll =
      Except.ok (coll.filter keep, none) := by
  rw [functionEval_where isUpper name hname criteria coll,
    whereLoop_filter (fun c => Expression.Eval isUpper criteria c) keep coll hcrit []]
  rfl

/-- Witness of C15: `where(b = 3)` on the items `b: 1, c: 2` and `b: 3, c: 4`
keeps the second; `a.where(b = 3).c` on the object holding them under `a`
gives `[4]`. -/
theorem C15_where_filter_witness :
    Function.Eval Char.isUpper (whereCall (identifierEqualsNumber "b" 3)) sampleItems =
        Except.ok ([Value.obj [("b", Value.int 3), ("c", Value.int 4)]], none) ∧
      Expression.Eval Char.isUpper
        (chainExpression (identifierTerm "a")
          [Invocation.mk (some (whereCall (identifierEqualsNumber "b" 3))) none,
            identifierInvocation "c"])
        [Value.obj [("a", Value.seq sampleItems)]] = Except.ok ([Value.int 4], none) :=
  ⟨C15_where_filter Char.isUpper (plainIdentifier "where") rfl (identifierEqualsNumber "b" 3)
      sampleItems memberBIsThree (by
        intro item hitem
        simp only [sampleItems, List.mem_cons, List.mem_singleton, List.not_mem_nil,
          or_false] at hitem
        rcases hitem with rfl | rfl
        · rfl
        · rfl),
    by rfl⟩

/-- The loop of `callWhere` indexes the first value of the criteria's result:
on an empty result it panics. -/
theorem whereLoop_empty_panics (criteria : List Value → EvalResult) (item : Value)
    (rest result : List Value) (h : criteria [item] = Except.ok ([], none)) :
    whereLoop criteria (item :: rest) result = Except.error Panic.indexOutOfRange := by
  simp only [whereLoop, h]
  rfl

/-- C16, the code at the failing inputs: `where(b = 3)` on an item without
member `b`, for which the criteria is the empty collection, panics with an
index out of range instead of returning an error; and `where(b)` on an item
whose member `b` is `[true, false]`, for which the criteria has two values,
silently keeps the item. -/
theorem C16_where_criteria_not_checked :
    Function.Eval Char.isUpper (whereCall (identifierEqualsNumber "b" 3))
        [Value.obj [("c", Value.int 1)]] = Except.error Panic.indexOutOfRange ∧
      Function.Eval Char.isUpper (whereCall (chainExpression (identifierTerm "b") []))
        [Value.obj [("b", Value.seq [Value.bool true, Value.bool false])]] =
        Except.ok ([Value.obj [("b", Value.seq [Value.bool true, Value.bool false])]], none) :=
  ⟨by rfl, by rfl⟩

/-! ## Invocation chains -/

/-- The loop over the invocations, read from the front. -/
theorem evalInvocations_cons (isUpper : Char → Bool) (inv : Invocation)
    (rest : List Invocation) (result : List Value) :
    evalInvocations isUpper (inv :: rest) result =
      thenEval (Invocation.Eval isUpper inv result) (evalInvocations isUpper rest) := by
  show (match Invocation.Eval isUpper inv result with
    | Except.error p => throw p
    | Except.ok (result1, some err) => pure (result1, some err)
    | Except.ok (result1, none) => evalInvocations isUpper rest result1) = _
  cases Invocation.Eval isUpper inv result with
  | error p => rfl
  | ok out =>
    obtain ⟨r, e⟩ := out
    cases e <;> rfl

/-- An invocation expression evaluates its target and threads the result
into the loop over its invocations. -/
theorem invocationExpressionEval_mk (isUpper : Char → Bool) (target : Term)
    (invocations : List Invocation) (coll : List Value) :
    InvocationExpression.Eval isUpper (InvocationExpression.mk target invocations) coll =
      thenEval (Term.Eval isUpper target coll) (evalInvocations isUpper invocations) := by
  show (match Term.Eval isUpper target coll with
    | Except.error p => throw p
    | Except.ok (result, some err) => pure (result, some err)
    | Except.ok (result, none) => evalInvocations isUpper invocations result) = _
  cases Term.Eval isUpper target coll with
  | error p => rfl
  | ok out =>
    obtain ⟨r, e⟩ := out
    cases e <;> rfl

/-- Threading is associative. -/
theorem thenEval_assoc (res : EvalResult) (f g : List Value → EvalResult) :
    thenEval (thenEval res f) g = thenEval res (fun r => thenEval (f r) g) := by
  cases res with
  | error p => rfl
  | ok out =>
    obtain ⟨r, e⟩ := out
    cases e <;> rfl

/-- The loop over a concatenation is the loop over its first part threaded
into the loop over its second part. -/
theorem evalInvocations_append (isUpper : Char → Bool) (xs ys : List Invocation) :
    ∀ result : List Value,
      evalInvocations isUpper (xs ++ ys) result =
        thenEval (evalInvocations isUpper xs result) (evalInvocations isUpper ys) := by
  induction xs with
  | nil => intro result; rfl
  | cons x xs ih =>
    intro result
    rw [List.cons_append, evalInvocations_cons, evalInvocations_cons, thenEval_assoc]
    congr 1
    funext r
    exact ih r

/-- Threading a list of invocations one by one, from the left, into an
evaluation is threading the evaluation into the loop over them. -/
theorem foldl_thenEval (isUpper : Char → Bool) (invocations : List Invocation) :
    ∀ res : EvalResult,
      invocations.foldl (fun acc inv => thenEval acc (Invocation.Eval isUpper inv)) res =
        thenEval res (evalInvocations isUpper invocations) := by
  induction invocations with
  | nil =>
    intro res
    cases res with
    | error p => rfl
    | ok out =>
      obtain ⟨r, e⟩ := out
      cases e <;> rfl
  | cons x xs ih =>
    intro res
    rw [List.foldl_cons, ih, thenEval_assoc]
    exact congrArg (thenEval res)
      (funext fun r => (evalInvocations_cons isUpper x xs r).symm)

/-- C17: invocation chain. For every InvocationExpression with target `t` and
invocations `i1..in` and every collection, `Eval` equals applying `i1..in`
from left to right to the result of `t`, each invocation receiving the
previous result as its input collection and the first error (or panic)
stopping the chain; and evaluating a chain `xs ++ ys` is evaluating the chain
`xs` and then the invocations `ys` on its result. -/
theorem C17_invocation_chain (isUpper : Char → Bool) (target : Term) (coll : List Value) :
    (∀ invocations : List Invocation,
      InvocationExpression.Eval isUpper (InvocationExpression.mk target invocations) coll =
        invocations.foldl (fun acc inv => thenEval acc (Invocation.Eval isUpper inv))
          (Term.Eval isUpper target coll)) ∧
    (∀ xs ys : List Invocation,
      InvocationExpression.Eval isUpper (InvocationExpression.mk target (xs ++ ys)) coll =
        thenEval (InvocationExpression.Eval isUpper (InvocationExpression.mk target xs) coll)
          (fun result =>
            ys.foldl (fun acc inv => thenEval acc (Invocation.Eval isUpper inv))
              (Except.ok (result, none)))) := by
  constructor
  · intro invocations
    rw [invocationExpressionEval_mk, foldl_thenEval]
  · intro xs ys
    rw [invocationExpressionEval_mk, invocationExpressionEval_mk, thenEval_assoc]
    congr 1
    funext r
    rw [evalInvocations_append]
    exact congrArg (thenEval (evalInvocations isUpper xs r))
      (funext fun result => by rw [foldl_thenEval]; rfl)

/-! ## Levels that pass through -/

/-- C18: pass-through of the unevaluated levels. For every collection, `Eval`
of a Union node equals `Eval` of its left operand, and `Eval` of a TypeCast,
Additive, Multiplicative, Polarity or Indexer node equals `Eval` of its inner,
left or target expression, whatever right operand, operator list, polarity
sign, modifier, type specifier or index the node carries; so a Union node
evaluates as the invocation expression at the bottom of its left spine. -/
theorem C18_pass_through (isUpper : Char → Bool) (coll : List Value) :
    (∀ (left : TypeExpression) (right : Option TypeExpression),
      UnionExpression.Eval isUpper (UnionExpression.mk left right) coll =
        TypeExpression.Eval isUpper left coll) ∧
    (∀ (inner : AdditiveExpression) (modifier : String) (spec : Option TypeSpecifier),
      TypeExpression.Eval isUpper (TypeExpression.mk inner modifier spec) coll =
        AdditiveExpression.Eval isUpper inner coll) ∧
    (∀ (left : MultiplicativeExpression) (right : List OpMultiplicativeExpression),
      AdditiveExpression.Eval isUpper (AdditiveExpression.mk left right) coll =
        MultiplicativeExpression.Eval isUpper left coll) ∧
    (∀ (left : PolarityExpression) (right : List OpPolarityExpression),
      MultiplicativeExpression.Eval isUpper (MultiplicativeExpression.mk left right) coll =
        PolarityExpression.Eval isUpper left coll) ∧
    (∀ (polarity : Option PolarityOp) (inner : IndexerExpression),
      PolarityExpression.Eval isUpper (PolarityExpression.mk polarity inner) coll =
        IndexerExpression.Eval isUpper inner coll) ∧
    (∀ (target : InvocationExpression) (index : Option InvocationExpression),
      IndexerExpression.Eval isUpper (IndexerExpression.mk target index) coll =
        InvocationExpression.Eval isUpper target coll) ∧
    (∀ (target : InvocationExpression) (index : Option InvocationExpression)
        (polarity : Option PolarityOp) (mulRight : List OpPolarityExpression)
        (addRight : List OpMultiplicativeExpression) (modifier : String)
        (spec : Option TypeSpecifier) (unionRight : Option TypeExpression),
      UnionExpression.Eval isUpper
        (UnionExpression.mk (TypeExpression.mk (AdditiveExpression.mk
          (MultiplicativeExpression.mk
            (PolarityExpression.mk polarity (IndexerExpression.mk target index)) mulRight)
          addRight) modifier spec) unionRight) coll =
        InvocationExpression.Eval isUpper target coll) := by
  refine ⟨?_, ?_, ?_, ?_, ?_, ?_, ?_⟩ <;> intros <;> rfl

/-! ## Literals -/

/-- Dropping the leading characters that satisfy `p` leaves a list unchanged
when its first character, if any, does not satisfy `p`. -/
theorem dropWhile_of_not_mem (q : Char) (x : List Char) (hx : q ∉ x) :
    x.dropWhile (fun c => c == q) = x := by
  cases x with
  | nil => rfl
  | cons c cs =>
    have hc : (c == q) = false := by
      simp only [List.mem_cons, not_or] at hx
      exact beq_eq_false_iff_ne.mpr (fun h => hx.1 h.symm)
    simp [List.dropWhile, hc]

/-- Go `strings.Trim` removes exactly the two delimiting quotes of a token
whose content holds no quote. -/
theorem trimQuotes_token (x : List Char) (hx : Char.ofNat 39 ∉ x) :
    trimQuotes (String.mk (Char.ofNat 39 :: x ++ [Char.ofNat 39])) = String.mk x := by
  have hrev : Char.ofNat 39 ∉ x.reverse := by simpa using hx
  cases x with
  | nil => simp [trimQuotes, List.dropWhile]
  | cons c cs =>
    have hc : (c == Char.ofNat 39) = false := by
      simp only [List.mem_cons, not_or] at hx
      exact beq_eq_false_iff_ne.mpr (fun h => hx.1 h.symm)
    have h1 : (Char.ofNat 39 :: (c :: cs) ++ [Char.ofNat 39]).dropWhile
        (fun c => c == Char.ofNat 39) = (c :: cs) ++ [Char.ofNat 39] := by
      simp [List.dropWhile, hc]
    have h2 : ((c :: cs) ++ [Char.ofNat 39]).reverse.dropWhile
        (fun c => c == Char.ofNat 39) = (c :: cs).reverse := by
      rw [List.reverse_append]
      simp only [List.reverse_cons, List.reverse_nil, List.nil_append, List.singleton_append,
        List.dropWhile_cons, beq_self_eq_true, if_true]
      simpa using dropWhile_of_not_mem (Char.ofNat 39) (c :: cs).reverse hrev
    simp only [trimQuotes]
    rw [h1, h2, List.reverse_reverse]

/-- C19: literal evaluation. For every input collection, a boolean literal
evaluates to the single-element collection holding that boolean, a number
literal to the single-element collection holding its numeric value, and a
string literal whose token is `x` between two quotes, `x` holding no quote,
to the single-element collection holding exactly `x`; the result of a literal
does not depend on the input collection. -/
theorem C19_literal_eval (coll : List Value) :
    (∀ (b : Bool) (str : Option String) (number : Option Float64),
      Literal.Eval { Boolean := some b, Str := str, Number := number } coll =
        Except.ok ([Value.bool b], none)) ∧
    (∀ n : Float64,
      Literal.Eval { Boolean := none, Str := none, Number := some n } coll =
        Except.ok ([Value.float n], none)) ∧
    (∀ (x : List Char) (number : Option Float64), Char.ofNat 39 ∉ x →
      Literal.Eval
        { Boolean := none, Str := some (String.mk (Char.ofNat 39 :: x ++ [Char.ofNat 39])),
          Number := number } coll =
        Except.ok ([Value.str (String.mk x)], none)) ∧
    (∀ (l : Literal) (other : List Value), Literal.Eval l coll = Literal.Eval l other) := by
  refine ⟨?_, ?_, ?_, ?_⟩
  · intro b str number
    rfl
  · intro n
    rfl
  · intro x number hx
    simp only [Literal.Eval, trimQuotes_token x hx]
    rfl
  · intro l other
    rfl

/-- Witness of C19: the token `'a'` evaluates to the string `a`, the literal
`3` to the number 3 and the literal `true` to the boolean. -/
theorem C19_literal_eval_witness :
    Literal.Eval { Boolean := none, Str := some "'a'", Number := none } [] =
        Except.ok ([Value.str "a"], none) ∧
      Literal.Eval { Boolean := none, Str := none, Number := some (Float64.finite 3) } [] =
        Except.ok ([Value.float (Float64.finite 3)], none) ∧
      Literal.Eval { Boolean := some true, Str := none, Number := none } [] =
        Except.ok ([Value.bool true], none) :=
  ⟨(C19_literal_eval []).2.2.1 ['a'] none (by decide),
    (C19_literal_eval []).2.1 (Float64.finite 3),
    (C19_literal_eval []).1 true none none⟩

/-! ## Rendering -/

/-- C20, the code at the failing inputs: the tree of `a[0]` is rendered with a
dot before the bracket, as `a.[0]` (whatever text `fmt` gives the number);
the tree of `a + b + c` with a dot between the operands of the right list, as
`a + b. + c`; and the keyword `is` captured as identifier is rendered `as`.
The grammar tag of `InvocationExpression` admits only an invocation after a
dot, where the first two renderings carry a bracket and an operator. -/
theorem C20_rendering_not_reparsable (fmt : Fmt) :
    Expression.String_ fmt indexerTree = "a.[" ++ fmt.number (Float64.finite 0) ++ "]" ∧
      Expression.String_ fmt sumTree = "a + b. + c" ∧
      Expression.String_ fmt isKeywordTree = "as" := by
  refine ⟨?_, ?_, ?_⟩
  · have h : Expression.String_ fmt indexerTree =
        "a" ++ ".[" ++ fmt.number (Float64.finite 0) ++ "]" ++ "" ++ "" := rfl
    rw [h, String.append_empty, String.append_empty]
    rfl
  · rfl
  · rfl

/-! ## Loading -/

/-- C26: loading a test script. For every document that `json.Unmarshal`
decodes, with resource type `t` (the empty string when the field is missing),
`TestScript.UnmarshalJSON` succeeds iff `t` is exactly "TestScript"; when `t`
differs it fails with exactly `InvalidResourceTypeError` of expected
"TestScript" and actual `t` and leaves the target unchanged; on success the
name, title, variables, fixtures, setup and tests of the document are copied
unchanged. -/
theorem C26_unmarshal_resource_type (unmarshal : String → Except GoError fhir.jsonTestScript)
    (s : fhir.TestScript) (b : String) (j : fhir.jsonTestScript)
    (hj : unmarshal b = Except.ok j) :
    ((fhir.TestScript.UnmarshalJSON unmarshal s b).2 = none ↔
      j.ResourceType = "TestScript") ∧
    (j.ResourceType ≠ "TestScript" →
      fhir.TestScript.UnmarshalJSON unmarshal s b =
        (s, some (fhir.UnmarshalError.invalidResourceType
          { Expected := "TestScript", Actual := j.ResourceType }))) ∧
    (j.ResourceType = "TestScript" →
      fhir.TestScript.UnmarshalJSON unmarshal s b =
        ({ Name := j.Name, Title := j.Title, Variable := j.Variable, Fixture := j.Fixture,
           Setup := j.Setup, Test := j.Test }, none)) := by
  by_cases h : j.ResourceType = "TestScript"
  · simp [fhir.TestScript.UnmarshalJSON, hj, h]
  · simp [fhir.TestScript.UnmarshalJSON, hj, h]

/-- Witness of C26: a document of resource type `Patient` is refused with
`InvalidResourceTypeError` of `TestScript` and `Patient` and the target is
untouched; a document of resource type `TestScript` is loaded with its name. -/
theorem C26_unmarshal_resource_type_witness :
    fhir.TestScript.UnmarshalJSON (fun _ => Except.ok (sampleDocument "Patient"))
        zeroTestScript "" =
        (zeroTestScript, some (fhir.UnmarshalError.invalidResourceType
          { Expected := "TestScript", Actual := "Patient" })) ∧
      fhir.TestScript.UnmarshalJSON (fun _ => Except.ok (sampleDocument "TestScript"))
        zeroTestScript "" =
        ({ Name := "name-140946", Title := "", Variable := [], Fixture := [], Setup := none,
           Test := [] }, none) :=
  ⟨(C26_unmarshal_resource_type (fun _ => Except.ok (sampleDocument "Patient"))
      zeroTestScript "" (sampleDocument "Patient") rfl).2.1 (by decide),
    (C26_unmarshal_resource_type (fun _ => Except.ok (sampleDocument "TestScript"))
      zeroTestScript "" (sampleDocument "TestScript") rfl).2.2 rfl⟩

/-- The ten wire strings other than `contains` are read and rendered back
unchanged. -/
theorem assertionOperator_round_trip_others (op : testscript.AssertionOperator) :
    ∀ w ∈ ["equals", "notEquals", "in", "notIn", "greaterThan", "lessThan", "empty",
        "notEmpty", "notContains", "eval"],
      (testscript.AssertionOperator.UnmarshalJSON op (quoted w)).2 = none ∧
        (testscript.AssertionOperator.UnmarshalJSON op (quoted w)).1.String_ = w := by
  intro w hw
  simp only [List.mem_cons, List.mem_singleton, List.not_mem_nil, or_false] at hw
  rcases hw with rfl | rfl | rfl | rfl | rfl | rfl | rfl | rfl | rfl | rfl <;>
    exact ⟨rfl, rfl⟩

/-- C27, the code at the failing input: the wire string `contains` is read as
the operator `Contains`, and `String()` of `Contains` is `vontains`, not
`contains`. -/
theorem C27_contains_rendered_vontains :
    testscript.AssertionOperator.UnmarshalJSON testscript.AssertionOperator.Equals
        (quoted "contains") = (testscript.AssertionOperator.Contains, none) ∧
      testscript.AssertionOperator.Contains.String_ = "vontains" ∧
      testscript.AssertionOperator.Contains.String_ ≠ "contains" :=
  ⟨by rfl, by rfl, by decide⟩

/-- C28: assertion response vocabulary. `AssertionResponse.UnmarshalJSON`
followed by `Code()` maps `okay` to 200, `created` to 201, `noContent` to 204,
`notModified` to 304, `bad` to 400, `forbidden` to 403, `notFound` to 404,
`methodNotAllowed` to 405, `conflict` to 409, `gone` to 410,
`preconditionFailed` to 412 and `unprocessable` to 422, and for every text
whose string is outside these twelve it fails and leaves the target
unchanged. -/
theorem C28_assertion_response_vocabulary (t : AssertionResponse) :
    (∀ p ∈ [("okay", (200 : Int)), ("created", 201), ("noContent", 204),
        ("notModified", 304), ("bad", 400), ("forbidden", 403), ("notFound", 404),
        ("methodNotAllowed", 405), ("conflict", 409), ("gone", 410),
        ("preconditionFailed", 412), ("unprocessable", 422)],
      (testscript.AssertionResponse.UnmarshalJSON t (quoted p.1)).2 = none ∧
        testscript.AssertionResponse.Code
          (testscript.AssertionResponse.UnmarshalJSON t (quoted p.1)).1 = p.2) ∧
    (∀ json : String,
      trimChar (Char.ofNat 34) json ∉ ["okay", "created", "noContent", "notModified", "bad",
        "forbidden", "notFound", "methodNotAllowed", "conflict", "gone",
        "preconditionFailed", "unprocessable"] →
      testscript.AssertionResponse.UnmarshalJSON t json =
        (t, some (GoError.errorf "unknown assertion response type: %s"
          [FmtArg.str (trimChar (Char.ofNat 34) json)]))) := by
  constructor
  · intro p hp
    simp only [List.mem_cons, List.mem_singleton, List.not_mem_nil, or_false] at hp
    rcases hp with rfl | rfl | rfl | rfl | rfl | rfl | rfl | rfl | rfl | rfl | rfl | rfl <;>
      exact ⟨rfl, rfl⟩
  · intro json h
    simp only [List.mem_cons, List.mem_singleton, List.not_mem_nil, or_false, not_or] at h
    obtain ⟨h1, h2, h3, h4, h5, h6, h7, h8, h9, h10, h11, h12⟩ := h
    simp only [testscript.AssertionResponse.UnmarshalJSON, h1, h2, h3, h4, h5, h6, h7, h8, h9,
      h10, h11, h12, if_false]

/-- Witness of C28: `notFound` is read as 404, and `teapot` is refused, the
target keeping its value. -/
theorem C28_assertion_response_vocabulary_witness :
    ((testscript.AssertionResponse.UnmarshalJSON 0 (quoted "notFound")).2 = none ∧
        testscript.AssertionResponse.Code
          (testscript.AssertionResponse.UnmarshalJSON 0 (quoted "notFound")).1 = 404) ∧
      testscript.AssertionResponse.UnmarshalJSON 200 (quoted "teapot") =
        (200, some (GoError.errorf "unknown assertion response type: %s"
          [FmtArg.str (trimChar (Char.ofNat 34) (quoted "teapot"))])) :=
  ⟨(C28_assertion_response_vocabulary 0).1 ("notFound", 404) (by simp),
    (C28_assertion_response_vocabulary 200).2 (quoted "teapot") (by decide)⟩

/-! ## Checks of an assert -/

/-- The result of the resource-type check, when it has one, is the result of
the assert. -/
theorem executeAssert_of_assertResource (lib : Lib) (heap : Heap) (ctx : context)
    (assert : testscript.Assert) (r : ActionResult)
    (h : assertResource ctx assert = Except.ok (some r)) :
    executeAssert lib heap ctx assert = Except.ok r := by
  simp only [executeAssert, h]
  rfl

/-- The result of the response-status check, when the resource-type check
has none and it has one, is the result of the assert. -/
theorem executeAssert_of_assertResponse (lib : Lib) (heap : Heap) (ctx : context)
    (assert : testscript.Assert) (r : ActionResult)
    (h1 : assertResource ctx assert = Except.ok none)
    (h2 : assertResponse ctx assert = Except.ok (some r)) :
    executeAssert lib heap ctx assert = Except.ok r := by
  simp only [executeAssert, h1, h2]
  rfl

/-- C30: response-status check with an unsupported operator.
`AssertionOperator.IntComp` returns an error exactly for the operators other
than `equals`, `notEquals`, `greaterThan` and `lessThan`; and for every
Assert declaring an expected response with such an operator, executed with a
last result and no result of the resource-kind check before it, the action
result is the Error "Error while comparing", whatever the actual status code
is. -/
theorem C30_unsupported_operator_is_error :
    (∀ (op : testscript.AssertionOperator) (i1 i2 : Int),
      (op.IntComp i1 i2).2 ≠ none ↔
        op ∉ [testscript.AssertionOperator.Equals, testscript.AssertionOperator.NotEquals,
          testscript.AssertionOperator.GreaterThan, testscript.AssertionOperator.LessThan]) ∧
    (∀ (lib : Lib) (heap : Heap) (ctx : context) (assert : testscript.Assert)
        (expected : AssertionResponse) (lastResult : operationResult),
      assert.Response = some expected →
      assert.Operator ∉ [testscript.AssertionOperator.Equals,
        testscript.AssertionOperator.NotEquals, testscript.AssertionOperator.GreaterThan,
        testscript.AssertionOperator.LessThan] →
      ctx.lastResult = some lastResult →
      assertResource ctx assert = Except.ok none →
      executeAssert lib heap ctx assert =
        Except.ok (errorf "Error while comparing: %s"
          [FmtArg.error (GoError.errorf "unsupported assertion operator `%s`"
            [FmtArg.str assert.Operator.String_])]) ∧
      (errorf "Error while comparing: %s"
          [FmtArg.error (GoError.errorf "unsupported assertion operator `%s`"
            [FmtArg.str assert.Operator.String_])]).Result = ActionResultCode.Error) := by
  constructor
  · intro op i1 i2
    cases op <;> simp [testscript.AssertionOperator.IntComp]
  · intro lib heap ctx assert expected lastResult hresp hop hlast hres
    refine ⟨?_, rfl⟩
    apply executeAssert_of_assertResponse lib heap ctx assert _ hres
    simp only [assertResponse, hresp, hlast]
    cases hopeq : assert.Operator <;> simp [hopeq] at hop <;>
      simp [testscript.AssertionOperator.IntComp, pure, Except.pure]

/-- Witness of C30: an assert expecting the status `okay` under the operator
`in`, executed after a history request answered with status 200, is an
Error. -/
theorem C30_unsupported_operator_is_error_witness :
    executeAssert sampleLib { fixtures := [], sent := [] } contextAfterHistory
        (statusAssert testscript.AssertionOperator.In) =
      Except.ok (errorf "Error while comparing: %s"
        [FmtArg.error (GoError.errorf "unsupported assertion operator `%s`"
          [FmtArg.str "in"])]) :=
  (C30_unsupported_operator_is_error.2 sampleLib { fixtures := [], sent := [] }
    contextAfterHistory (statusAssert testscript.AssertionOperator.In) testscript.Okay
    sampleLastResult rfl (by decide) rfl (by rfl)).1

/-- C29 as stated fails: an assert expecting the resource type `Patient`
under the operator `notEquals`, executed when the last decoded body is a
Bundle, passes although the body's resource type is not the expected one. -/
theorem C29_counterexample :
    sampleLastResult.resource = some [("resourceType", Value.str "Bundle")] ∧
      (notEqualsAssert "Patient").Resource = "Patient" ∧
      executeAssert sampleLib { fixtures := [], sent := [] } contextAfterHistory
        (notEqualsAssert "Patient") = Except.ok (pass "") :=
  ⟨rfl, rfl, by rfl⟩

/-- C29 amended: the resource-kind check compares under the assert's
operator. For every Assert that declares an expected resource kind, executed
with a last result: if the last result has no decoded body, or the body has no
string `resourceType` member, the action result is Fail; if the body's kind is
`actual`, the result is Fail under `equals` when `actual` differs from the
expected kind and under `notEquals` when it equals it, and Error under every
other operator; and the action can pass only if the body has a kind that
equals the expected one under `equals` or differs from it under `notEquals`. -/
theorem C29_resource_kind_check (lib : Lib) (heap : Heap) (ctx : context)
    (assert : testscript.Assert) (lastResult : operationResult)
    (hdecl : assert.Resource ≠ "") (hlast : ctx.lastResult = some lastResult) :
    (lastResult.resource = none →
      executeAssert lib heap ctx assert =
        Except.ok (failf
          "Expect response resource type of `%s` but no response resource was available."
          [FmtArg.str assert.Resource])) ∧
    (∀ body, lastResult.resource = some body → resourceTypeOf body = none →
      executeAssert lib heap ctx assert =
        Except.ok (failf
          "Expect response resource type of `%s` but the response isn't a resource."
          [FmtArg.str assert.Resource])) ∧
    (∀ body actual, lastResult.resource = some body → resourceTypeOf body = some actual →
      ((assert.Operator = testscript.AssertionOperator.Equals ∧ actual ≠ assert.Resource) ∨
        (assert.Operator = testscript.AssertionOperator.NotEquals ∧
          actual = assert.Resource)) →
      executeAssert lib heap ctx assert =
        Except.ok (failf "Expect response resource type of `%s` but was `%s`."
          [FmtArg.str assert.Resource, FmtArg.str actual])) ∧
    (∀ body actual, lastResult.resource = some body → resourceTypeOf body = some actual →
      assert.Operator ≠ testscript.AssertionOperator.Equals →
      assert.Operator ≠ testscript.AssertionOperator.NotEquals →
      executeAssert lib heap ctx assert =
        Except.ok (errorf "Error while comparing: %s"
          [FmtArg.error (GoError.errorf "unsupported assertion operator `%s`"
            [FmtArg.str assert.Operator.String_])])) ∧
    (∀ r, executeAssert lib heap ctx assert = Except.ok r →
      r.Result = ActionResultCode.Pass →
      ∃ body actual, lastResult.resource = some body ∧ resourceTypeOf body = some actual ∧
        ((assert.Operator = testscript.AssertionOperator.Equals ∧ actual = assert.Resource) ∨
          (assert.Operator = testscript.AssertionOperator.NotEquals ∧
            actual ≠ assert.Resource))) := by
  have hnone : lastResult.resource = none →
      executeAssert lib heap ctx assert =
        Except.ok (failf
          "Expect response resource type of `%s` but no response resource was available."
          [FmtArg.str assert.Resource]) := by
    intro hbody
    apply executeAssert_of_assertResource
    simp [assertResource, hdecl, hlast, hbody, pure, Except.pure]
  have hnokind : ∀ body, lastResult.resource = some body → resourceTypeOf body = none →
      executeAssert lib heap ctx assert =
        Except.ok (failf
          "Expect response resource type of `%s` but the response isn't a resource."
          [FmtArg.str assert.Resource]) := by
    intro body hbody hkind
    apply executeAssert_of_assertResource
    simp [assertResource, hdecl, hlast, hbody, hkind, pure, Except.pure]
  have hfail : ∀ body actual, lastResult.resource = some body →
      resourceTypeOf body = some actual →
      ((assert.Operator = testscript.AssertionOperator.Equals ∧ actual ≠ assert.Resource) ∨
        (assert.Operator = testscript.AssertionOperator.NotEquals ∧
          actual = assert.Resource)) →
      executeAssert lib heap ctx assert =
        Except.ok (failf "Expect response resource type of `%s` but was `%s`."
          [FmtArg.str assert.Resource, FmtArg.str actual]) := by
    intro body actual hbody hkind hcmp
    apply executeAssert_of_assertResource
    rcases hcmp with ⟨hop, hne⟩ | ⟨hop, heq⟩
    · simp [assertResource, hdecl, hlast, hbody, hkind, hop,
        testscript.AssertionOperator.Comp, hne, pure, Except.pure]
    · simp [assertResource, hdecl, hlast, hbody, hkind, hop,
        testscript.AssertionOperator.Comp, heq, pure, Except.pure]
  have herror : ∀ body actual, lastResult.resource = some body →
      resourceTypeOf body = some actual →
      assert.Operator ≠ testscript.AssertionOperator.Equals →
      assert.Operator ≠ testscript.AssertionOperator.NotEquals →
      executeAssert lib heap ctx assert =
        Except.ok (errorf "Error while comparing: %s"
          [FmtArg.error (GoError.errorf "unsupported assertion operator `%s`"
            [FmtArg.str assert.Operator.String_])]) := by
    intro body actual hbody hkind h1 h2
    apply executeAssert_of_assertResource
    cases hop : assert.Operator <;> simp [hop] at h1 h2 <;>
      simp [assertResource, hdecl, hlast, hbody, hkind, hop,
        testscript.AssertionOperator.Comp, pure, Except.pure]
  refine ⟨hnone, hnokind, hfail, herror, ?_⟩
  intro r hr hpass
  cases hbody : lastResult.resource with
  | none =>
    rw [hnone hbody] at hr
    simp only [Except.ok.injEq] at hr
    subst hr
    simp [failf, actionResult] at hpass
  | some body =>
    cases hkind : resourceTypeOf body with
    | none =>
      rw [hnokind body hbody hkind] at hr
      simp only [Except.ok.injEq] at hr
      subst hr
      simp [failf, actionResult] at hpass
    | some actual =>
      refine ⟨body, actual, rfl, hkind, ?_⟩
      by_cases h1 : assert.Operator = testscript.AssertionOperator.Equals
      · by_cases heq : actual = assert.Resource
        · exact Or.inl ⟨h1, heq⟩
        · rw [hfail body actual hbody hkind (Or.inl ⟨h1, heq⟩)] at hr
          simp only [Except.ok.injEq] at hr
          subst hr
          simp [failf, actionResult] at hpass
      · by_cases h2 : assert.Operator = testscript.AssertionOperator.NotEquals
        · by_cases heq : actual = assert.Resource
          · rw [hfail body actual hbody hkind (Or.inr ⟨h2, heq⟩)] at hr
            simp only [Except.ok.injEq] at hr
            subst hr
            simp [failf, actionResult] at hpass
          · exact Or.inr ⟨h2, heq⟩
        · rw [herror body actual hbody hkind h1 h2] at hr
          simp only [Except.ok.injEq] at hr
          subst hr
          simp [errorf, actionResult] at hpass

/-- Witness of C29 amended: an assert expecting a Patient under the default
operator `equals`, executed when the last decoded body is a Bundle, is a
Fail. -/
theorem C29_resource_kind_check_witness :
    executeAssert sampleLib { fixtures := [], sent := [] } contextAfterHistory
        (sampleAssert "Patient") =
      Except.ok (failf "Expect response resource type of `%s` but was `%s`."
        [FmtArg.str "Patient", FmtArg.str "Bundle"]) :=
  (C29_resource_kind_check sampleLib { fixtures := [], sent := [] } contextAfterHistory
    (sampleAssert "Patient") sampleLastResult (by decide) rfl).2.2.1
    [("resourceType", Value.str "Bundle")] "Bundle" rfl rfl (Or.inl ⟨rfl, by decide⟩)

/-! ## Placeholders -/

/-- The segments of a scan, put back together, are the text scanned: the
scanner splits a string and loses nothing. -/
theorem segments_source (l : List Char) (st : ScanState) :
    ((segments l st).map Segment.source).flatten = st.pending ++ l := by
  have hchars : ∀ cs : List Char, ((cs.map Segment.char).map Segment.source).flatten = cs := by
    intro cs
    induction cs with
    | nil => rfl
    | cons c cs ih => simpa [Segment.source] using ih
  induction l generalizing st with
  | nil =>
    cases st with
    | outside => rfl
    | dollar => rfl
    | name acc =>
      simp only [segments, ScanState.pending, List.append_nil]
      exact hchars _
  | cons c rest ih =>
    cases st with
    | outside =>
      by_cases h : c = Char.ofNat 36
      · simp [segments, h, ih, ScanState.pending]
      · simp [segments, h, ih, ScanState.pending, Segment.source]
    | dollar =>
      by_cases h : c = Char.ofNat 123
      · simp [segments, h, ih, ScanState.pending]
      · by_cases h2 : c = Char.ofNat 36
        · simp [segments, h, h2, ih, ScanState.pending, Segment.source]
        · simp [segments, h, h2, ih, ScanState.pending, Segment.source]
    | name acc =>
      by_cases h : c = Char.ofNat 125
      · cases acc with
        | nil => simp [segments, h, ih, ScanState.pending, Segment.source]
        | cons a acc => simp [segments, h, ih, ScanState.pending, Segment.source]
      · simp [segments, h, ih, ScanState.pending]

theorem findAllVarNames_eq (s : String) :
    FindAllVarNames s = segmentNames (segments s.data ScanState.outside) := rfl

/-- Inside a placeholder the scanner reads up to the first closing brace. -/
theorem segments_name (n : List Char) (acc rest : List Char)
    (hbr : Char.ofNat 125 ∉ n) (hne : acc ≠ [] ∨ n ≠ []) :
    segments (n ++ Char.ofNat 125 :: rest) (ScanState.name acc) =
      Segment.var (acc.reverse ++ n) :: segments rest ScanState.outside := by
  induction n generalizing acc with
  | nil =>
    cases acc with
    | nil => simp at hne
    | cons a acc => simp [segments]
  | cons c n ih =>
    have hc : c ≠ Char.ofNat 125 := fun h => hbr (by simp [h])
    have hn : Char.ofNat 125 ∉ n := fun h => hbr (by simp [h])
    simp only [List.cons_append, segments, hc, if_false, List.append_eq]
    rw [ih (c :: acc) hn (Or.inl (by simp))]
    simp

/-- One placeholder at the head of a text is one segment. -/
theorem segments_placeholder (n rest : List Char)
    (hbr : Char.ofNat 125 ∉ n) (hne : n ≠ []) :
    segments (Char.ofNat 36 :: Char.ofNat 123 :: (n ++ Char.ofNat 125 :: rest))
        ScanState.outside =
      Segment.var n :: segments rest ScanState.outside := by
  have h := segments_name n [] rest hbr (Or.inr hne)
  simp only [segments, if_true]
  simpa using h

theorem placeholders_cons_data (n : String) (rest : List String) :
    (placeholders (n :: rest)).data =
      Char.ofNat 36 :: Char.ofNat 123 :: (n.data ++ Char.ofNat 125 :: (placeholders rest).data) := by
  have h36 : ("$\x7b" : String).data = [Char.ofNat 36, Char.ofNat 123] := by decide
  have h125 : ("\x7d" : String).data = [Char.ofNat 125] := by decide
  simp [placeholders, String.data_append, h36, h125]

/-- A text without dollar-brace holds no placeholder. -/
theorem segmentNames_of_no_opening (l : List Char)
    (h : ¬ [Char.ofNat 36, Char.ofNat 123] <:+: l) :
    segmentNames (segments l ScanState.outside) = [] ∧
      (l.head? ≠ some (Char.ofNat 123) → segmentNames (segments l ScanState.dollar) = []) := by
  induction l with
  | nil => simp [segments, segmentNames]
  | cons c rest ih =>
    have hrest : ¬ [Char.ofNat 36, Char.ofNat 123] <:+: rest :=
      fun hin => h (List.IsInfix.trans hin (List.suffix_cons c rest).isInfix)
    have hhead : c = Char.ofNat 36 → rest.head? ≠ some (Char.ofNat 123) := by
      intro hc hr
      cases rest with
      | nil => simp at hr
      | cons d rest2 =>
        simp at hr
        apply h
        rw [hc, hr]
        exact (List.prefix_iff_eq_append.mpr rfl : [Char.ofNat 36, Char.ofNat 123] <+:
          Char.ofNat 36 :: Char.ofNat 123 :: rest2).isInfix
    obtain ⟨ih1, ih2⟩ := ih hrest
    constructor
    · by_cases hc : c = Char.ofNat 36
      · simp only [segments, hc, if_true]
        exact ih2 (hhead hc)
      · simp only [segments, hc, if_false]
        simpa [segmentNames] using ih1
    · intro hne
      have hc : c ≠ Char.ofNat 123 := by simpa using hne
      by_cases hd : c = Char.ofNat 36
      · simp only [segments, hc, hd, if_false, if_true]
        have := ih2 (hhead hd)
        simpa [segmentNames] using this
      · simp only [segments, hc, hd, if_false]
        simpa [segmentNames] using ih1

/-- Claim C25. FindAllVarNames gives the names of the placeholders in order of
occurrence, duplicates included: on the text made of one placeholder for each
of the names n1..nk, each non-empty and without closing brace, it returns
[n1, ..., nk]; on a text in which no dollar sign is followed by an opening
brace it returns the empty list. -/
theorem C25_find_all_var_names (names : List String) (s : String)
    (hnames : ∀ n ∈ names, n ≠ "" ∧ Char.ofNat 125 ∉ n.data)
    (hs : ¬ [Char.ofNat 36, Char.ofNat 123] <:+: s.data) :
    FindAllVarNames (placeholders names) = names ∧ FindAllVarNames s = [] := by
  constructor
  · induction names with
    | nil => rfl
    | cons n rest ih =>
      have hn := hnames n (by simp)
      have hne : n.data ≠ [] := by
        intro h0
        apply hn.1
        exact String.ext h0
      rw [findAllVarNames_eq, placeholders_cons_data,
        segments_placeholder n.data _ hn.2 hne]
      have ih2 := ih (fun m hm => hnames m (by simp [hm]))
      rw [findAllVarNames_eq] at ih2
      simp [segmentNames] at ih2 ⊢
      exact ih2
  · rw [findAllVarNames_eq]
    exact (segmentNames_of_no_opening s.data hs).1

/-- Witness for C25, on the texts of the repository's test: two placeholders
`a` and `b`, and a text `a$b` without placeholder. -/
theorem C25_find_all_var_names_witness :
    FindAllVarNames "$\x7ba\x7d$\x7bb\x7d" = ["a", "b"] ∧ FindAllVarNames "a$b" = [] :=
  C25_find_all_var_names ["a", "b"] "a$b" (by decide) (by decide)

/-! ## Substitution -/

theorem lookup_mapSet_self {α : Type} (m : List (String × α)) (k : String) (v : α) :
    (mapSet m k v).lookup k = some v := by
  simp [mapSet, List.lookup]

theorem lookup_mapSet_ne {α : Type} (m : List (String × α)) (k j : String) (v : α)
    (h : j ≠ k) : (mapSet m k v).lookup j = m.lookup j := by
  have hjk : (j == k) = false := beq_eq_false_iff_ne.mpr h
  simp only [mapSet, List.lookup, hjk]
  induction m with
  | nil => rfl
  | cons p m ih =>
    obtain ⟨a, b⟩ := p
    rw [List.filter_cons]
    by_cases ha : a = k
    · subst ha
      simp [List.lookup, hjk, ih]
    · by_cases hja : j = a
      · subst hja
        simp [List.lookup, ha]
      · have hja2 : (j == a) = false := beq_eq_false_iff_ne.mpr hja
        simp [List.lookup, ha, hja2, ih]

/-- The key under which a name is stored determines the name. -/
theorem placeholderKey_injective (n m : String)
    (h : "$\x7b" ++ n ++ "\x7d" = "$\x7b" ++ m ++ "\x7d") : n = m := by
  have h2 := congrArg String.data h
  simp only [String.data_append] at h2
  have h3 := List.append_cancel_right h2
  exact String.ext (List.append_cancel_left h3)

/-- The key the replacement function receives for a placeholder is the key
under which the loop stored its name. -/
theorem placeholderKey_eq (name : List Char) :
    String.mk (Char.ofNat 36 :: Char.ofNat 123 :: name ++ [Char.ofNat 125]) =
      "$\x7b" ++ String.mk name ++ "\x7d" := by
  apply String.ext
  have h36 : ("$\x7b" : String).data = [Char.ofNat 36, Char.ofNat 123] := by decide
  have h125 : ("\x7d" : String).data = [Char.ofNat 125] := by decide
  simp [String.data_append, h36, h125]

/-- The map the loop builds when every name resolves: one write per name. -/
theorem replacementsLoop_resolves (lib : Lib) (heap : Heap) (ctx : context)
    (val : String → Value) (names : List String) (replacements : List (String × String))
    (h : ∀ name ∈ names, ∃ v resource, ctx.vars.lookup name = some v ∧ v.sourceId ≠ "" ∧
      heap.resource v.sourceId = some resource ∧
      v.expression.Eval lib.IsUpper [Value.obj resource] = Except.ok ([val name], none)) :
    replacementsLoop lib heap ctx names replacements =
      Except.ok (Except.ok (names.foldl
        (fun m n => mapSet m ("$\x7b" ++ n ++ "\x7d") (lib.Sprint (val n))) replacements)) := by
  induction names generalizing replacements with
  | nil => rfl
  | cons name rest ih =>
    obtain ⟨v, resource, hv, hsrc, hres, heval⟩ := h name (by simp)
    simp only [replacementsLoop, hv, hsrc, hres, heval, ne_eq, not_false_eq_true, if_true,
      List.foldl]
    exact ih _ (fun n hn => h n (by simp [hn]))

/-- Reading the map built by one write per name: every name written, and
every name already held with its rendering, reads its rendering. -/
theorem lookup_foldl_mapSet (render : String → String) (names : List String)
    (m : List (String × String)) (n : String)
    (h : n ∈ names ∨ m.lookup ("$\x7b" ++ n ++ "\x7d") = some (render n)) :
    (names.foldl (fun m n => mapSet m ("$\x7b" ++ n ++ "\x7d") (render n)) m).lookup
      ("$\x7b" ++ n ++ "\x7d") = some (render n) := by
  induction names generalizing m with
  | nil =>
    cases h with
    | inl h => simp at h
    | inr h => exact h
  | cons a rest ih =>
    simp only [List.foldl]
    apply ih
    by_cases hna : n = a
    · subst hna
      exact Or.inr (lookup_mapSet_self _ _ _)
    · cases h with
      | inl h =>
        left
        simpa [hna] using h
      | inr h =>
        right
        rw [lookup_mapSet_ne _ _ _ _ (fun hk => hna (placeholderKey_injective _ _ hk))]
        exact h

theorem mem_segmentNames (segs : List Segment) (name : List Char)
    (h : Segment.var name ∈ segs) : String.mk name ∈ segmentNames segs := by
  simp only [segmentNames, List.mem_filterMap]
  exact ⟨Segment.var name, h, rfl⟩

/-- Claim C23. Successful substitution: when every placeholder name occurring
in s names a variable with a sourceId whose fixture holds a body and whose
expression evaluates against that body to exactly one value, val name,
replaceVariables returns, without error, s with every placeholder replaced by
the text rendering of its variable's value and every other character
unchanged. -/
theorem C23_successful_substitution (lib : Lib) (heap : Heap) (ctx : context) (s : String)
    (val : String → Value)
    (h : ∀ name ∈ FindAllVarNames s, ∃ v resource, ctx.vars.lookup name = some v ∧
      v.sourceId ≠ "" ∧ heap.resource v.sourceId = some resource ∧
      v.expression.Eval lib.IsUpper [Value.obj resource] = Except.ok ([val name], none)) :
    replaceVariables lib heap ctx s =
      Except.ok (substitute (fun name => lib.Sprint (val name)) s, none) := by
  simp only [replaceVariables, replacementsLoop_resolves lib heap ctx val _ [] h, pure,
    Except.pure]
  congr 2
  simp only [ReplaceAllStringFunc, substitute]
  congr 2
  apply List.map_congr_left
  intro seg hseg
  cases seg with
  | char c => rfl
  | var name =>
    have hmem : String.mk name ∈ FindAllVarNames s := by
      rw [findAllVarNames_eq]
      exact mem_segmentNames _ _ hseg
    have hl := lookup_foldl_mapSet (fun n => lib.Sprint (val n)) (FindAllVarNames s) []
      (String.mk name) (Or.inl hmem)
    simp only [placeholderKey_eq, hl]

/-- Witness for C23, the repository's test: with V = (expression a, source F)
and F = \x7ba: b\x7d, the text of the one placeholder V becomes b. -/
theorem C23_successful_substitution_witness :
    replaceVariables printingLib heapWithF contextWithV "$\x7bV\x7d" = Except.ok ("b", none) :=
  (C23_successful_substitution printingLib heapWithF contextWithV "$\x7bV\x7d"
    (fun _ => Value.str "b")
    (by
      intro name hname
      have hV : name = "V" := by
        have hall : FindAllVarNames "$\x7bV\x7d" = ["V"] := by decide
        rw [hall] at hname
        simpa using hname
      subst hV
      exact ⟨{ expression := expressionA, sourceId := "F" }, [("a", Value.str "b")],
        rfl, by decide, rfl, by rfl⟩)).trans (by rfl)

/-- The loop over the names, at a name with an error: it returns that error,
whatever the names after it and the map built so far. -/
theorem replacementsLoop_head_error (lib : Lib) (heap : Heap) (ctx : context)
    (name : String) (post : List String) (replacements : List (String × String))
    (err : GoError) (hbad : placeholderError lib heap ctx name = some err) :
    replacementsLoop lib heap ctx (name :: post) replacements =
      Except.ok (Except.error err) := by
  cases hv : ctx.vars.lookup name with
  | none =>
    simp only [placeholderError, hv, Option.some.injEq] at hbad
    subst hbad
    simp [replacementsLoop, hv, pure, Except.pure]
  | some v =>
    by_cases hsrc : v.sourceId = ""
    · simp only [placeholderError, hv, hsrc, if_true, Option.some.injEq] at hbad
      subst hbad
      simp [replacementsLoop, hv, hsrc, pure, Except.pure]
    · cases hres : heap.resource v.sourceId with
      | none =>
        simp only [placeholderError, hv, hsrc, hres, if_false, Option.some.injEq] at hbad
        subst hbad
        simp [replacementsLoop, hv, hsrc, hres, pure, Except.pure]
      | some resource =>
        cases heval : v.expression.Eval lib.IsUpper [Value.obj resource] with
        | error p => simp [placeholderError, hv, hsrc, hres, heval] at hbad
        | ok pair =>
          obtain ⟨result, e⟩ := pair
          cases e with
          | some e =>
            simp only [placeholderError, hv, hsrc, hres, heval, if_false,
              Option.some.injEq] at hbad
            subst hbad
            simp [replacementsLoop, hv, hsrc, hres, heval, pure, Except.pure]
          | none =>
            cases result with
            | nil =>
              simp only [placeholderError, hv, hsrc, hres, heval, if_false,
                Option.some.injEq] at hbad
              subst hbad
              simp [replacementsLoop, hv, hsrc, hres, heval, pure, Except.pure]
            | cons r more =>
              cases more with
              | nil => simp [placeholderError, hv, hsrc, hres, heval] at hbad
              | cons r2 more2 =>
                simp only [placeholderError, hv, hsrc, hres, heval, if_false,
                  Option.some.injEq] at hbad
                subst hbad
                simp [replacementsLoop, hv, hsrc, hres, heval, pure, Except.pure]

/-- The loop over the names stops at the first name with an error and returns
that error: the names before it resolve, the names after it are not looked
at. -/
theorem replacementsLoop_first_error (lib : Lib) (heap : Heap) (ctx : context)
    (pre : List String) (name : String) (post : List String)
    (replacements : List (String × String)) (err : GoError)
    (hpre : ∀ n ∈ pre, ∃ v resource r, ctx.vars.lookup n = some v ∧ v.sourceId ≠ "" ∧
      heap.resource v.sourceId = some resource ∧
      v.expression.Eval lib.IsUpper [Value.obj resource] = Except.ok ([r], none))
    (hbad : placeholderError lib heap ctx name = some err) :
    replacementsLoop lib heap ctx (pre ++ name :: post) replacements =
      Except.ok (Except.error err) := by
  induction pre generalizing replacements with
  | nil => exact replacementsLoop_head_error lib heap ctx name post replacements err hbad
  | cons n pre ih =>
    obtain ⟨v, resource, r, hv, hsrc, hres, heval⟩ := hpre n (by simp)
    simp only [List.cons_append, replacementsLoop, hv, hsrc, hres, heval, ne_eq,
      not_false_eq_true, if_true]
    exact ih _ (fun m hm => hpre m (by simp [hm]))

/-- Substitution stops at the first placeholder with an error: when the
placeholders before it resolve, replaceVariables returns the empty string
together with the error of that placeholder, whatever the placeholders after
it are. -/
theorem replaceVariables_first_error (lib : Lib) (heap : Heap) (ctx : context) (s : String)
    (pre : List String) (name : String) (post : List String) (err : GoError)
    (hnames : FindAllVarNames s = pre ++ name :: post)
    (hpre : ∀ n ∈ pre, ∃ v resource r, ctx.vars.lookup n = some v ∧ v.sourceId ≠ "" ∧
      heap.resource v.sourceId = some resource ∧
      v.expression.Eval lib.IsUpper [Value.obj resource] = Except.ok ([r], none))
    (hbad : placeholderError lib heap ctx name = some err) :
    replaceVariables lib heap ctx s = Except.ok ("", some err) := by
  simp [replaceVariables, hnames,
    replacementsLoop_first_error lib heap ctx pre name post [] err hpre hbad, pure,
    Except.pure]

/-- Claim C24, the code at the failing input: the variable P has the expression
`as`, whose evaluation panics, and M is not in the variable table. On the
text of the placeholders P and M, which holds a placeholder whose name is not
in the variable table, replaceVariables panics while it evaluates P and
returns neither an error nor a string; on the text of the placeholders M and
P it returns the empty string with the error of M. -/
theorem C24_substitution_aborts :
    FindAllVarNames "$\x7bP\x7d$\x7bM\x7d" = ["P", "M"] ∧
    contextWithP.vars.lookup "M" = none ∧
    placeholderError printingLib heapWithF contextWithP "M" =
      some (GoError.errorf "missing Variable `%s`" [FmtArg.str "M"]) ∧
    replaceVariables printingLib heapWithF contextWithP "$\x7bP\x7d$\x7bM\x7d" =
      Except.error Panic.indexOutOfRange ∧
    replaceVariables printingLib heapWithF contextWithP "$\x7bM\x7d$\x7bP\x7d" =
      Except.ok ("", some (GoError.errorf "missing Variable `%s`" [FmtArg.str "M"])) :=
  ⟨by decide, rfl, rfl, by rfl, by rfl⟩

/-! ## Parser -/

/-- The later runes of a quoted text, when they are not found in a text,
are not found in that text followed by a character the quoted text does not
hold; what is left is what was left before followed by the rest, or, when the
text ended inside the quoted text, what follows the character. -/
theorem lexer_runes_append (lit cs tail : List Char) (sep : Char) (hsep : sep ∉ lit)
    (h : (fhirPathLexer.runes lit cs).1 = false) :
    (fhirPathLexer.runes lit (cs ++ sep :: tail)).1 = false ∧
      ((fhirPathLexer.runes lit (cs ++ sep :: tail)).2.2 =
          (fhirPathLexer.runes lit cs).2.2 ++ sep :: tail ∨
        (fhirPathLexer.runes lit (cs ++ sep :: tail)).2.2 = tail) := by
  induction lit generalizing cs with
  | nil => simp [fhirPathLexer.runes] at h
  | cons r rs ih =>
    have hr : r ≠ sep := fun e => hsep (by simp [e])
    have hrs : sep ∉ rs := fun e => hsep (by simp [e])
    cases cs with
    | nil => simp [fhirPathLexer.runes, hr]
    | cons c cs =>
      by_cases hc : r = c
      · subst hc
        simp only [fhirPathLexer.runes, if_true] at h
        simp only [List.cons_append, fhirPathLexer.runes, if_true]
        exact ih cs hrs h
      · simp [fhirPathLexer.runes, hc]

/-- The same for a quoted text as a whole. -/
theorem lexer_quotedText_append (lit cs tail : List Char) (sep : Char) (hsep : sep ∉ lit)
    (h : (fhirPathLexer.quotedText lit cs).1 = false) :
    (fhirPathLexer.quotedText lit (cs ++ sep :: tail)).1 = false ∧
      ((fhirPathLexer.quotedText lit (cs ++ sep :: tail)).2.2 =
          (fhirPathLexer.quotedText lit cs).2.2 ++ sep :: tail ∨
        (fhirPathLexer.quotedText lit (cs ++ sep :: tail)).2.2 = tail) := by
  cases lit with
  | nil => simp [fhirPathLexer.quotedText] at h
  | cons r rs =>
    have hr : r ≠ sep := fun e => hsep (by simp [e])
    have hrs : sep ∉ rs := fun e => hsep (by simp [e])
    cases cs with
    | nil => simp [fhirPathLexer.quotedText, hr]
    | cons c cs =>
      by_cases hc : r = c
      · subst hc
        simp only [fhirPathLexer.quotedText, if_true] at h
        simp only [List.cons_append, fhirPathLexer.quotedText, if_true]
        exact lexer_runes_append rs cs tail sep hrs h
      · simp [fhirPathLexer.quotedText, hc]

/-- No quoted text is found at a character that starts none of them, and
nothing is read. -/
theorem lexer_alternatives_head (lits : List String) (x : Char) (more : List Char)
    (h : ∀ lit ∈ lits, lit.data.head? ≠ some x ∧ lit.data ≠ []) :
    fhirPathLexer.alternatives lits (x :: more) = (false, [], x :: more) := by
  induction lits with
  | nil => rfl
  | cons lit lits ih =>
    obtain ⟨hx, hne⟩ := h lit (by simp)
    have ih2 := ih (fun l hl => h l (by simp [hl]))
    cases hd : lit.data with
    | nil => exact absurd hd hne
    | cons r rs =>
      have hr : r ≠ x := by
        intro e
        apply hx
        simp [hd, e]
      simp [fhirPathLexer.alternatives, fhirPathLexer.quotedText, hd, hr, ih2]

/-- An alternative of quoted texts that finds none in a text finds none in
that text followed by a character none of them holds and a character that
starts none of them. -/
theorem lexer_alternatives_append (lits : List String) (cs more : List Char) (sep x : Char)
    (hlits : ∀ lit ∈ lits, sep ∉ lit.data ∧ lit.data.head? ≠ some x ∧ lit.data ≠ [])
    (h : (fhirPathLexer.alternatives lits cs).1 = false) :
    (fhirPathLexer.alternatives lits (cs ++ sep :: x :: more)).1 = false := by
  induction lits generalizing cs with
  | nil => rfl
  | cons lit lits ih =>
    have hrest : ∀ l ∈ lits, sep ∉ l.data ∧ l.data.head? ≠ some x ∧ l.data ≠ [] :=
      fun l hl => hlits l (by simp [hl])
    obtain ⟨hsep, _, _⟩ := hlits lit (by simp)
    simp only [fhirPathLexer.alternatives] at h ⊢
    cases h1 : (fhirPathLexer.quotedText lit.data cs).1 with
    | true => simp [h1] at h
    | false =>
      simp only [h1, Bool.false_eq_true, if_false] at h
      obtain ⟨hq, hleft⟩ :=
        lexer_quotedText_append lit.data cs (x :: more) sep hsep h1
      simp only [hq, Bool.false_eq_true, if_false]
      rcases hleft with hleft | hleft
      · rw [hleft]
        exact ih _ hrest h
      · rw [hleft, lexer_alternatives_head lits x more (fun l hl => (hrest l hl).2)]

theorem lexer_identifier_append (cs more : List Char) (sep : Char)
    (h : fhirPathLexer.Identifier cs = some (cs, []))
    (hsep : (sep = Char.ofNat 95 || fhirPathLexer.alpha sep || fhirPathLexer.digit sep) = false) :
    fhirPathLexer.Identifier (cs ++ sep :: more) = some (cs, sep :: more) := by
  cases cs with
  | nil => simp [fhirPathLexer.Identifier] at h
  | cons c cs =>
    simp only [fhirPathLexer.Identifier, List.span_eq_take_drop] at h
    simp only [List.cons_append, fhirPathLexer.Identifier, List.span_eq_take_drop]
    split at h
    · rename_i hc
      simp only [hc, if_true]
      simp only [Option.some.injEq, Prod.mk.injEq, List.cons.injEq, true_and] at h
      obtain ⟨htake, _⟩ := h
      have hall := List.takeWhile_eq_self_iff.mp htake
      rw [List.takeWhile_append_of_pos hall, List.dropWhile_append_of_pos hall]
      simp [List.takeWhile_cons, List.dropWhile_cons, hsep]
    · simp at h

theorem next_plainIdentifier (a : String) (ha : isPlainIdentifier a = true) :
    fhirPathLexer.next a.data = some (⟨Symbol.Identifier, a⟩, []) := by
  simp only [isPlainIdentifier, Bool.and_eq_true, Option.isNone_iff_eq_none, beq_iff_eq] at ha
  obtain ⟨⟨⟨hbool, hid⟩, _⟩, _⟩ := ha
  simp [fhirPathLexer.next, fhirPathLexer.productions, List.findSome?, hbool, hid]

theorem next_plainIdentifier_space (a : String) (x : Char) (more : List Char)
    (ha : isPlainIdentifier a = true) (hx : x ≠ Char.ofNat 116 ∧ x ≠ Char.ofNat 102) :
    fhirPathLexer.next (a.data ++ Char.ofNat 32 :: x :: more) =
      some (⟨Symbol.Identifier, a⟩, Char.ofNat 32 :: x :: more) := by
  simp only [isPlainIdentifier, Bool.and_eq_true, Option.isNone_iff_eq_none, beq_iff_eq] at ha
  obtain ⟨⟨⟨hbool, hid⟩, _⟩, _⟩ := ha
  have hb0 : (fhirPathLexer.alternatives ["true", "false"] a.data).1 = false := by
    simp only [fhirPathLexer.Boolean, fhirPathLexer.oneOf] at hbool
    cases hv : (fhirPathLexer.alternatives ["true", "false"] a.data).1 with
    | true => simp [hv] at hbool
    | false => rfl
  have hb1 := lexer_alternatives_append ["true", "false"] a.data more (Char.ofNat 32) x
    (by
      intro lit hlit
      simp only [List.mem_cons, List.mem_singleton, List.not_mem_nil, or_false] at hlit
      rcases hlit with rfl | rfl
      · refine ⟨by decide, ?_, by decide⟩
        intro h
        have : ("true" : String).data.head? = some (Char.ofNat 116) := by decide
        rw [this] at h
        exact hx.1 (Option.some.inj h).symm
      · refine ⟨by decide, ?_, by decide⟩
        intro h
        have : ("false" : String).data.head? = some (Char.ofNat 102) := by decide
        rw [this] at h
        exact hx.2 (Option.some.inj h).symm) hb0
  have h1 : fhirPathLexer.Boolean (a.data ++ Char.ofNat 32 :: x :: more) = none := by
    simp [fhirPathLexer.Boolean, fhirPathLexer.oneOf, hb1]
  have h2 := lexer_identifier_append a.data (x :: more) (Char.ofNat 32) hid (by decide)
  simp [fhirPathLexer.next, fhirPathLexer.productions, List.findSome?, h1, h2]

theorem tokens_succ (n : Nat) (cs rest : List Char) (t : Token) (ts : List Token)
    (hne : cs ≠ []) (h : fhirPathLexer.next cs = some (t, rest))
    (hrest : fhirPathLexer.tokens n rest = some ts) :
    fhirPathLexer.tokens (n + 1) cs = some (t :: ts) := by
  cases cs with
  | nil => exact absurd rfl hne
  | cons c cs => simp [fhirPathLexer.tokens, h, hrest]

theorem tokens_mono (n m : Nat) (cs : List Char) (ts : List Token) (hnm : n ≤ m)
    (h : fhirPathLexer.tokens n cs = some ts) : fhirPathLexer.tokens m cs = some ts := by
  induction n generalizing m cs ts with
  | zero =>
    cases cs with
    | nil =>
      cases m <;> simpa [fhirPathLexer.tokens] using h
    | cons c cs => simp [fhirPathLexer.tokens] at h
  | succ n ih =>
    cases cs with
    | nil =>
      cases m <;> simpa [fhirPathLexer.tokens] using h
    | cons c cs =>
      obtain ⟨m, rfl⟩ : ∃ k, m = k + 1 := ⟨m - 1, by omega⟩
      simp only [fhirPathLexer.tokens] at h ⊢
      cases hnext : fhirPathLexer.next (c :: cs) with
      | none => simp [hnext] at h
      | some p =>
        obtain ⟨t, rest⟩ := p
        simp only [hnext] at h ⊢
        cases hrest : fhirPathLexer.tokens n rest with
        | none => simp [hrest] at h
        | some ts2 =>
          simp only [hrest] at h
          rw [ih m rest ts2 (by omega) hrest]
          exact h

/-- The tokens of two plain identifiers around an operator, a space on each
side of it. -/
theorem lex_operator_between (a b mid : String) (x : Char) (op : List Char) (t : Token)
    (ha : isPlainIdentifier a = true) (hb : isPlainIdentifier b = true)
    (hmid : mid.data = Char.ofNat 32 :: (x :: op ++ [Char.ofNat 32]))
    (hx : x ≠ Char.ofNat 116 ∧ x ≠ Char.ofNat 102)
    (hop : ∀ more, fhirPathLexer.next (x :: op ++ Char.ofNat 32 :: more) =
      some (t, Char.ofNat 32 :: more)) :
    fhirPathLexer.lex (a ++ mid ++ b) =
      some [⟨Symbol.Identifier, a⟩, ⟨Symbol.Whitespace, " "⟩, t, ⟨Symbol.Whitespace, " "⟩,
        ⟨Symbol.Identifier, b⟩] := by
  have hdata : (a ++ mid ++ b).data =
      a.data ++ Char.ofNat 32 :: x :: (op ++ Char.ofNat 32 :: b.data) := by
    simp [String.data_append, hmid]
  have hws : ∀ more, fhirPathLexer.next (Char.ofNat 32 :: more) =
      some (⟨Symbol.Whitespace, " "⟩, more) := fun more => rfl
  have hnil : fhirPathLexer.next [] = none := rfl
  have hane : a.data ≠ [] := by
    intro h0
    have := next_plainIdentifier a ha
    rw [h0, hnil] at this
    cases this
  have hbne : b.data ≠ [] := by
    intro h0
    have := next_plainIdentifier b hb
    rw [h0, hnil] at this
    cases this
  have h5 : fhirPathLexer.tokens 5
      (a.data ++ Char.ofNat 32 :: x :: (op ++ Char.ofNat 32 :: b.data)) = some _ :=
    tokens_succ 4 _ _ _ _ (by simp [hane]) (next_plainIdentifier_space a x _ ha hx)
      (tokens_succ 3 _ _ _ _ (by simp) (hws _)
        (tokens_succ 2 _ _ _ _ (by simp) (hop _)
          (tokens_succ 1 _ _ _ _ (by simp) (hws _)
            (tokens_succ 0 _ _ _ _ hbne (next_plainIdentifier b hb) rfl))))
  unfold fhirPathLexer.lex
  rw [hdata]
  refine tokens_mono 5 _ _ _ ?_ h5
  have hla : 0 < a.data.length := List.length_pos.mpr hane
  have hlb : 0 < b.data.length := List.length_pos.mpr hbne
  simp only [List.length_append, List.length_cons]
  omega

/-- A plain identifier is none of the four texts the grammar asks for when a
term starts. -/
theorem plainIdentifier_not_keyword (a : String) (ha : isPlainIdentifier a = true) :
    a ≠ "+" ∧ a ≠ "-" ∧ a ≠ "as" ∧ a ≠ "is" := by
  refine ⟨?_, ?_, ?_, ?_⟩ <;>
  · intro h
    subst h
    revert ha
    decide

/-- The root node on the tokens of two identifiers around a comparison. -/
theorem parseExpression_cmp (pf : String → Option Float64) (a b : String)
    (ha : a ≠ "+" ∧ a ≠ "-" ∧ a ≠ "as" ∧ a ≠ "is")
    (hb : b ≠ "+" ∧ b ≠ "-" ∧ b ≠ "as" ∧ b ≠ "is") :
    parseExpression pf [⟨Symbol.Identifier, a⟩, ⟨Symbol.CmpOp, ">"⟩, ⟨Symbol.Identifier, b⟩] =
      some (expressionOfInequality (InequalityExpression.mk (unionOfTerm (identifierTerm a))
        Operator.OpGreaterThan (some (unionOfTerm (identifierTerm b)))), []) := by
  obtain ⟨ha1, ha2, ha3, ha4⟩ := ha
  obtain ⟨hb1, hb2, hb3, hb4⟩ := hb
  simp [parseExpression, parseExpressionDepth, parseExpressionWith, parseEqualityExpression,
    parseInequalityExpression, parseUnionExpression, parseTypeExpression,
    parseAdditiveExpression, parseOpMultiplicativeExpression, parseMultiplicativeExpression,
    parseOpPolarityExpression, parsePolarityExpression, parseIndexerExpression,
    parseInvocationExpression, parseTerm, parseInvocation, parseFunction, parseLiteral,
    parseIdentifier, repetition, captureOperator, captureText, captureType, quotedToken,
    Operator.Capture, PolarityOp.Capture, unionOfTerm, identifierTerm, expressionOfInequality,
    ha1, ha2, ha3, ha4, hb1, hb2, hb3, hb4]

theorem parseExpression_union (pf : String → Option Float64) (a b : String)
    (ha : a ≠ "+" ∧ a ≠ "-" ∧ a ≠ "as" ∧ a ≠ "is")
    (hb : b ≠ "+" ∧ b ≠ "-" ∧ b ≠ "as" ∧ b ≠ "is") :
    parseExpression pf [⟨Symbol.Identifier, a⟩, ⟨Symbol.Operator, "|"⟩, ⟨Symbol.Identifier, b⟩] =
      some (expressionOfUnion (UnionExpression.mk (typeOfTerm (identifierTerm a))
        (some (typeOfTerm (identifierTerm b)))), []) := by
  obtain ⟨ha1, ha2, ha3, ha4⟩ := ha
  obtain ⟨hb1, hb2, hb3, hb4⟩ := hb
  simp [parseExpression, parseExpressionDepth, parseExpressionWith, parseEqualityExpression,
    parseInequalityExpression, parseUnionExpression, parseTypeExpression,
    parseAdditiveExpression, parseOpMultiplicativeExpression, parseMultiplicativeExpression,
    parseOpPolarityExpression, parsePolarityExpression, parseIndexerExpression,
    parseInvocationExpression, parseTerm, parseInvocation, parseFunction, parseLiteral,
    parseIdentifier, repetition, captureOperator, captureText, captureType, quotedToken,
    Operator.Capture, PolarityOp.Capture, typeOfTerm, multiplicativeOfTerm, identifierTerm,
    expressionOfUnion, expressionOfInequality,
    ha1, ha2, ha3, ha4, hb1, hb2, hb3, hb4]

theorem parseExpression_add (pf : String → Option Float64) (a b : String)
    (ha : a ≠ "+" ∧ a ≠ "-" ∧ a ≠ "as" ∧ a ≠ "is")
    (hb : b ≠ "+" ∧ b ≠ "-" ∧ b ≠ "as" ∧ b ≠ "is") :
    parseExpression pf [⟨Symbol.Identifier, a⟩, ⟨Symbol.Operator, "+"⟩, ⟨Symbol.Identifier, b⟩] =
      some (expressionOfAdditive (AdditiveExpression.mk (multiplicativeOfTerm (identifierTerm a))
        [OpMultiplicativeExpression.mk Operator.OpAdd (multiplicativeOfTerm (identifierTerm b))]),
        []) := by
  obtain ⟨ha1, ha2, ha3, ha4⟩ := ha
  obtain ⟨hb1, hb2, hb3, hb4⟩ := hb
  simp [parseExpression, parseExpressionDepth, parseExpressionWith, parseEqualityExpression,
    parseInequalityExpression, parseUnionExpression, parseTypeExpression,
    parseAdditiveExpression, parseOpMultiplicativeExpression, parseMultiplicativeExpression,
    parseOpPolarityExpression, parsePolarityExpression, parseIndexerExpression,
    parseInvocationExpression, parseTerm, parseInvocation, parseFunction, parseLiteral,
    parseIdentifier, repetition, captureOperator, captureText, captureType, quotedToken,
    Operator.Capture, PolarityOp.Capture, multiplicativeOfTerm, identifierTerm,
    expressionOfAdditive, expressionOfUnion, expressionOfInequality,
    ha1, ha2, ha3, ha4, hb1, hb2, hb3, hb4]

theorem parseExpression_mul (pf : String → Option Float64) (a b : String)
    (ha : a ≠ "+" ∧ a ≠ "-" ∧ a ≠ "as" ∧ a ≠ "is")
    (hb : b ≠ "+" ∧ b ≠ "-" ∧ b ≠ "as" ∧ b ≠ "is") :
    parseExpression pf [⟨Symbol.Identifier, a⟩, ⟨Symbol.Operator, "*"⟩, ⟨Symbol.Identifier, b⟩] =
      some (expressionOfAdditive (AdditiveExpression.mk
        (MultiplicativeExpression.mk (polarityOfTerm (identifierTerm a))
          [OpPolarityExpression.mk Operator.OpMul (polarityOfTerm (identifierTerm b))]) []),
        []) := by
  obtain ⟨ha1, ha2, ha3, ha4⟩ := ha
  obtain ⟨hb1, hb2, hb3, hb4⟩ := hb
  simp [parseExpression, parseExpressionDepth, parseExpressionWith, parseEqualityExpression,
    parseInequalityExpression, parseUnionExpression, parseTypeExpression,
    parseAdditiveExpression, parseOpMultiplicativeExpression, parseMultiplicativeExpression,
    parseOpPolarityExpression, parsePolarityExpression, parseIndexerExpression,
    parseInvocationExpression, parseTerm, parseInvocation, parseFunction, parseLiteral,
    parseIdentifier, repetition, captureOperator, captureText, captureType, quotedToken,
    Operator.Capture, PolarityOp.Capture, polarityOfTerm, identifierTerm,
    expressionOfAdditive, expressionOfUnion, expressionOfInequality,
    ha1, ha2, ha3, ha4, hb1, hb2, hb3, hb4]

/-- What `Parse` returns once the tokens and the result of the root node on
them, whitespace elided, are known. -/
theorem parse_of_tokens (pf : String → Option Float64) (s : String) (all : List Token)
    (expr : Expression)
    (hlex : fhirPathLexer.lex s = some all)
    (hparse : parseExpression pf (all.filter fun t => t.Type_ ≠ Symbol.Whitespace) =
      some (expr, [])) :
    Parse pf s = Except.ok expr := by
  simp only [Parse, ParseString, hlex, hparse]

/-- Claim C21. Each binary operator is captured at the grammar level of its
precedence: for plain identifiers a and b, Parse of a > b sets the operator of
the Inequality level to OpGreaterThan and its right operand to b, Parse of
a | b sets the right operand of the Union level to b, Parse of a + b gives the
Additive level the right list [(OpAdd, b)], and Parse of a * b gives the
Multiplicative level the right list [(OpMul, b)]; in every tree the left-most
term at the innermost level is a, and the levels other than the operator's own
carry no right operand. -/
theorem C21_operator_captured_at_its_level (parseFloat : String → Option Float64)
    (a b : String) (ha : isPlainIdentifier a = true) (hb : isPlainIdentifier b = true) :
    Parse parseFloat (a ++ " > " ++ b) =
      Except.ok (expressionOfInequality (InequalityExpression.mk
        (unionOfTerm (identifierTerm a)) Operator.OpGreaterThan
        (some (unionOfTerm (identifierTerm b))))) ∧
    Parse parseFloat (a ++ " | " ++ b) =
      Except.ok (expressionOfUnion (UnionExpression.mk (typeOfTerm (identifierTerm a))
        (some (typeOfTerm (identifierTerm b))))) ∧
    Parse parseFloat (a ++ " + " ++ b) =
      Except.ok (expressionOfAdditive (AdditiveExpression.mk
        (multiplicativeOfTerm (identifierTerm a))
        [OpMultiplicativeExpression.mk Operator.OpAdd
          (multiplicativeOfTerm (identifierTerm b))])) ∧
    Parse parseFloat (a ++ " * " ++ b) =
      Except.ok (expressionOfAdditive (AdditiveExpression.mk
        (MultiplicativeExpression.mk (polarityOfTerm (identifierTerm a))
          [OpPolarityExpression.mk Operator.OpMul (polarityOfTerm (identifierTerm b))]) [])) := by
  have hka := plainIdentifier_not_keyword a ha
  have hkb := plainIdentifier_not_keyword b hb
  refine ⟨?_, ?_, ?_, ?_⟩
  · exact parse_of_tokens parseFloat _ _ _
      (lex_operator_between a b " > " (Char.ofNat 62) [] ⟨Symbol.CmpOp, ">"⟩ ha hb (by decide)
        (by decide) (fun _ => rfl))
      (parseExpression_cmp parseFloat a b hka hkb)
  · exact parse_of_tokens parseFloat _ _ _
      (lex_operator_between a b " | " (Char.ofNat 124) [] ⟨Symbol.Operator, "|"⟩ ha hb (by decide)
        (by decide) (fun _ => rfl))
      (parseExpression_union parseFloat a b hka hkb)
  · exact parse_of_tokens parseFloat _ _ _
      (lex_operator_between a b " + " (Char.ofNat 43) [] ⟨Symbol.Operator, "+"⟩ ha hb (by decide)
        (by decide) (fun _ => rfl))
      (parseExpression_add parseFloat a b hka hkb)
  · exact parse_of_tokens parseFloat _ _ _
      (lex_operator_between a b " * " (Char.ofNat 42) [] ⟨Symbol.Operator, "*"⟩ ha hb (by decide)
        (by decide) (fun _ => rfl))
      (parseExpression_mul parseFloat a b hka hkb)

/-- Witness for C21, on the identifiers `a` and `b` of the repository's
tests, with a reading of numbers that reads none. -/
theorem C21_operator_captured_at_its_level_witness :
    Parse (fun _ => none) "a > b" =
      Except.ok (expressionOfInequality (InequalityExpression.mk
        (unionOfTerm (identifierTerm "a")) Operator.OpGreaterThan
        (some (unionOfTerm (identifierTerm "b"))))) ∧
    Parse (fun _ => none) "a | b" =
      Except.ok (expressionOfUnion (UnionExpression.mk (typeOfTerm (identifierTerm "a"))
        (some (typeOfTerm (identifierTerm "b"))))) ∧
    Parse (fun _ => none) "a + b" =
      Except.ok (expressionOfAdditive (AdditiveExpression.mk
        (multiplicativeOfTerm (identifierTerm "a"))
        [OpMultiplicativeExpression.mk Operator.OpAdd
          (multiplicativeOfTerm (identifierTerm "b"))])) ∧
    Parse (fun _ => none) "a * b" =
      Except.ok (expressionOfAdditive (AdditiveExpression.mk
        (MultiplicativeExpression.mk (polarityOfTerm (identifierTerm "a"))
          [OpPolarityExpression.mk Operator.OpMul (polarityOfTerm (identifierTerm "b"))]) [])) :=
  C21_operator_captured_at_its_level (fun _ => none) "a" "b" (by decide) (by decide)

/-- The text `a.[0]`, which `String()` gives for the tree of `a[0]`, is not
parsed: after the dot the grammar asks for an invocation, the root node stops
before the dot, and the dot is left over. -/
theorem parse_rejects_dot_bracket (parseFloat : String → Option Float64) :
    Parse parseFloat "a.[0]" = Except.error (GoError.lib "unexpected token .") := by
  rfl

/-! ## The expression check of an assert -/

/-- An assert declaring only an expression is decided by the expression
check. -/
theorem executeAssert_expression_only (lib : Lib) (heap : Heap) (ctx : context)
    (assert : testscript.Assert)
    (hres : assert.Resource = "") (hresp : assert.Response = none) (hpath : assert.Path = "") :
    executeAssert lib heap ctx assert =
      match assertExpression lib ctx assert with
      | Except.error p => Except.error p
      | Except.ok (some r) => Except.ok r
      | Except.ok none => Except.ok (pass assert.Description) := by
  simp only [executeAssert, assertResource, assertResponse, assertPath, hres, hresp, hpath,
    ne_eq, not_true_eq_false, if_false, pure, Except.pure, throw, throwThe, MonadExceptOf.throw]

/-- The result of an assert declaring only an expression that parses and
whose evaluation returns: by the values and the error returned. -/
theorem executeAssert_expression_outcome (lib : Lib) (heap : Heap) (ctx : context)
    (assert : testscript.Assert) (lastResult : operationResult) (body : Obj)
    (hres : assert.Resource = "") (hresp : assert.Response = none) (hpath : assert.Path = "")
    (hexpr : assert.Expression ≠ "")
    (hlast : ctx.lastResult = some lastResult) (hbody : lastResult.resource = some body)
    (expr : Expression) (result : List Value) (err : Option EvalError)
    (hparse : lib.Parse assert.Expression = Except.ok expr)
    (heval : expr.Eval lib.IsUpper [Value.obj body] = Except.ok (result, err)) :
    ∃ r, executeAssert lib heap ctx assert = Except.ok r ∧
      (r.Result = ActionResultCode.Pass ↔ (result = [Value.bool true] ∧ err = none)) ∧
      (r.Result = ActionResultCode.Fail ↔ (result = [Value.bool false] ∧ err = none)) ∧
      (r.Result = ActionResultCode.Error ↔ ¬ (err = none ∧ ∃ b, result = [Value.bool b])) := by
  have hexec := executeAssert_expression_only lib heap ctx assert hres hresp hpath
  cases err with
  | some e =>
    refine ⟨errorf "Error while evaluating FHIRPath expression `%s`: %s"
      [FmtArg.str assert.Expression, FmtArg.error (GoError.eval e)], ?_, ?_, ?_, ?_⟩
    · rw [hexec]
      simp [assertExpression, hexpr, hparse, hlast, hbody, heval, pure, Except.pure]
    all_goals simp [errorf, actionResult]
  | none =>
    cases result with
    | nil =>
      refine ⟨errorf
        "FHIRPath expression `%s` didn't evaluate to a single value. Instead %d values were returned."
        [FmtArg.str assert.Expression, FmtArg.int ([] : List Value).length], ?_, ?_, ?_, ?_⟩
      · rw [hexec]
        simp [assertExpression, hexpr, hparse, hlast, hbody, heval, pure, Except.pure]
      all_goals simp [errorf, actionResult]
    | cons v more =>
      cases more with
      | cons v2 more2 =>
        refine ⟨errorf
          "FHIRPath expression `%s` didn't evaluate to a single value. Instead %d values were returned."
          [FmtArg.str assert.Expression, FmtArg.int (v :: v2 :: more2).length], ?_, ?_, ?_, ?_⟩
        · rw [hexec]
          simp [assertExpression, hexpr, hparse, hlast, hbody, heval, pure, Except.pure]
        all_goals simp [errorf, actionResult]
      | nil =>
        cases v with
        | bool b =>
          cases b with
          | true =>
            refine ⟨pass assert.Description, ?_, ?_, ?_, ?_⟩
            · rw [hexec]
              simp [assertExpression, hexpr, hparse, hlast, hbody, heval, pure, Except.pure]
            all_goals simp [pass]
          | false =>
            refine ⟨failf "FHIRPath expression `%s` didn't evaluate to true."
              [FmtArg.str assert.Expression], ?_, ?_, ?_, ?_⟩
            · rw [hexec]
              simp [assertExpression, hexpr, hparse, hlast, hbody, heval, pure, Except.pure]
            all_goals simp [failf, actionResult]
        | null =>
          refine ⟨errorf
            "FHIRPath expression `%s` didn't evaluate to a boolean value. Instead the value was `%v`."
            [FmtArg.str assert.Expression, FmtArg.value Value.null], ?_, ?_, ?_, ?_⟩
          · rw [hexec]
            simp [assertExpression, hexpr, hparse, hlast, hbody, heval, pure, Except.pure]
          all_goals simp [errorf, actionResult]
        | int n =>
          refine ⟨errorf
            "FHIRPath expression `%s` didn't evaluate to a boolean value. Instead the value was `%v`."
            [FmtArg.str assert.Expression, FmtArg.value (Value.int n)], ?_, ?_, ?_, ?_⟩
          · rw [hexec]
            simp [assertExpression, hexpr, hparse, hlast, hbody, heval, pure, Except.pure]
          all_goals simp [errorf, actionResult]
        | float f =>
          refine ⟨errorf
            "FHIRPath expression `%s` didn't evaluate to a boolean value. Instead the value was `%v`."
            [FmtArg.str assert.Expression, FmtArg.value (Value.float f)], ?_, ?_, ?_, ?_⟩
          · rw [hexec]
            simp [assertExpression, hexpr, hparse, hlast, hbody, heval, pure, Except.pure]
          all_goals simp [errorf, actionResult]
        | str s =>
          refine ⟨errorf
            "FHIRPath expression `%s` didn't evaluate to a boolean value. Instead the value was `%v`."
            [FmtArg.str assert.Expression, FmtArg.value (Value.str s)], ?_, ?_, ?_, ?_⟩
          · rw [hexec]
            simp [assertExpression, hexpr, hparse, hlast, hbody, heval, pure, Except.pure]
          all_goals simp [errorf, actionResult]
        | seq vs =>
          refine ⟨errorf
            "FHIRPath expression `%s` didn't evaluate to a boolean value. Instead the value was `%v`."
            [FmtArg.str assert.Expression, FmtArg.value (Value.seq vs)], ?_, ?_, ?_, ?_⟩
          · rw [hexec]
            simp [assertExpression, hexpr, hparse, hlast, hbody, heval, pure, Except.pure]
          all_goals simp [errorf, actionResult]
        | obj o =>
          refine ⟨errorf
            "FHIRPath expression `%s` didn't evaluate to a boolean value. Instead the value was `%v`."
            [FmtArg.str assert.Expression, FmtArg.value (Value.obj o)], ?_, ?_, ?_, ?_⟩
          · rw [hexec]
            simp [assertExpression, hexpr, hparse, hlast, hbody, heval, pure, Except.pure]
          all_goals simp [errorf, actionResult]

/-- Claim C31. Expression check: for every Assert declaring only an
expression, with a decoded body available, the action passes iff the
expression parses and evaluates against [body] to exactly [true] without
error; it is Fail iff the evaluation yields exactly [false]; and it is Error
when the expression does not parse, the evaluation returns an error, the
result has zero or more than one value, or the single value is not a
boolean. -/
theorem C31_expression_check (lib : Lib) (heap : Heap) (ctx : context)
    (assert : testscript.Assert) (lastResult : operationResult) (body : Obj)
    (hres : assert.Resource = "") (hresp : assert.Response = none) (hpath : assert.Path = "")
    (hexpr : assert.Expression ≠ "")
    (hlast : ctx.lastResult = some lastResult) (hbody : lastResult.resource = some body) :
    ((∃ r, executeAssert lib heap ctx assert = Except.ok r ∧ r.Result = ActionResultCode.Pass) ↔
      ∃ expr, lib.Parse assert.Expression = Except.ok expr ∧
        expr.Eval lib.IsUpper [Value.obj body] = Except.ok ([Value.bool true], none)) ∧
    ((∃ r, executeAssert lib heap ctx assert = Except.ok r ∧ r.Result = ActionResultCode.Fail) ↔
      ∃ expr, lib.Parse assert.Expression = Except.ok expr ∧
        expr.Eval lib.IsUpper [Value.obj body] = Except.ok ([Value.bool false], none)) ∧
    (∀ err, lib.Parse assert.Expression = Except.error err →
      ∃ r, executeAssert lib heap ctx assert = Except.ok r ∧
        r.Result = ActionResultCode.Error) ∧
    (∀ expr result, lib.Parse assert.Expression = Except.ok expr →
      ((∃ err, expr.Eval lib.IsUpper [Value.obj body] = Except.ok (result, some err)) ∨
        (expr.Eval lib.IsUpper [Value.obj body] = Except.ok (result, none) ∧
          (result.length ≠ 1 ∨ ∃ v, result = [v] ∧ ∀ b, v ≠ Value.bool b))) →
      ∃ r, executeAssert lib heap ctx assert = Except.ok r ∧
        r.Result = ActionResultCode.Error) := by
  have hexec := executeAssert_expression_only lib heap ctx assert hres hresp hpath
  cases hparse : lib.Parse assert.Expression with
  | error perr =>
    have h : executeAssert lib heap ctx assert =
        Except.ok (errorf "Error while parsing FHIRPath expression: `%s`"
          [FmtArg.str assert.Expression]) := by
      rw [hexec]
      simp [assertExpression, hexpr, hparse, pure, Except.pure]
    refine ⟨?_, ?_, ?_, ?_⟩
    · constructor
      · rintro ⟨r, hr, hp⟩
        rw [h] at hr
        cases hr
        simp [errorf, actionResult] at hp
      · rintro ⟨expr, he, _⟩
        cases he
    · constructor
      · rintro ⟨r, hr, hp⟩
        rw [h] at hr
        cases hr
        simp [errorf, actionResult] at hp
      · rintro ⟨expr, he, _⟩
        cases he
    · intro err _
      exact ⟨_, h, rfl⟩
    · intro expr result he
      cases he
  | ok expr =>
    cases heval : expr.Eval lib.IsUpper [Value.obj body] with
    | error p =>
      have h : executeAssert lib heap ctx assert = Except.error p := by
        rw [hexec]
        simp [assertExpression, hexpr, hparse, hlast, hbody, heval, throw, throwThe,
          MonadExceptOf.throw]
      refine ⟨?_, ?_, ?_, ?_⟩
      · constructor
        · rintro ⟨r, hr, _⟩
          rw [h] at hr
          cases hr
        · rintro ⟨e, he, hev⟩
          cases he
          rw [heval] at hev
          cases hev
      · constructor
        · rintro ⟨r, hr, _⟩
          rw [h] at hr
          cases hr
        · rintro ⟨e, he, hev⟩
          cases he
          rw [heval] at hev
          cases hev
      · intro err he
        cases he
      · intro e result he hcase
        cases he
        rw [heval] at hcase
        rcases hcase with ⟨err, hc⟩ | ⟨hc, _⟩ <;> cases hc
    | ok pair =>
      obtain ⟨result, err⟩ := pair
      obtain ⟨r, hr, hpass, hfail, herror⟩ := executeAssert_expression_outcome lib heap ctx assert
        lastResult body hres hresp hpath hexpr hlast hbody expr result err hparse heval
      refine ⟨?_, ?_, ?_, ?_⟩
      · constructor
        · rintro ⟨r2, hr2, hp⟩
          rw [hr] at hr2
          cases hr2
          obtain ⟨h1, h2⟩ := hpass.mp hp
          subst h1 h2
          exact ⟨expr, rfl, heval⟩
        · rintro ⟨e, he, hev⟩
          cases he
          rw [heval] at hev
          cases hev
          exact ⟨r, hr, hpass.mpr ⟨rfl, rfl⟩⟩
      · constructor
        · rintro ⟨r2, hr2, hp⟩
          rw [hr] at hr2
          cases hr2
          obtain ⟨h1, h2⟩ := hfail.mp hp
          subst h1 h2
          exact ⟨expr, rfl, heval⟩
        · rintro ⟨e, he, hev⟩
          cases he
          rw [heval] at hev
          cases hev
          exact ⟨r, hr, hfail.mpr ⟨rfl, rfl⟩⟩
      · intro perr he
        cases he
      · intro e result2 he hcase
        cases he
        refine ⟨r, hr, herror.mpr ?_⟩
        rw [heval] at hcase
        rintro ⟨hnone, b, hb⟩
        subst hnone hb
        rcases hcase with ⟨e2, hc⟩ | ⟨hc, hlen | ⟨v, hv, hnb⟩⟩
        · cases hc
        · cases hc
          simp at hlen
        · cases hc
          cases hv
          exact hnb b rfl

/-- Witness for C31: the expression `a` on the body with the member a = true
passes, with the description of the assert as message. -/
theorem C31_expression_check_witness :
    executeAssert parsingLib { fixtures := [], sent := [] }
        (contextWithBody [("a", Value.bool true)]) (expressionAssert "a") =
      Except.ok (pass "d") ∧
    ∃ r, executeAssert parsingLib { fixtures := [], sent := [] }
        (contextWithBody [("a", Value.bool true)]) (expressionAssert "a") = Except.ok r ∧
      r.Result = ActionResultCode.Pass :=
  ⟨by rfl,
   (C31_expression_check parsingLib { fixtures := [], sent := [] }
    (contextWithBody [("a", Value.bool true)]) (expressionAssert "a")
    { sampleLastResult with resource := some [("a", Value.bool true)] }
    [("a", Value.bool true)] rfl rfl rfl (by decide) rfl rfl).1.mpr
    ⟨expressionA, by rfl, by rfl⟩⟩

/-! ## The order of the checks of an assert -/

/-- A result of the resource-kind check is a Fail or an Error. -/
theorem assertResource_result (ctx : context) (assert : testscript.Assert) (r : ActionResult)
    (h : assertResource ctx assert = Except.ok (some r)) :
    r.Result = ActionResultCode.Fail ∨ r.Result = ActionResultCode.Error := by
  simp only [assertResource, pure, Except.pure, throw, throwThe, MonadExceptOf.throw] at h
  repeat' split at h
  all_goals (cases h <;> simp [failf, errorf, actionResult])

/-- A result of the response-status check is a Fail or an Error. -/
theorem assertResponse_result (ctx : context) (assert : testscript.Assert) (r : ActionResult)
    (h : assertResponse ctx assert = Except.ok (some r)) :
    r.Result = ActionResultCode.Fail ∨ r.Result = ActionResultCode.Error := by
  simp only [assertResponse, pure, Except.pure, throw, throwThe, MonadExceptOf.throw] at h
  repeat' split at h
  all_goals (cases h <;> simp [failf, errorf, actionResult])

/-- A result of the expression check is a Fail or an Error. -/
theorem assertExpression_result (lib : Lib) (ctx : context) (assert : testscript.Assert)
    (r : ActionResult) (h : assertExpression lib ctx assert = Except.ok (some r)) :
    r.Result = ActionResultCode.Fail ∨ r.Result = ActionResultCode.Error := by
  simp only [assertExpression, pure, Except.pure, throw, throwThe, MonadExceptOf.throw] at h
  repeat' split at h
  all_goals (cases h <;> simp [failf, errorf, actionResult])

/-- A result of the path check is a Fail or an Error. -/
theorem assertPath_result (lib : Lib) (heap : Heap) (ctx : context)
    (assert : testscript.Assert) (r : ActionResult)
    (h : assertPath lib heap ctx assert = Except.ok (some r)) :
    r.Result = ActionResultCode.Fail ∨ r.Result = ActionResultCode.Error := by
  simp only [assertPath, pure, Except.pure, throw, throwThe, MonadExceptOf.throw] at h
  repeat' split at h
  all_goals (cases h <;> simp [failf, errorf, actionResult])

/-- Claim C32. The checks of an assert run in the order resource kind,
response status, expression, path and value; a check that is not declared
gives no result; executeAssert returns the result of the first check that
gives one, which is a Fail or an Error, whatever the later checks would give;
and when no check gives a result, in particular when none is declared, the
result is Pass with the description of the assert as message. What each
check gives is stated with it: the resource kind and the response status
under `equals`, the expression on the values true and false, and the path
and value check in every case. -/
theorem C32_checks_in_order (lib : Lib) (heap : Heap) (ctx : context)
    (assert : testscript.Assert) :
    (∀ r, assertResource ctx assert = Except.ok (some r) →
      executeAssert lib heap ctx assert = Except.ok r) ∧
    (∀ r, assertResource ctx assert = Except.ok none →
      assertResponse ctx assert = Except.ok (some r) →
      executeAssert lib heap ctx assert = Except.ok r) ∧
    (∀ r, assertResource ctx assert = Except.ok none →
      assertResponse ctx assert = Except.ok none →
      assertExpression lib ctx assert = Except.ok (some r) →
      executeAssert lib heap ctx assert = Except.ok r) ∧
    (∀ r, assertResource ctx assert = Except.ok none →
      assertResponse ctx assert = Except.ok none →
      assertExpression lib ctx assert = Except.ok none →
      assertPath lib heap ctx assert = Except.ok (some r) →
      executeAssert lib heap ctx assert = Except.ok r) ∧
    (assertResource ctx assert = Except.ok none →
      assertResponse ctx assert = Except.ok none →
      assertExpression lib ctx assert = Except.ok none →
      assertPath lib heap ctx assert = Except.ok none →
      executeAssert lib heap ctx assert = Except.ok (pass assert.Description)) ∧
    (∀ r, (assertResource ctx assert = Except.ok (some r) ∨
        assertResponse ctx assert = Except.ok (some r) ∨
        assertExpression lib ctx assert = Except.ok (some r) ∨
        assertPath lib heap ctx assert = Except.ok (some r)) →
      r.Result = ActionResultCode.Fail ∨ r.Result = ActionResultCode.Error) ∧
    ((assert.Resource = "" → assertResource ctx assert = Except.ok none) ∧
      (assert.Response = none → assertResponse ctx assert = Except.ok none) ∧
      (assert.Expression = "" → assertExpression lib ctx assert = Except.ok none) ∧
      (assert.Path = "" → assertPath lib heap ctx assert = Except.ok none)) ∧
    (∀ lastResult body actual, assert.Resource ≠ "" → ctx.lastResult = some lastResult →
      lastResult.resource = some body → resourceTypeOf body = some actual →
      assert.Operator = testscript.AssertionOperator.Equals →
      (actual ≠ assert.Resource →
        assertResource ctx assert =
          Except.ok (some (failf "Expect response resource type of `%s` but was `%s`."
            [FmtArg.str assert.Resource, FmtArg.str actual]))) ∧
      (actual = assert.Resource → assertResource ctx assert = Except.ok none)) ∧
    (∀ expected lastResult, assert.Response = some expected →
      ctx.lastResult = some lastResult →
      assert.Operator = testscript.AssertionOperator.Equals →
      (testscript.AssertionResponse.Code expected ≠ lastResult.response.StatusCode →
        assertResponse ctx assert =
          Except.ok (some (failf "Expect response status code equal to `%s` but was `%s`."
            [FmtArg.response expected, FmtArg.str lastResult.response.Status]))) ∧
      (testscript.AssertionResponse.Code expected = lastResult.response.StatusCode →
        assertResponse ctx assert = Except.ok none)) ∧
    (∀ lastResult body expr, assert.Expression ≠ "" →
      lib.Parse assert.Expression = Except.ok expr → ctx.lastResult = some lastResult →
      lastResult.resource = some body →
      (expr.Eval lib.IsUpper [Value.obj body] = Except.ok ([Value.bool false], none) →
        assertExpression lib ctx assert =
          Except.ok (some (failf "FHIRPath expression `%s` didn't evaluate to true."
            [FmtArg.str assert.Expression]))) ∧
      (expr.Eval lib.IsUpper [Value.obj body] = Except.ok ([Value.bool true], none) →
        assertExpression lib ctx assert = Except.ok none)) ∧
    (∀ lastResult, assert.Path ≠ "" → ctx.lastResult = some lastResult →
      (lastResult.resource = none →
        assertPath lib heap ctx assert =
          Except.ok (some
            (errorf "Given JSONPath expression but response resource is missing." []))) ∧
      (∀ body, lastResult.resource = some body →
        (assert.Value = "" →
          assertPath lib heap ctx assert =
            Except.ok (some
              (errorf "Given JSONPath expression but expected value is missing." []))) ∧
        (assert.Value ≠ "" →
          (∀ partialResult err,
            replaceVariables lib heap ctx assert.Value = Except.ok (partialResult, some err) →
            assertPath lib heap ctx assert =
              Except.ok (some (errorf "error while replacing variables in value of `%s`: %s"
                [FmtArg.str assert.Description, FmtArg.error err]))) ∧
          (∀ value, replaceVariables lib heap ctx assert.Value = Except.ok (value, none) →
            (∀ err, lib.JsonPathGet assert.Path body = Except.error err →
              assertPath lib heap ctx assert =
                Except.ok (some (errorf "Error while evaluating JSONPath expression `%s`: %s"
                  [FmtArg.str assert.Path, FmtArg.error err]))) ∧
            (∀ result, lib.JsonPathGet assert.Path body = Except.ok result →
              (value ≠ lib.Sprint result →
                assertPath lib heap ctx assert =
                  Except.ok (some (failf "Expected `%s` but got `%+v`"
                    [FmtArg.str value, FmtArg.value result]))) ∧
              (value = lib.Sprint result →
                assertPath lib heap ctx assert = Except.ok none)))))) := by
  refine ⟨?_, ?_, ?_, ?_, ?_, ?_, ⟨?_, ?_, ?_, ?_⟩, ?_, ?_, ?_, ?_⟩
  · intro r h
    simp [executeAssert, h, pure, Except.pure]
  · intro r h1 h2
    simp [executeAssert, h1, h2, pure, Except.pure]
  · intro r h1 h2 h3
    simp [executeAssert, h1, h2, h3, pure, Except.pure]
  · intro r h1 h2 h3 h4
    simp [executeAssert, h1, h2, h3, h4, pure, Except.pure]
  · intro h1 h2 h3 h4
    simp [executeAssert, h1, h2, h3, h4, pure, Except.pure]
  · intro r h
    rcases h with h | h | h | h
    · exact assertResource_result ctx assert r h
    · exact assertResponse_result ctx assert r h
    · exact assertExpression_result lib ctx assert r h
    · exact assertPath_result lib heap ctx assert r h
  · intro h
    simp [assertResource, h, pure, Except.pure]
  · intro h
    simp [assertResponse, h, pure, Except.pure]
  · intro h
    simp [assertExpression, h, pure, Except.pure]
  · intro h
    simp [assertPath, h, pure, Except.pure]
  · intro lastResult body actual hdecl hlast hbody hkind hop
    constructor
    · intro hne
      simp [assertResource, hdecl, hlast, hbody, hkind, hop,
        testscript.AssertionOperator.Comp, hne, pure, Except.pure]
    · intro heq
      simp [assertResource, hdecl, hlast, hbody, hkind, hop,
        testscript.AssertionOperator.Comp, heq, pure, Except.pure]
  · intro expected lastResult hresp hlast hop
    constructor
    · intro hne
      simp [assertResponse, hresp, hlast, hop, testscript.AssertionOperator.IntComp, hne,
        statusCodeFormat, pure, Except.pure]
    · intro heq
      simp [assertResponse, hresp, hlast, hop, testscript.AssertionOperator.IntComp, heq,
        pure, Except.pure]
  · intro lastResult body expr hdecl hparse hlast hbody
    constructor
    · intro heval
      simp [assertExpression, hdecl, hparse, hlast, hbody, heval, pure, Except.pure]
    · intro heval
      simp [assertExpression, hdecl, hparse, hlast, hbody, heval, pure, Except.pure]
  · intro lastResult hdecl hlast
    constructor
    · intro hbody
      simp [assertPath, hdecl, hlast, hbody, pure, Except.pure]
    · intro body hbody
      constructor
      · intro hvalue
        simp [assertPath, hdecl, hlast, hbody, hvalue, pure, Except.pure]
      · intro hvalue
        constructor
        · intro partialResult err hrepl
          simp [assertPath, hdecl, hlast, hbody, hvalue, hrepl, pure, Except.pure]
        · intro value hrepl
          constructor
          · intro err hget
            simp [assertPath, hdecl, hlast, hbody, hvalue, hrepl, hget, pure, Except.pure]
          · intro result hget
            constructor
            · intro hne
              simp [assertPath, hdecl, hlast, hbody, hvalue, hrepl, hget, hne, pure,
                Except.pure]
            · intro heq
              simp [assertPath, hdecl, hlast, hbody, hvalue, hrepl, hget, heq, pure,
                Except.pure]

/-- Witness for C32: an assert expecting a Patient and the status `okay`,
executed after a Bundle answered with status 404: both checks fail, and the
result is the Fail of the resource-kind check, the first in order. And an
assert declaring only the path `a` and the value `x`, executed on the body
with the member a = b: the path and value check gives a Fail, which is the
result of the assert. -/
theorem C32_checks_in_order_witness :
    (∃ r, assertResponse contextAfterNotFound resourceAndStatusAssert = Except.ok (some r)) ∧
    executeAssert sampleLib { fixtures := [], sent := [] } contextAfterNotFound
        resourceAndStatusAssert =
      Except.ok (failf "Expect response resource type of `%s` but was `%s`."
        [FmtArg.str "Patient", FmtArg.str "Bundle"]) ∧
    assertPath pathLib { fixtures := [], sent := [] }
        (contextWithBody [("a", Value.str "b")]) (pathAssert "a" "x") =
      Except.ok (some (failf "Expected `%s` but got `%+v`"
        [FmtArg.str "x", FmtArg.value (Value.str "b")])) ∧
    executeAssert pathLib { fixtures := [], sent := [] }
        (contextWithBody [("a", Value.str "b")]) (pathAssert "a" "x") =
      Except.ok (failf "Expected `%s` but got `%+v`"
        [FmtArg.str "x", FmtArg.value (Value.str "b")]) :=
  ⟨⟨_, by rfl⟩,
   (C32_checks_in_order sampleLib { fixtures := [], sent := [] } contextAfterNotFound
    resourceAndStatusAssert).1 _ (by rfl),
   by
     have h := (C32_checks_in_order pathLib { fixtures := [], sent := [] }
       (contextWithBody [("a", Value.str "b")]) (pathAssert "a" "x")).2.2.2.2.2.2.2.2.2.2
       { sampleLastResult with resource := some [("a", Value.str "b")] } (by decide) rfl
     have h1 := (h.2 [("a", Value.str "b")] rfl).2 (by decide)
     have h2 := (h1.2 "x" (by rfl)).2 (Value.str "b") rfl
     exact h2.1 (by decide),
   (C32_checks_in_order pathLib { fixtures := [], sent := [] }
      (contextWithBody [("a", Value.str "b")]) (pathAssert "a" "x")).2.2.2.1 _
      (by rfl) (by rfl) (by rfl) (by rfl)⟩

/-! ## The URL of a history request -/

/-- Claim C33. History URL resolution precedence: historyRequestUrl returns
(1) the substituted url field whenever it is non-empty, whatever params and
resource are; else (2) the base, with the resource after a slash when one is
given, followed by the substituted params when params is non-empty; else (3)
that base followed by /_history; and when the substitution in the field that
is used fails, it returns an error and the empty string. -/
theorem C33_history_url_precedence (lib : Lib) (heap : Heap) (ctx : context)
    (op : testscript.Operation) :
    (op.Url ≠ "" →
      (∀ replacement, replaceVariables lib heap ctx op.Url = Except.ok (replacement, none) →
        historyRequestUrl lib heap ctx op = Except.ok (replacement, none)) ∧
      (∀ partialResult err,
        replaceVariables lib heap ctx op.Url = Except.ok (partialResult, some err) →
        historyRequestUrl lib heap ctx op = Except.ok ("", some (GoError.errorf
          "error while replacing variables in operation.url `%s`: %s"
          [FmtArg.str op.Url, FmtArg.error err]))) ∧
      (∀ params resource,
        historyRequestUrl lib heap ctx { op with Params := params, Resource := resource } =
          historyRequestUrl lib heap ctx op)) ∧
    (op.Url = "" → op.Params ≠ "" →
      (∀ replacement, replaceVariables lib heap ctx op.Params = Except.ok (replacement, none) →
        historyRequestUrl lib heap ctx op =
          Except.ok ((if op.Resource ≠ "" then ctx.client.Base ++ "/" ++ op.Resource
            else ctx.client.Base) ++ replacement, none)) ∧
      (∀ partialResult err,
        replaceVariables lib heap ctx op.Params = Except.ok (partialResult, some err) →
        historyRequestUrl lib heap ctx op = Except.ok ("", some (GoError.errorf
          "error while replacing variables in operation.params `%s`: %s"
          [FmtArg.str op.Params, FmtArg.error err])))) ∧
    (op.Url = "" → op.Params = "" →
      historyRequestUrl lib heap ctx op =
        Except.ok ((if op.Resource ≠ "" then ctx.client.Base ++ "/" ++ op.Resource
          else ctx.client.Base) ++ "/_history", none)) := by
  refine ⟨?_, ?_, ?_⟩
  · intro hurl
    refine ⟨?_, ?_, ?_⟩
    · intro replacement h
      simp [historyRequestUrl, hurl, h, pure, Except.pure]
    · intro partialResult err h
      simp [historyRequestUrl, hurl, h, pure, Except.pure]
    · intro params resource
      simp [historyRequestUrl, hurl]
  · intro hurl hparams
    refine ⟨?_, ?_⟩
    · intro replacement h
      simp [historyRequestUrl, historyBaseUrl, hurl, hparams, h, pure, Except.pure]
    · intro partialResult err h
      simp [historyRequestUrl, hurl, hparams, h, pure, Except.pure]
  · intro hurl hparams
    simp [historyRequestUrl, historyBaseUrl, hurl, hparams, pure, Except.pure]

/-- Witness for C33: with url `u`, params `?p` and resource `Patient` the URL
is `u`; without url it is the base, `/Patient` and `?p`; without url and
params it is the base, `/Patient` and `/_history`. -/
theorem C33_history_url_precedence_witness :
    historyRequestUrl sampleLib { fixtures := [], sent := [] } sampleContext
        (historyOperation "u" "?p" "Patient") = Except.ok ("u", none) ∧
    historyRequestUrl sampleLib { fixtures := [], sent := [] } sampleContext
        (historyOperation "" "?p" "Patient") =
      Except.ok ("http://localhost/fhir/Patient?p", none) ∧
    historyRequestUrl sampleLib { fixtures := [], sent := [] } sampleContext
        (historyOperation "" "" "Patient") =
      Except.ok ("http://localhost/fhir/Patient/_history", none) :=
  ⟨(C33_history_url_precedence sampleLib { fixtures := [], sent := [] } sampleContext
      (historyOperation "u" "?p" "Patient")).1 (by decide) |>.1 "u" (by rfl),
   ((C33_history_url_precedence sampleLib { fixtures := [], sent := [] } sampleContext
      (historyOperation "" "?p" "Patient")).2.1 rfl (by decide)).1 "?p" (by rfl),
   (C33_history_url_precedence sampleLib { fixtures := [], sent := [] } sampleContext
      (historyOperation "" "" "Patient")).2.2 rfl rfl⟩

/-! ## The create operation -/

/-- C34 as stated fails: a create operation whose sourceId names a fixture
holding a Patient, in a library where the create request cannot be built, is
none of the three conditions, and yet the result is an Error and no request
is issued. -/
theorem C34_counterexample :
    (createOperation "F" "").SourceId = "F" ∧
    heapWithPatient.resource "F" = some [("resourceType", Value.str "Patient")] ∧
    resourceTypeOf [("resourceType", Value.str "Patient")] = some "Patient" ∧
    executeCreateOperation noCreateRequestLib heapWithPatient sampleContext
        (createOperation "F" "") =
      Except.ok (heapWithPatient, sampleContext,
        errorf "Error while creating create request: %s"
          [FmtArg.error (GoError.lib "invalid URL")]) :=
  ⟨rfl, rfl, rfl, by rfl⟩

/-- C34 amended: a create operation yields an Error result and issues no
request under five conditions with five different messages: (a) the sourceId
is empty, (b) no fixture with a body exists under the sourceId, (c) the body
has no string resourceType field, (d) the body cannot be serialised, (e) the
request cannot be built; the results of (a), (b) and (c) are pairwise
distinct; in all other cases the request built for the body's resourceType
and the serialised body is issued. -/
theorem C34_create_error_conditions (lib : Lib) (heap : Heap) (ctx : context)
    (op : testscript.Operation) :
    (op.SourceId = "" →
      executeCreateOperation lib heap ctx op =
        Except.ok (heap, ctx, errorf "create operation without source id" [])) ∧
    (op.SourceId ≠ "" → heap.resource op.SourceId = none →
      executeCreateOperation lib heap ctx op =
        Except.ok (heap, ctx, errorf "fixture `%s` not found" [FmtArg.str op.SourceId])) ∧
    (∀ body, op.SourceId ≠ "" → heap.resource op.SourceId = some body →
      resourceTypeOf body = none →
      executeCreateOperation lib heap ctx op =
        Except.ok (heap, ctx,
          errorf "fixture `%s` has no resource type" [FmtArg.str op.SourceId])) ∧
    (∀ body resourceType err, op.SourceId ≠ "" → heap.resource op.SourceId = some body →
      resourceTypeOf body = some resourceType → lib.Marshal body = Except.error err →
      executeCreateOperation lib heap ctx op =
        Except.ok (heap, ctx,
          errorf "Error while preparing create request: %s" [FmtArg.error err])) ∧
    (∀ body resourceType payload err, op.SourceId ≠ "" →
      heap.resource op.SourceId = some body →
      resourceTypeOf body = some resourceType → lib.Marshal body = Except.ok payload →
      lib.NewCreateRequest ctx.client resourceType payload = Except.error err →
      executeCreateOperation lib heap ctx op =
        Except.ok (heap, ctx,
          errorf "Error while creating create request: %s" [FmtArg.error err])) ∧
    (∀ body resourceType payload req, op.SourceId ≠ "" →
      heap.resource op.SourceId = some body →
      resourceTypeOf body = some resourceType → lib.Marshal body = Except.ok payload →
      lib.NewCreateRequest ctx.client resourceType payload = Except.ok req →
      ∃ ctx1 r, executeCreateOperation lib heap ctx op =
        Except.ok ({ heap with sent := heap.sent ++ [req] }, ctx1, r)) ∧
    (errorf "create operation without source id" [] ≠
        errorf "fixture `%s` not found" [FmtArg.str op.SourceId] ∧
      errorf "create operation without source id" [] ≠
        errorf "fixture `%s` has no resource type" [FmtArg.str op.SourceId] ∧
      errorf "fixture `%s` not found" [FmtArg.str op.SourceId] ≠
        errorf "fixture `%s` has no resource type" [FmtArg.str op.SourceId]) := by
  refine ⟨?_, ?_, ?_, ?_, ?_, ?_, ?_, ?_, ?_⟩
  · intro h
    simp [executeCreateOperation, h, pure, Except.pure]
  · intro h hres
    simp [executeCreateOperation, h, hres, pure, Except.pure]
  · intro body h hres hkind
    simp [executeCreateOperation, h, hres, hkind, pure, Except.pure]
  · intro body resourceType err h hres hkind hm
    simp [executeCreateOperation, h, hres, hkind, hm, pure, Except.pure]
  · intro body resourceType payload err h hres hkind hm hreq
    simp [executeCreateOperation, h, hres, hkind, hm, hreq, pure, Except.pure]
  · intro body resourceType payload req h hres hkind hm hreq
    simp only [executeCreateOperation, h, hres, hkind, hm, hreq, ne_eq, not_false_eq_true,
      if_true, pure, Except.pure]
    cases hdo : lib.Do ctx.client heap.sent req with
    | error err => exact ⟨_, _, rfl⟩
    | ok resp =>
      cases hread : lib.ReadGeneric resp.Body with
      | error err =>
        simp only [hread]
        exact ⟨_, _, rfl⟩
      | ok resource1 =>
        simp only [hread]
        exact ⟨_, _, rfl⟩
  · intro h
    have := congrArg (fun r : ActionResult => r.Message) h
    simp [errorf, actionResult] at this
  · intro h
    have := congrArg (fun r : ActionResult => r.Message) h
    simp [errorf, actionResult] at this
  · intro h
    have := congrArg (fun r : ActionResult => r.Message) h
    simp [errorf, actionResult] at this

/-- Witness of C34 amended: a create operation without sourceId is an Error
and issues no request; a create operation on the fixture `F` holding a
Patient issues the request built for a Patient. -/
theorem C34_create_error_conditions_witness :
    executeCreateOperation sampleLib heapWithPatient sampleContext (createOperation "" "") =
      Except.ok (heapWithPatient, sampleContext,
        errorf "create operation without source id" []) ∧
    ∃ ctx1 r, executeCreateOperation sampleLib heapWithPatient sampleContext
        (createOperation "F" "") =
      Except.ok ({ heapWithPatient with sent := heapWithPatient.sent ++ [sampleCreateRequest] },
        ctx1, r) :=
  ⟨(C34_create_error_conditions sampleLib heapWithPatient sampleContext
      (createOperation "" "")).1 rfl,
   (C34_create_error_conditions sampleLib heapWithPatient sampleContext
      (createOperation "F" "")).2.2.2.2.2.1 [("resourceType", Value.str "Patient")] "Patient" ""
      sampleCreateRequest (by decide) rfl rfl rfl rfl⟩

/-- A create operation never writes the fixture table, whatever its
responseId is. -/
theorem executeCreateOperation_fixtures (lib : Lib) (heap heap1 : Heap) (ctx ctx1 : context)
    (op : testscript.Operation) (r : ActionResult)
    (h : executeCreateOperation lib heap ctx op = Except.ok (heap1, ctx1, r)) :
    heap1.fixtures = heap.fixtures := by
  simp only [executeCreateOperation, pure, Except.pure] at h
  repeat' split at h
  all_goals (cases h; rfl)

/-- C35, the code at the failing input: a create operation declaring the
responseId `R` succeeds and records the decoded response as the last result,
but the fixture table is left as it was and holds nothing under `R`; the
history operation declaring the same responseId and answered in the same way
stores the response headers and the decoded body under `R`. -/
theorem C35_create_does_not_capture :
    executeCreateOperation sampleLib heapWithPatient sampleContext (createOperation "F" "R") =
      Except.ok ({ fixtures := heapWithPatient.fixtures, sent := [sampleCreateRequest] },
        { sampleContext with
          lastResult := some { request := sampleCreateRequest, response := sampleResponse,
                               resource := some decodedBundle } },
        passf "Successful create %s request" [FmtArg.str "Patient"]) ∧
    heapWithPatient.fixtures.lookup "R" = none ∧
    executeHistoryOperation sampleLib heapWithPatient sampleContext
        { sampleOperation "history" with ResponseId := "R" } =
      Except.ok ({ fixtures := mapSet heapWithPatient.fixtures "R"
                      { headers := sampleResponse.Header, resource := some decodedBundle },
                   sent := [sampleHistoryRequest] },
        { sampleContext with
          lastResult := some { request := sampleHistoryRequest, response := sampleResponse,
                               resource := some decodedBundle } },
        pass "Successful system history request") :=
  ⟨by rfl, by rfl, by rfl⟩

/-! ## Comparison with a result collection -/

/-- Claim C36. AssertionOperator.CompWithResult: for every value string and
result collection, Equals returns true iff the result has exactly one element
whose text rendering equals the value, NotEquals returns true iff the result
has exactly one element whose text rendering differs from the value, the two
are never both true, no operator aborts on an index (the empty result
included), and every other operator returns an error. -/
theorem C36_comp_with_result (sprint : Value → String) (value : String)
    (result : List Value) :
    (∃ b, testscript.AssertionOperator.Equals.CompWithResult sprint value result =
        Except.ok (b, none) ∧
      (b = true ↔ ∃ r, result = [r] ∧ value = sprint r)) ∧
    (∃ b, testscript.AssertionOperator.NotEquals.CompWithResult sprint value result =
        Except.ok (b, none) ∧
      (b = true ↔ ∃ r, result = [r] ∧ value ≠ sprint r)) ∧
    ¬ (testscript.AssertionOperator.Equals.CompWithResult sprint value result =
        Except.ok (true, none) ∧
      testscript.AssertionOperator.NotEquals.CompWithResult sprint value result =
        Except.ok (true, none)) ∧
    (∀ op : testscript.AssertionOperator,
      ∃ x, op.CompWithResult sprint value result = Except.ok x) ∧
    (∀ op : testscript.AssertionOperator,
      op ≠ testscript.AssertionOperator.Equals → op ≠ testscript.AssertionOperator.NotEquals →
      op.CompWithResult sprint value result =
        Except.ok (false, some (GoError.errorf "unsupported assertion operator `%s`"
          [FmtArg.str op.String_]))) := by
  have heq : ∃ b, testscript.AssertionOperator.Equals.CompWithResult sprint value result =
        Except.ok (b, none) ∧
      (b = true ↔ ∃ r, result = [r] ∧ value = sprint r) := by
    cases result with
    | nil => exact ⟨false, by rfl, by simp⟩
    | cons r more =>
      cases more with
      | nil =>
        refine ⟨decide (value = sprint r), by rfl, ?_⟩
        simp
      | cons r2 more2 =>
        refine ⟨false, ?_, by simp⟩
        simp [testscript.AssertionOperator.CompWithResult, pure, Except.pure]
  have hne : ∃ b, testscript.AssertionOperator.NotEquals.CompWithResult sprint value result =
        Except.ok (b, none) ∧
      (b = true ↔ ∃ r, result = [r] ∧ value ≠ sprint r) := by
    cases result with
    | nil => exact ⟨false, by rfl, by simp⟩
    | cons r more =>
      cases more with
      | nil =>
        refine ⟨decide (value ≠ sprint r), by rfl, ?_⟩
        simp
      | cons r2 more2 =>
        refine ⟨false, ?_, by simp⟩
        simp [testscript.AssertionOperator.CompWithResult, pure, Except.pure]
  refine ⟨heq, hne, ?_, ?_, ?_⟩
  · rintro ⟨h1, h2⟩
    obtain ⟨b1, hb1, hi1⟩ := heq
    obtain ⟨b2, hb2, hi2⟩ := hne
    rw [hb1] at h1
    rw [hb2] at h2
    cases h1
    cases h2
    obtain ⟨r, hr, hv⟩ := hi1.mp rfl
    obtain ⟨r2, hr2, hv2⟩ := hi2.mp rfl
    rw [hr] at hr2
    cases hr2
    exact hv2 hv
  · intro op
    cases op
    case Equals => exact ⟨_, heq.choose_spec.1⟩
    case NotEquals => exact ⟨_, hne.choose_spec.1⟩
    all_goals exact ⟨_, rfl⟩
  · intro op h1 h2
    cases op <;> first | exact absurd rfl h1 | exact absurd rfl h2 | rfl

/-- Witness for C36, the repository's test: Equals with `0` and [0.0] is
true, NotEquals with `0` and [1.0] is true; and the operator `in` returns
an error. -/
theorem C36_comp_with_result_witness :
    testscript.AssertionOperator.Equals.CompWithResult testSprint "0"
        [Value.float (Float64.finite 0)] = Except.ok (true, none) ∧
    testscript.AssertionOperator.NotEquals.CompWithResult testSprint "0"
        [Value.float (Float64.finite 1)] = Except.ok (true, none) ∧
    testscript.AssertionOperator.In.CompWithResult testSprint "0"
        [Value.float (Float64.finite 0)] =
      Except.ok (false, some (GoError.errorf "unsupported assertion operator `%s`"
        [FmtArg.str "in"])) :=
  ⟨by rfl, by rfl,
   (C36_comp_with_result testSprint "0" [Value.float (Float64.finite 0)]).2.2.2.2
    testscript.AssertionOperator.In (by decide) (by decide)⟩

/-! ## One result per action -/

/-- Claim C37. Every reported Action is exactly one of Operation result or
Assert result: on a document action with an Operation, executeAction executes
the Operation and returns its context and a report Action with only the
Operation result set, whatever Assert is declared with it; on an action with
only an Assert it returns the context unchanged and a report Action with only
the Assert result set; on an action with neither it aborts with a panic and
produces no ActionResult. -/
theorem C37_one_result_per_action (lib : Lib) (heap : Heap) (ctx : context)
    (action : testscript.Action) :
    (∀ operation heap1 ctx1 r, action.Operation = some operation →
      executeOperation lib heap ctx operation = Except.ok (heap1, ctx1, r) →
      executeAction lib heap ctx action =
        Except.ok (heap1, ctx1, { Operation := some r, Assert := none })) ∧
    (∀ operation, action.Operation = some operation → ∀ declared : Option testscript.Assert,
      executeAction lib heap ctx { action with Assert := declared } =
        executeAction lib heap ctx action) ∧
    (∀ assert r, action.Operation = none → action.Assert = some assert →
      executeAssert lib heap ctx assert = Except.ok r →
      executeAction lib heap ctx action =
        Except.ok (heap, ctx, { Operation := none, Assert := some r })) ∧
    (action.Operation = none → action.Assert = none →
      executeAction lib heap ctx action =
        Except.error (Panic.explicit "TestScript action without operation or assert")) ∧
    (∀ heap1 ctx1 report, executeAction lib heap ctx action = Except.ok (heap1, ctx1, report) →
      (report.Operation.isSome = true ∧ report.Assert = none) ∨
        (report.Operation = none ∧ report.Assert.isSome = true)) := by
  refine ⟨?_, ?_, ?_, ?_, ?_⟩
  · intro operation heap1 ctx1 r hop h
    simp [executeAction, hop, h, pure, Except.pure]
  · intro operation hop declared
    simp [executeAction, hop]
  · intro assert r hop hassert h
    simp [executeAction, hop, hassert, h, pure, Except.pure]
  · intro hop hassert
    simp [executeAction, hop, hassert, throw, throwThe, MonadExceptOf.throw]
  · intro heap1 ctx1 report h
    simp only [executeAction, pure, Except.pure, throw, throwThe, MonadExceptOf.throw] at h
    repeat' split at h
    all_goals (cases h <;> simp)

/-- Witness for C37: an action declaring a history operation and an assert
reports the result of the operation only; an action declaring neither
aborts. -/
theorem C37_one_result_per_action_witness :
    executeAction sampleLib { fixtures := [], sent := [] } sampleContext
        operationAndAssertAction =
      Except.ok ({ fixtures := [], sent := [sampleHistoryRequest] },
        { sampleContext with lastResult := some sampleLastResult },
        { Operation := some (pass "Successful system history request"), Assert := none }) ∧
    executeAction sampleLib { fixtures := [], sent := [] } sampleContext emptyAction =
      Except.error (Panic.explicit "TestScript action without operation or assert") :=
  ⟨(C37_one_result_per_action sampleLib { fixtures := [], sent := [] } sampleContext
      operationAndAssertAction).1 (sampleOperation "history") _ _ _ rfl (by rfl),
   (C37_one_result_per_action sampleLib { fixtures := [], sent := [] } sampleContext
      emptyAction).2.2.2.1 rfl rfl⟩

/-! ## The direction of the response-status check -/

/-- The response-status check of an assert hands the expected code to
`IntComp` first and the actual status code second: under `greaterThan` it
gives no result iff the expected code is greater than the actual one, under
`lessThan` iff the expected code is less than the actual one. -/
theorem assertResponse_direction (ctx : context) (assert : testscript.Assert)
    (expected : AssertionResponse) (lastResult : operationResult)
    (hresp : assert.Response = some expected) (hlast : ctx.lastResult = some lastResult) :
    (assert.Operator = testscript.AssertionOperator.GreaterThan →
      (assertResponse ctx assert = Except.ok none ↔
        testscript.AssertionResponse.Code expected > lastResult.response.StatusCode)) ∧
    (assert.Operator = testscript.AssertionOperator.LessThan →
      (assertResponse ctx assert = Except.ok none ↔
        testscript.AssertionResponse.Code expected < lastResult.response.StatusCode)) := by
  constructor
  · intro hop
    by_cases h : testscript.AssertionResponse.Code expected > lastResult.response.StatusCode
    · simp [assertResponse, hresp, hlast, hop, testscript.AssertionOperator.IntComp, h, pure,
        Except.pure]
    · simp [assertResponse, hresp, hlast, hop, testscript.AssertionOperator.IntComp, h, pure,
        Except.pure]
  · intro hop
    by_cases h : testscript.AssertionResponse.Code expected < lastResult.response.StatusCode
    · simp [assertResponse, hresp, hlast, hop, testscript.AssertionOperator.IntComp, h, pure,
        Except.pure]
    · simp [assertResponse, hresp, hlast, hop, testscript.AssertionOperator.IntComp, h, pure,
        Except.pure]

/-- C38, the code at the failing input: the last response has the status code
404 and the assert expects `okay`, 200. Under `greaterThan` the actual code is
greater than the expected one and the result is a Fail; under `lessThan` the
actual code is not less than the expected one and the result is a Pass. -/
theorem C38_status_comparison_reversed :
    testscript.AssertionResponse.Code testscript.Okay = 200 ∧
    (∃ lastResult, contextAfterNotFound.lastResult = some lastResult ∧
      lastResult.response.StatusCode = 404) ∧
    executeAssert sampleLib { fixtures := [], sent := [] } contextAfterNotFound
        (statusAssert testscript.AssertionOperator.GreaterThan) =
      Except.ok (failf "Unknown comparison between `%s` and `%s`."
        [FmtArg.response testscript.Okay, FmtArg.str "404 Not Found"]) ∧
    executeAssert sampleLib { fixtures := [], sent := [] } contextAfterNotFound
        (statusAssert testscript.AssertionOperator.LessThan) =
      Except.ok (pass "") :=
  ⟨rfl, ⟨_, rfl, rfl⟩, by rfl, by rfl⟩

/-! ## Identifier nodes with an empty name -/

/-- C39, the code at the failing inputs: the parser builds, for the keywords
`as` and `is` and for a back-tick delimited identifier, an Identifier node
whose `Identifier` field is empty; on every such node and every input
collection `Identifier.Eval` indexes the first character of the empty name
and panics; so the expressions `as`, `is` and a delimited identifier parse
and their evaluation aborts on every collection. -/
theorem C39_empty_identifier_panics :
    (∀ (isUpper : Char → Bool) (coll : List Value) (as_ is_ delimited : String),
      Identifier.Eval isUpper
        { As := as_, Is := is_, Identifier := "", DelimitedIdentifier := delimited } coll =
        Except.error Panic.indexOutOfRange) ∧
    parseIdentifier [⟨Symbol.Identifier, "as"⟩] =
      some ({ As := "as", Is := "", Identifier := "", DelimitedIdentifier := "" }, []) ∧
    parseIdentifier [⟨Symbol.Identifier, "is"⟩] =
      some ({ As := "", Is := "is", Identifier := "", DelimitedIdentifier := "" }, []) ∧
    parseIdentifier [⟨Symbol.DelimitedIdentifier, "`x`"⟩] =
      some ({ As := "", Is := "", Identifier := "", DelimitedIdentifier := "`x`" }, []) ∧
    (∀ parseFloat : String → Option Float64,
      Parse parseFloat "as" = Except.ok (Expression.mk (EqualityExpression.mk
        (inequalityOfTerm (identifierNodeTerm
          { As := "as", Is := "", Identifier := "", DelimitedIdentifier := "" }))
        Operator.OpMul none)) ∧
      Parse parseFloat "`x`" = Except.ok (Expression.mk (EqualityExpression.mk
        (inequalityOfTerm (identifierNodeTerm
          { As := "", Is := "", Identifier := "", DelimitedIdentifier := "`x`" }))
        Operator.OpMul none))) ∧
    (∀ (isUpper : Char → Bool) (coll : List Value) (as_ is_ delimited : String),
      (Expression.mk (EqualityExpression.mk
        (inequalityOfTerm (identifierNodeTerm
          { As := as_, Is := is_, Identifier := "", DelimitedIdentifier := delimited }))
        Operator.OpMul none)).Eval isUpper coll = Except.error Panic.indexOutOfRange) :=
  ⟨fun _ _ _ _ _ => rfl, rfl, rfl, rfl, fun _ => ⟨by rfl, by rfl⟩, fun _ _ _ _ _ => by rfl⟩

/-! ## Operations that end in an Error -/

/-- A history operation that ends in an Error returns the context it was
given and leaves the fixture table as it was. -/
theorem executeHistoryOperation_error (lib : Lib) (heap heap1 : Heap) (ctx ctx1 : context)
    (op : testscript.Operation) (r : ActionResult)
    (h : executeHistoryOperation lib heap ctx op = Except.ok (heap1, ctx1, r))
    (herr : r.Result = ActionResultCode.Error) :
    ctx1 = ctx ∧ heap1.fixtures = heap.fixtures := by
  simp only [executeHistoryOperation, pure, Except.pure, throw, throwThe,
    MonadExceptOf.throw] at h
  repeat' split at h
  all_goals (cases h <;> first | exact ⟨rfl, rfl⟩ | simp [pass] at herr)

/-- A create operation that ends in an Error returns the context it was
given and leaves the fixture table as it was. -/
theorem executeCreateOperation_error (lib : Lib) (heap heap1 : Heap) (ctx ctx1 : context)
    (op : testscript.Operation) (r : ActionResult)
    (h : executeCreateOperation lib heap ctx op = Except.ok (heap1, ctx1, r))
    (herr : r.Result = ActionResultCode.Error) :
    ctx1 = ctx ∧ heap1.fixtures = heap.fixtures := by
  simp only [executeCreateOperation, pure, Except.pure] at h
  repeat' split at h
  all_goals (cases h; first | exact ⟨rfl, rfl⟩ | simp [passf] at herr)

/-- Claim C40. Operation failure is atomic on the execution context: whenever
executeOperation returns an Error result, the returned context is the input
context, last-operation result included, and the fixture table is the one of
the input; for an operation kind other than history and create the result is
the Error whose message names that kind. -/
theorem C40_operation_failure_is_atomic (lib : Lib) (heap heap1 : Heap) (ctx ctx1 : context)
    (op : testscript.Operation) (r : ActionResult)
    (h : executeOperation lib heap ctx op = Except.ok (heap1, ctx1, r))
    (herr : r.Result = ActionResultCode.Error) :
    ctx1 = ctx ∧ ctx1.lastResult = ctx.lastResult ∧ heap1.fixtures = heap.fixtures ∧
    (∀ coding, op.Type_ = some coding → coding.Code ≠ "history" → coding.Code ≠ "create" →
      r = errorf "unsupported operation type `%s`" [FmtArg.str coding.Code]) := by
  cases hty : op.Type_ with
  | none => simp [executeOperation, hty, throw, throwThe, MonadExceptOf.throw] at h
  | some coding =>
    simp only [executeOperation, hty] at h
    by_cases h1 : coding.Code = "history"
    · simp only [h1, if_true] at h
      obtain ⟨hc, hf⟩ := executeHistoryOperation_error lib heap heap1 ctx ctx1 op r h herr
      refine ⟨hc, by rw [hc], hf, ?_⟩
      intro c hcod hne _
      cases hcod
      exact absurd h1 hne
    · by_cases h2 : coding.Code = "create"
      · simp only [h1, h2, if_false, if_true] at h
        obtain ⟨hc, hf⟩ := executeCreateOperation_error lib heap heap1 ctx ctx1 op r h herr
        refine ⟨hc, by rw [hc], hf, ?_⟩
        intro c hcod _ hne
        cases hcod
        exact absurd h2 hne
      · simp only [h1, h2, if_false, pure, Except.pure] at h
        cases h
        refine ⟨rfl, rfl, rfl, ?_⟩
        intro c hcod _ _
        cases hcod
        rfl

/-- Witness for C40: an operation of kind `delete`, executed after a history
operation, is an Error naming `delete`, and the context with its last result
is returned as it was. -/
theorem C40_operation_failure_is_atomic_witness :
    executeOperation sampleLib heapWithPatient contextAfterHistory (sampleOperation "delete") =
      Except.ok (heapWithPatient, contextAfterHistory,
        errorf "unsupported operation type `%s`" [FmtArg.str "delete"]) ∧
    (contextAfterHistory = contextAfterHistory ∧
      contextAfterHistory.lastResult = contextAfterHistory.lastResult ∧
      heapWithPatient.fixtures = heapWithPatient.fixtures ∧
      ∀ coding, (sampleOperation "delete").Type_ = some coding → coding.Code ≠ "history" →
        coding.Code ≠ "create" →
        errorf "unsupported operation type `%s`" [FmtArg.str "delete"] =
          errorf "unsupported operation type `%s`" [FmtArg.str coding.Code]) :=
  ⟨by rfl,
   C40_operation_failure_is_atomic sampleLib heapWithPatient heapWithPatient
    contextAfterHistory contextAfterHistory (sampleOperation "delete")
    (errorf "unsupported operation type `%s`" [FmtArg.str "delete"]) (by rfl) rfl⟩

end Blazectl
